import Mathlib

/-!
Verification development for the control-flow-graph builder of the
`cubecl-opt` crate (`src/crates/cubecl-opt/src/control_flow.rs`).

The builder lowers structured branch constructs (if / if-else / switch /
unconditional loop / counted range loop / return / break) into an explicit
graph of basic blocks, and a post-pass (`split_critical_edges`) removes
critical edges.  We give a shallow embedding: the node arena is a `List`
of basic blocks addressed by position, edges are an ordered list of pairs,
and the recursive lowering is a fuel-indexed interpreter returning
`Except BuildErr`.  Panics (`unwrap` / `expect` / `unreachable!`) in the
Rust source are modelled as fatal `BuildErr` values.
-/

set_option maxHeartbeats 1000000
set_option linter.unreachableTactic false
set_option linter.unusedTactic false
set_option linter.unnecessarySeqFocus false

namespace CubeCFG

/-- Scalar element type (from `cubecl_core::ir::Elem`, reduced to what the
builder touches: `Elem::Bool` is the only one it constructs itself). -/
inductive Elem where
  | bool
  | int
  | uint
  | float
deriving DecidableEq, Repr

/-- Item (vectorized type); only the element matters for the builder. -/
structure Item where
  elem : Elem
deriving DecidableEq, Repr

/-- Width tag of a signed constant; opaque payload. -/
inductive IntKind where
  | i32
  | i64
deriving DecidableEq, Repr

/-- Width tag of a float constant; opaque payload. -/
inductive FloatKind where
  | f32
  | f64
deriving DecidableEq, Repr

/-- Compile-time constant scalar (`ConstantScalarValue`).  Signed values are
mathematical integers (the Rust payload is an `i64`), unsigned values are
naturals (the Rust payload is a `u64`); floats are kept opaque because the
builder never inspects them beyond the integer check. -/
inductive ConstantScalarValue where
  | int (v : Int) (k : IntKind)
  | uint (v : Nat)
  | float (payload : Nat) (k : FloatKind)
  | bool (b : Bool)
deriving DecidableEq, Repr

/-- Variables (`cubecl_core::ir::Variable`), reduced to the shapes the
builder distinguishes: constants, locals (matched on by `parse_for_loop`),
the fresh temporaries it creates, and an opaque remainder. -/
inductive Variable where
  | constantScalar (v : ConstantScalarValue)
  | localVar (id : Nat) (depth : Nat) (item : Item)
  | temp (id : Nat) (item : Item)
  | other (payload : Nat) (item : Item)
deriving DecidableEq, Repr

/-- Item of a variable (`Variable::item`).  Constants get the item of their
scalar kind; the exact mapping is irrelevant to every claim. -/
def Variable.item : Variable → Item
  | .constantScalar (.int _ _) => ⟨.int⟩
  | .constantScalar (.uint _) => ⟨.uint⟩
  | .constantScalar (.float _ _) => ⟨.float⟩
  | .constantScalar (.bool _) => ⟨.bool⟩
  | .localVar _ _ item => item
  | .temp _ item => item
  | .other _ item => item

/-- `Variable::as_const`: a constant scalar if the variable is one. -/
def Variable.asConst : Variable → Option ConstantScalarValue
  | .constantScalar v => some v
  | _ => Option.none

/-- Instructions stored in a block.  The builder synthesizes assignment,
comparison and addition (`parse_for_loop`) and forwards everything else as
opaque payloads. -/
inductive Operation where
  | generic (payload : Nat)
  | select (payload : Nat)
  | assign (input out : Variable)
  | lower (lhs rhs out : Variable)
  | lowerEqual (lhs rhs out : Variable)
  | add (lhs rhs out : Variable)
deriving DecidableEq, Repr

/-- Control flow that terminates a block (`ControlFlow` in the source). -/
inductive ControlFlow where
  | ifElse (cond : Variable) (thenId orElse : Nat) (merge : Option Nat)
  | switch (value : Variable) (default : Nat) (branches : List (Nat × Nat))
      (merge : Option Nat)
  | loop (body continueTarget merge : Nat)
  | loopBreak (breakCond : Variable) (body continueTarget merge : Nat)
  | ret
  | none
deriving DecidableEq, Repr

/-- Block-use flags (`BlockUse`). -/
inductive BlockUse where
  | merge
  | continueTarget
deriving DecidableEq, Repr

/-- One phi entry: the reaching definition along the edge from `block`;
the value itself is opaque. -/
structure PhiEntry where
  block : Nat
  value : Nat
deriving DecidableEq, Repr

/-- Phi placeholder for a variable `(id, depth)`. -/
structure Phi where
  var : Nat × Nat
  item : Item
  entries : List PhiEntry
deriving DecidableEq, Repr

/-- Basic block (`BasicBlock`): ops, terminator, flags, phi placeholders. -/
structure BasicBlock where
  ops : List Operation := []
  controlFlow : ControlFlow := .none
  blockUse : List BlockUse := []
  phiNodes : List Phi := []
deriving DecidableEq, Repr

instance : Inhabited BasicBlock := ⟨{}⟩

/-- The graph: a node arena (node ids are list positions, assigned in
construction order and never removed) plus an edge list and the variable
table filled by `parse_for_loop`. -/
structure Program where
  blocks : List BasicBlock := []
  edges : List (Nat × Nat) := []
  varTable : List ((Nat × Nat) × Item) := []
deriving DecidableEq, Repr

/-- Fatal abort reasons; each corresponds to a panic site in the source
(`unwrap` / `expect` / `unreachable!`), plus fuel exhaustion of the
interpreter (which has no counterpart in the source: the source recursion
is structural in the AST). -/
inductive BuildErr where
  /-- `self.current_block.take().unwrap()` / `current_block_mut()` on an
  unset cursor. -/
  | cursorUnset
  /-- `self.loop_break.back().expect("Can't break outside loop")`. -/
  | brokeOutsideLoop
  /-- `self.current_block.expect("For loop has no loopback path")`. -/
  | noLoopbackPath
  /-- `val.as_const().expect("Switch value must be constant")`. -/
  | nonConstSwitch
  /-- `unreachable!("Switch cases must be integer")`. -/
  | nonIntSwitch
  /-- `unreachable!()` when a range loop induction variable is not a local. -/
  | rangeVarNotLocal
  /-- Interpreter fuel ran out. -/
  | fuel
deriving DecidableEq, Repr

abbrev Res (α : Type) := Except BuildErr α

instance {ε α : Type} [DecidableEq ε] [DecidableEq α] :
    DecidableEq (Except ε α) := fun a b =>
  match a, b with
  | .ok x, .ok y =>
      if h : x = y then .isTrue (by rw [h]) else .isFalse (by simp [h])
  | .ok _, .error _ => .isFalse (by simp)
  | .error _, .ok _ => .isFalse (by simp)
  | .error x, .error y =>
      if h : x = y then .isTrue (by rw [h]) else .isFalse (by simp [h])

/-- Build context (`Optimizer` restricted to the state the builder uses):
the program graph, the open-block cursor, the canonical return node id,
the break-target stack, and a counter backing `create_temporary`.
The break stack is a Rust `VecDeque` used via `push_back` / `back` /
`pop_back`, i.e. a stack at the back; we store it with the innermost
(most recently pushed) entry at the head of the list. -/
structure Opt where
  program : Program := {}
  currentBlock : Option Nat := Option.none
  ret : Nat := 0
  loopBreak : List Nat := []
  tempId : Nat := 0
deriving DecidableEq, Repr

namespace Opt

/-- Number of allocated nodes. -/
def len (opt : Opt) : Nat := opt.program.blocks.length

/-- The block stored at index `b` (blocks are never removed, so indices
below `len` are always valid; out-of-range reads give the default block). -/
def blockAt (opt : Opt) (b : Nat) : BasicBlock := opt.program.blocks.getD b default

/-- Terminator of block `b`. -/
def cf (opt : Opt) (b : Nat) : ControlFlow := (opt.blockAt b).controlFlow

/-- Flags of block `b`. -/
def flags (opt : Opt) (b : Nat) : List BlockUse := (opt.blockAt b).blockUse

/-- Ops of block `b`. -/
def opsOf (opt : Opt) (b : Nat) : List Operation := (opt.blockAt b).ops

/-- Phis of block `b`. -/
def phisOf (opt : Opt) (b : Nat) : List Phi := (opt.blockAt b).phiNodes

/-- Edge list. -/
def edges (opt : Opt) : List (Nat × Nat) := opt.program.edges

/-- Number of edges into `b` (edges are counted with multiplicity, exactly
as petgraph's `neighbors_directed(_, Incoming)` walk does). -/
def indeg (opt : Opt) (b : Nat) : Nat :=
  opt.edges.countP (fun e => e.2 = b)

/-- Number of edges out of `b`. -/
def outdeg (opt : Opt) (b : Nat) : Nat :=
  opt.edges.countP (fun e => e.1 = b)

/-- `self.program.add_node(BasicBlock::default())`: appends a fresh block,
returning its id. -/
def addNode (opt : Opt) : Opt × Nat :=
  ({ opt with program :=
      { opt.program with blocks := opt.program.blocks ++ [default] } },
   opt.program.blocks.length)

/-- `self.program.add_edge(a, b, ())`. -/
def addEdge (opt : Opt) (a b : Nat) : Opt :=
  { opt with program := { opt.program with edges := opt.program.edges ++ [(a, b)] } }

/-- Replace the block at index `b` by `f` of it (no-op out of range, which
never happens on the source's access patterns). -/
def modifyBlock (opt : Opt) (b : Nat) (f : BasicBlock → BasicBlock) : Opt :=
  { opt with program :=
      { opt.program with
          blocks := opt.program.blocks.set b (f (opt.program.blocks.getD b default)) } }

/-- Set the terminator of block `b`. -/
def setCF (opt : Opt) (b : Nat) (c : ControlFlow) : Opt :=
  opt.modifyBlock b (fun blk => { blk with controlFlow := c })

/-- `block_use.push(u)` on block `b`. -/
def pushFlag (opt : Opt) (b : Nat) (u : BlockUse) : Opt :=
  opt.modifyBlock b (fun blk => { blk with blockUse := blk.blockUse ++ [u] })

/-- `ops.borrow_mut().push(op)` on block `b`. -/
def pushOp (opt : Opt) (b : Nat) (op : Operation) : Opt :=
  opt.modifyBlock b (fun blk => { blk with ops := blk.ops ++ [op] })

/-- Set the cursor. -/
def setCursor (opt : Opt) (c : Option Nat) : Opt :=
  { opt with currentBlock := c }

/-- `self.loop_break.push_back(n)` (innermost entry kept at the head). -/
def pushBreak (opt : Opt) (n : Nat) : Opt :=
  { opt with loopBreak := n :: opt.loopBreak }

/-- `self.loop_break.pop_back()` with the popped value discarded. -/
def popBreak (opt : Opt) : Opt :=
  { opt with loopBreak := opt.loopBreak.tail }

/-- Modelled from the spec: `create_temporary` (defined in the crate's
`lib.rs`, not under `src/`) allocates a fresh temporary of the given item;
`parse_for_loop` uses it for the boolean break condition. -/
def createTemporary (opt : Opt) (item : Item) : Opt × Variable :=
  ({ opt with tempId := opt.tempId + 1 }, .temp opt.tempId item)

/-- Predecessor node ids of `b` (`Optimizer::predecessors`, i.e. petgraph
incoming neighbors, one entry per incoming edge). -/
def predecessors (opt : Opt) (b : Nat) : List Nat :=
  (opt.edges.filter (fun e => e.2 = b)).map (fun e => e.1)

/-- Modelled from the spec: `Optimizer::insert_phi` (defined in the crate's
`lib.rs`, not under `src/`) registers a phi placeholder at `block` for the
variable, one entry per current predecessor edge ("the initializing
assignment (entry edge) and the incremented value (back edge)"). -/
def insertPhi (opt : Opt) (block : Nat) (var : Nat × Nat) (item : Item) : Opt :=
  opt.modifyBlock block (fun blk =>
    { blk with phiNodes := blk.phiNodes ++
        [{ var := var, item := item,
           entries := (opt.predecessors block).map (fun p => { block := p, value := 0 }) }] })

/-- Record the induction variable's item (`self.program.variables.insert`). -/
def insertVariable (opt : Opt) (var : Nat × Nat) (item : Item) : Opt :=
  { opt with program :=
      { opt.program with varTable := (var, item) :: opt.program.varTable } }

end Opt

/-- `merge_ret`: the return canonicalizer.  If the canonical return node is
not yet flagged `Merge`, flag it and hand it out; otherwise allocate a fresh
funnel intermediary with an edge to the return node, flag it, and hand that
out instead. -/
def mergeRet (opt : Opt) : Opt × Nat :=
  if BlockUse.merge ∈ opt.flags opt.ret then
    let p := opt.addNode
    let opt := p.1
    let merge := p.2
    let opt := opt.addEdge merge opt.ret
    let opt := opt.pushFlag merge .merge
    (opt, merge)
  else
    (opt.pushFlag opt.ret .merge, opt.ret)

/-- Structured statements handed to the builder.  `op` is an opaque
non-branch instruction that the scope parser copies into the open block;
the remaining constructors are the `Branch` variants dispatched by
`parse_control_flow`. -/
inductive Stmt where
  | op (payload : Nat)
  | select (payload : Nat)
  | ifBr (cond : Variable) (scope : List Stmt)
  | ifElse (cond : Variable) (scopeIf scopeElse : List Stmt)
  | switch (value : Variable) (cases : List (Variable × List Stmt))
      (scopeDefault : List Stmt)
  | rangeLoop (i start stop : Variable) (step : Option Variable)
      (inclusive : Bool) (scope : List Stmt)
  | loop (scope : List Stmt)
  | ret
  | brk
deriving Repr

/-- Whether a top-level statement is `Branch::Break` (used by the scope
parser's `is_break` result). -/
def Stmt.isBrk : Stmt → Bool
  | .brk => true
  | _ => false

/-- The `u32` stored for a switch case label: signed constants go through
`val as i32` followed by `transmute::<i32, u32>` (two's-complement wrap to
32 bits, then bit reinterpretation); unsigned constants go through
`val as u32`.  Anything non-constant or non-integer is a panic. -/
def switchLabel (v : Variable) : Res Nat :=
  match v.asConst with
  | Option.none => .error .nonConstSwitch
  | some c =>
    match c with
    | .int val _ =>
        -- `val as i32`: wrap the i64 payload into [-2^31, 2^31).
        let asI32 : Int := (val + 2 ^ 31) % 2 ^ 32 - 2 ^ 31
        -- `transmute::<i32, u32>`: reinterpret the 32-bit pattern.
        .ok (if 0 ≤ asI32 then asI32.toNat else (asI32 + 2 ^ 32).toNat)
    | .uint val => .ok (val % 2 ^ 32)
    | _ => .error .nonIntSwitch

/-- First phase of `parse_for_loop` (everything before the body is lowered):
synthesize the induction-variable initialization into the current block,
allocate header / body / next, wire the entry edges, push the break target
and open the body.  Returns the new context together with
(header, body, next, induction-variable key). -/
def forLoopSetup (opt : Opt) (i start : Variable) :
    Res (Opt × Nat × Nat × Nat × (Nat × Nat)) :=
  match i with
  | .localVar id depth _ =>
    let iId := (id, depth)
    let opt := opt.insertVariable iId i.item
    -- `visit_operation` only rewrites SSA versions of the written variable
    -- (code in `lib.rs`, not under `src/`); the pushed instruction keeps
    -- this shape.
    match opt.currentBlock with
    | Option.none => .error .cursorUnset
    | some cur =>
      let opt := opt.pushOp cur (.assign start i)
      let p1 := opt.addNode
      let opt := p1.1
      let header := p1.2
      let opt := opt.addEdge cur header
      let p2 := opt.addNode
      let opt := p2.1
      let body := p2.2
      let p3 := opt.addNode
      let opt := p3.1
      let next := p3.2
      let opt := opt.addEdge header body
      let opt := opt.addEdge header next
      let opt := opt.pushBreak next
      let opt := opt.setCursor (some body)
      .ok (opt, header, body, next, iId)
  | _ => .error .rangeVarNotLocal

/-- Last phase of `parse_for_loop` (everything after the body is lowered):
pop the break target, demand an open loop-back path, choose or allocate the
continue target (a fresh block when the exit is already flagged `Merge`),
wire the back edge, flag blocks, register the induction phi, synthesize the
header comparison and terminator, and append the increment — to the body's
exit block. -/
def forLoopFinish (opt : Opt) (header next : Nat) (body : Nat)
    (iId : Nat × Nat) (i stop : Variable) (stepVar : Variable)
    (inclusive : Bool) (startItem : Item) : Res Opt :=
  let opt := opt.popBreak
  match opt.currentBlock with
  | Option.none => .error .noLoopbackPath
  | some currentBlock =>
    let p :=
      if BlockUse.merge ∈ opt.flags currentBlock then
        let q := opt.addNode
        let opt := q.1
        let target := q.2
        let opt := opt.addEdge currentBlock target
        (opt, target)
      else (opt, currentBlock)
    let opt := p.1
    let continueTarget := p.2
    let opt := opt.addEdge continueTarget header
    let opt := opt.pushFlag continueTarget .continueTarget
    let opt := opt.pushFlag next .merge
    let opt := opt.setCursor (some next)
    let opt := opt.insertPhi header iId startItem
    let q := opt.createTemporary ⟨.bool⟩
    let opt := q.1
    let tmp := q.2
    let opt := opt.pushOp header
      (if inclusive then .lowerEqual i stop tmp else .lower i stop tmp)
    let opt := opt.setCF header (.loopBreak tmp body continueTarget next)
    let opt := opt.pushOp currentBlock (.add i stepVar i)
    .ok opt

mutual

/-- `parse_control_flow` plus the op-forwarding the scope parser performs
for non-branch instructions. -/
def parseControlFlow : Nat → Opt → Stmt → Res Opt
  | 0, _, _ => .error .fuel
  | _ + 1, opt, .op payload =>
    match opt.currentBlock with
    | Option.none => .error .cursorUnset
    | some cur => .ok (opt.pushOp cur (.generic payload))
  | _ + 1, opt, .select payload =>
    -- `find_writes_select` rewrites SSA versions inside the payload
    -- (code in `lib.rs`, not under `src/`); the op is pushed unchanged here.
    match opt.currentBlock with
    | Option.none => .error .cursorUnset
    | some cur => .ok (opt.pushOp cur (.select payload))
  | fuel + 1, opt, .ifBr cond scope => parseIf fuel opt cond scope
  | fuel + 1, opt, .ifElse cond scopeIf scopeElse =>
      parseIfElse fuel opt cond scopeIf scopeElse
  | fuel + 1, opt, .switch value cases scopeDefault =>
      parseSwitch fuel opt value cases scopeDefault
  | fuel + 1, opt, .rangeLoop i start stop step inclusive scope =>
      parseForLoop fuel opt i start stop step inclusive scope
  | fuel + 1, opt, .loop scope => parseLoop fuel opt scope
  | _ + 1, opt, .ret =>
    match opt.currentBlock with
    | Option.none => .error .cursorUnset
    | some currentBlock =>
      .ok ((opt.addEdge currentBlock opt.ret).setCursor Option.none)
  | _ + 1, opt, .brk =>
    match opt.currentBlock with
    | Option.none => .error .cursorUnset
    | some currentBlock =>
      match opt.loopBreak with
      | [] => .error .brokeOutsideLoop
      | loopBreak :: _ =>
        .ok ((opt.addEdge currentBlock loopBreak).setCursor Option.none)

/-- Sequentially lower a statement list into the open block. -/
def parseStmts : Nat → Opt → List Stmt → Res Opt
  | 0, _, _ => .error .fuel
  | _ + 1, opt, [] => .ok opt
  | fuel + 1, opt, s :: rest => do
    let opt ← parseControlFlow fuel opt s
    parseStmts fuel opt rest

/-- Modelled from the spec: `parse_scope` (defined in the crate's `lib.rs`,
not under `src/`) lowers a nested statement list into the open block and
"returns whether the path ended in a break", i.e. whether the statement
list contains a top-level `Branch::Break`. -/
def parseScope : Nat → Opt → List Stmt → Res (Opt × Bool)
  | 0, _, _ => .error .fuel
  | fuel + 1, opt, stmts => do
    let opt ← parseStmts fuel opt stmts
    .ok (opt, stmts.any Stmt.isBrk)

/-- `parse_if`. -/
def parseIf : Nat → Opt → Variable → List Stmt → Res Opt
  | 0, _, _, _ => .error .fuel
  | fuel + 1, opt, cond, scope =>
    match opt.currentBlock with
    | Option.none => .error .cursorUnset
    | some currentBlock => do
      let p1 := opt.addNode
      let opt := p1.1
      let thenId := p1.2
      let p2 := opt.addNode
      let opt := p2.1
      let next := p2.2
      let opt := opt.addEdge currentBlock thenId
      let opt := opt.addEdge currentBlock next
      let opt := opt.setCursor (some thenId)
      let r ← parseScope fuel opt scope
      let opt := r.1
      let isBreak := r.2
      let q :=
        match opt.currentBlock with
        | some cur => (opt.addEdge cur next, next)
        | Option.none => mergeRet opt
      let opt := q.1
      let mergeVal := q.2
      let merge := if isBreak then Option.none else some mergeVal
      let opt := opt.setCF currentBlock (.ifElse cond thenId next merge)
      let opt :=
        match merge with
        | some m => opt.pushFlag m .merge
        | Option.none => opt
      .ok (opt.setCursor (some next))

/-- `parse_if_else`. -/
def parseIfElse : Nat → Opt → Variable → List Stmt → List Stmt → Res Opt
  | 0, _, _, _, _ => .error .fuel
  | fuel + 1, opt, cond, scopeIf, scopeElse =>
    match opt.currentBlock with
    | Option.none => .error .cursorUnset
    | some currentBlock => do
      let p1 := opt.addNode
      let opt := p1.1
      let thenId := p1.2
      let p2 := opt.addNode
      let opt := p2.1
      let orElse := p2.2
      let p3 := opt.addNode
      let opt := p3.1
      let next := p3.2
      let opt := opt.addEdge currentBlock thenId
      let opt := opt.addEdge currentBlock orElse
      let opt := opt.setCursor (some thenId)
      let r1 ← parseScope fuel opt scopeIf
      let opt := r1.1
      let isBreakIf := r1.2
      let q1 :=
        match opt.currentBlock with
        | some cur => (opt.addEdge cur next, next)
        | Option.none => mergeRet opt
      let opt := q1.1
      let mergeVal1 := q1.2
      let opt := opt.setCursor (some orElse)
      let r2 ← parseScope fuel opt scopeElse
      let opt := r2.1
      let isBreak := r2.2 || isBreakIf
      let q2 :=
        match opt.currentBlock with
        | some cur => (opt.addEdge cur next, mergeVal1)
        | Option.none => mergeRet opt
      let opt := q2.1
      let mergeVal := q2.2
      let merge := if isBreak then Option.none else some mergeVal
      let opt := opt.setCF currentBlock (.ifElse cond thenId orElse merge)
      let opt :=
        match merge with
        | some m => opt.pushFlag m .merge
        | Option.none => opt
      .ok (opt.setCursor (some next))

/-- The per-case loop inside `parse_switch`: lower each case, record
`(label, case block, broke?, returned?)`. -/
def parseSwitchCases : Nat → Opt → Nat → Nat → List (Variable × List Stmt) →
    Res (Opt × List (Nat × Nat × Bool × Bool))
  | 0, _, _, _, _ => .error .fuel
  | _ + 1, opt, _, _, [] => .ok (opt, [])
  | fuel + 1, opt, currentBlock, next, (val, scope) :: rest => do
    let p := opt.addNode
    let opt := p.1
    let caseId := p.2
    let opt := opt.addEdge currentBlock caseId
    let opt := opt.setCursor (some caseId)
    let r ← parseScope fuel opt scope
    let opt := r.1
    let isBreak := r.2
    let q :=
      match opt.currentBlock with
      | some cur => (opt.addEdge cur next, false)
      | Option.none => (opt, !isBreak)
    let opt := q.1
    let isRet := q.2
    let label ← switchLabel val
    let r2 ← parseSwitchCases fuel opt currentBlock next rest
    .ok (r2.1, (label, caseId, isBreak, isRet) :: r2.2)

/-- `parse_switch`. -/
def parseSwitch : Nat → Opt → Variable → List (Variable × List Stmt) →
    List Stmt → Res Opt
  | 0, _, _, _, _ => .error .fuel
  | fuel + 1, opt, value, cases, scopeDefault =>
    match opt.currentBlock with
    | Option.none => .error .cursorUnset
    | some currentBlock => do
      let p := opt.addNode
      let opt := p.1
      let next := p.2
      let r ← parseSwitchCases fuel opt currentBlock next cases
      let opt := r.1
      let infos := r.2
      let isBreakBranch := infos.any (fun it => it.2.2.1)
      let isRetBranch := infos.any (fun it => it.2.2.2)
      let branches := infos.map (fun it => (it.1, it.2.1))
      let pd := opt.addNode
      let opt := pd.1
      let default := pd.2
      let opt := opt.addEdge currentBlock default
      let opt := opt.setCursor (some default)
      let rd ← parseScope fuel opt scopeDefault
      let opt := rd.1
      let isBreakDef := rd.2
      let q :=
        match opt.currentBlock with
        | some cur => (opt.addEdge cur next, isRetBranch)
        | Option.none => (opt, !isBreakDef)
      let opt := q.1
      let isRet := q.2
      let m :=
        if isBreakDef || isBreakBranch then (opt, Option.none)
        else if isRet then
          let mr := mergeRet opt
          (mr.1, some mr.2)
        else (opt.pushFlag next .merge, some next)
      let opt := m.1
      let merge := m.2
      let opt := opt.setCF currentBlock (.switch value default branches merge)
      .ok (opt.setCursor (some next))

/-- `parse_loop` (unconditional loop; breaks are the only exits). -/
def parseLoop : Nat → Opt → List Stmt → Res Opt
  | 0, _, _ => .error .fuel
  | fuel + 1, opt, scope =>
    match opt.currentBlock with
    | Option.none => .error .cursorUnset
    | some currentBlock => do
      let p1 := opt.addNode
      let opt := p1.1
      let header := p1.2
      let opt := opt.addEdge currentBlock header
      let p2 := opt.addNode
      let opt := p2.1
      let body := p2.2
      let p3 := opt.addNode
      let opt := p3.1
      let next := p3.2
      let opt := opt.addEdge header body
      let opt := opt.pushBreak next
      let opt := opt.setCursor (some body)
      let r ← parseScope fuel opt scope
      let opt := r.1
      let p4 := opt.addNode
      let opt := p4.1
      let continueTarget := p4.2
      let opt := opt.pushFlag continueTarget .continueTarget
      let opt := opt.popBreak
      let opt :=
        match opt.currentBlock with
        | some cur => opt.addEdge cur continueTarget
        | Option.none => opt
      let opt := opt.addEdge continueTarget header
      let opt := opt.setCF header (.loop body continueTarget next)
      let opt := opt.pushFlag next .merge
      .ok (opt.setCursor (some next))

/-- `parse_for_loop` (counted range loop). -/
def parseForLoop : Nat → Opt → Variable → Variable → Variable →
    Option Variable → Bool → List Stmt → Res Opt
  | 0, _, _, _, _, _, _, _ => .error .fuel
  | fuel + 1, opt, i, start, stop, step, inclusive, scope => do
    let stepVar := step.getD (.constantScalar (.uint 1))
    let s ← forLoopSetup opt i start
    let opt := s.1
    let header := s.2.1
    let body := s.2.2.1
    let next := s.2.2.2.1
    let iId := s.2.2.2.2
    let r ← parseScope fuel opt scope
    -- the body's `is_break` result is discarded by the source
    forLoopFinish r.1 header next body iId i stop stepVar inclusive start.item

end

/-- Initial build context, modelled from the spec: the function entry block
(the open cursor) and the single canonical return node, which is the only
block carrying the `Return` terminator. -/
def initOpt : Opt :=
  { program :=
      { blocks := [default, { controlFlow := .ret }], edges := [], varTable := [] },
    currentBlock := some 0,
    ret := 1,
    loopBreak := [],
    tempId := 0 }

/-- Lower a whole function body from the initial context. -/
def buildFn (fuel : Nat) (stmts : List Stmt) : Res (Opt × Bool) :=
  parseScope fuel initOpt stmts

section SplitPass

/-- `update_control_flow`: after splitting the edge `(block, fro)`, rewrite
node-id references inside `block`'s terminator that equalled `fro` to `dst`.
Exactly as in the source, only the `IfElse` branch targets and the `Switch`
default/branch targets are rewritten; everything else (including both
`merge` fields and the whole `Loop` / `LoopBreak` variants) falls into the
catch-all and is left unchanged. -/
def updateControlFlow (opt : Opt) (block fro dst : Nat) : Opt :=
  let upd : Nat → Nat := fun id => if id = fro then dst else id
  match opt.cf block with
  | .ifElse cond thenId orElse merge =>
      opt.setCF block (.ifElse cond (upd thenId) (upd orElse) merge)
  | .switch value default branches merge =>
      opt.setCF block
        (.switch value (upd default) (branches.map (fun br => (br.1, upd br.2))) merge)
  | _ => opt

/-- `update_phi`: rewrite phi entries of `block` that referenced `fro` as
predecessor to reference `dst`. -/
def updatePhi (opt : Opt) (block fro dst : Nat) : Opt :=
  opt.modifyBlock block (fun blk =>
    { blk with phiNodes := blk.phiNodes.map (fun phi =>
        { phi with entries := phi.entries.map (fun entry =>
            if entry.block = fro then { entry with block := dst } else entry) }) })

/-- Split one critical edge `(block, successor)`: remove it, insert a fresh
block between the two, and patch phis and the terminator. -/
def splitOne (opt : Opt) (block successor : Nat) : Opt :=
  let opt : Opt :=
    { opt with program :=
        { opt.program with edges := opt.program.edges.erase (block, successor) } }
  let p := opt.addNode
  let opt := p.1
  let newBlock := p.2
  let opt := opt.addEdge block newBlock
  let opt := opt.addEdge newBlock successor
  let opt := updatePhi opt successor block newBlock
  updateControlFlow opt block successor newBlock

/-- Process one block of `split_critical_edges`: if it has more than one
outgoing edge, split each outgoing edge whose target has more than one
incoming edge.  The critical-edge list is computed up front, as in the
source (the Rust code collects `successors` and `crit` before mutating). -/
def splitBlockEdges (opt : Opt) (block : Nat) : Opt :=
  let successors := opt.edges.filter (fun e => e.1 = block)
  if 1 < successors.length then
    let crit := successors.filter (fun e => 1 < (opt.predecessors e.2).length)
    crit.foldl (fun acc e => splitOne acc block e.2) opt
  else opt

/-- `split_critical_edges`: one pass over the node ids present when the
pass starts. -/
def splitCriticalEdges (opt : Opt) : Opt :=
  (List.range opt.len).foldl splitBlockEdges opt

/-- Well-formedness of the edge list: both endpoints of every edge are
allocated nodes.  The builder only ever connects allocated blocks. -/
def EdgesWF (opt : Opt) : Prop :=
  ∀ e ∈ opt.edges, e.1 < opt.len ∧ e.2 < opt.len

instance (opt : Opt) : Decidable (EdgesWF opt) := by
  unfold EdgesWF
  infer_instance

end SplitPass



section ListHelpers

variable {α : Type}

theorem getD_append_left (l l' : List α) (d : α) (i : Nat) (h : i < l.length) :
    (l ++ l').getD i d = l.getD i d := by
  simp only [List.getD_eq_getElem?_getD]
  rw [List.getElem?_append]
  simp [h]

theorem getD_append_self (l : List α) (a d : α) :
    (l ++ [a]).getD l.length d = a := by
  simp only [List.getD_eq_getElem?_getD]
  rw [List.getElem?_append]
  simp

theorem getD_of_le (l : List α) (d : α) (i : Nat) (h : l.length ≤ i) :
    l.getD i d = d := by
  simp only [List.getD_eq_getElem?_getD]
  rw [List.getElem?_eq_none h]
  rfl

theorem getD_set_same (l : List α) (i : Nat) (a d : α) (h : i < l.length) :
    (l.set i a).getD i d = a := by
  simp only [List.getD_eq_getElem?_getD]
  rw [List.getElem?_set_self]
  · simp
  · exact h

theorem getD_set_other (l : List α) (i j : Nat) (a d : α) (h : j ≠ i) :
    (l.set i a).getD j d = l.getD j d := by
  simp only [List.getD_eq_getElem?_getD]
  rw [List.getElem?_set_ne (fun hh => h hh.symm)]

end ListHelpers

@[simp] theorem BasicBlock.ops_default : (default : BasicBlock).ops = [] := rfl
@[simp] theorem BasicBlock.controlFlow_default :
    (default : BasicBlock).controlFlow = .none := rfl
@[simp] theorem BasicBlock.blockUse_default : (default : BasicBlock).blockUse = [] := rfl
@[simp] theorem BasicBlock.phiNodes_default : (default : BasicBlock).phiNodes = [] := rfl

namespace Opt

/-! Effect lemmas for the primitive state updates. -/

@[simp] theorem len_addNode (opt : Opt) : (opt.addNode.1).len = opt.len + 1 := by
  simp [addNode, len]

@[simp] theorem idx_addNode (opt : Opt) : opt.addNode.2 = opt.len := rfl

theorem blockAt_addNode_ne (opt : Opt) (b : Nat) (h : b ≠ opt.len) :
    (opt.addNode.1).blockAt b = opt.blockAt b := by
  rcases Nat.lt_or_ge b opt.len with hb | hb
  · exact getD_append_left _ _ _ _ hb
  · have hb' : opt.len < b := lt_of_le_of_ne hb (Ne.symm h)
    have hb2 : opt.program.blocks.length < b := hb'
    show (opt.program.blocks ++ [default]).getD b default = opt.program.blocks.getD b default
    rw [getD_of_le _ _ _ (by simp; omega), getD_of_le _ _ _ (le_of_lt hb2)]

theorem blockAt_addNode_self (opt : Opt) :
    (opt.addNode.1).blockAt opt.len = default :=
  getD_append_self _ _ _

@[simp] theorem edges_addNode (opt : Opt) : (opt.addNode.1).edges = opt.edges := rfl
@[simp] theorem ret_addNode (opt : Opt) : (opt.addNode.1).ret = opt.ret := rfl
@[simp] theorem cursor_addNode (opt : Opt) :
    (opt.addNode.1).currentBlock = opt.currentBlock := rfl
@[simp] theorem loopBreak_addNode (opt : Opt) :
    (opt.addNode.1).loopBreak = opt.loopBreak := rfl

@[simp] theorem len_addEdge (opt : Opt) (a b : Nat) : (opt.addEdge a b).len = opt.len := rfl
@[simp] theorem blockAt_addEdge (opt : Opt) (a b c : Nat) :
    (opt.addEdge a b).blockAt c = opt.blockAt c := rfl
@[simp] theorem edges_addEdge (opt : Opt) (a b : Nat) :
    (opt.addEdge a b).edges = opt.edges ++ [(a, b)] := rfl
@[simp] theorem ret_addEdge (opt : Opt) (a b : Nat) : (opt.addEdge a b).ret = opt.ret := rfl
@[simp] theorem cursor_addEdge (opt : Opt) (a b : Nat) :
    (opt.addEdge a b).currentBlock = opt.currentBlock := rfl
@[simp] theorem loopBreak_addEdge (opt : Opt) (a b : Nat) :
    (opt.addEdge a b).loopBreak = opt.loopBreak := rfl

@[simp] theorem len_modifyBlock (opt : Opt) (i : Nat) (f : BasicBlock → BasicBlock) :
    (opt.modifyBlock i f).len = opt.len := by
  simp [modifyBlock, len]

theorem blockAt_modifyBlock_same (opt : Opt) (i : Nat) (f : BasicBlock → BasicBlock)
    (h : i < opt.len) : (opt.modifyBlock i f).blockAt i = f (opt.blockAt i) :=
  getD_set_same _ _ _ _ h

theorem blockAt_modifyBlock_other (opt : Opt) (i b : Nat) (f : BasicBlock → BasicBlock)
    (h : b ≠ i) : (opt.modifyBlock i f).blockAt b = opt.blockAt b :=
  getD_set_other _ _ _ _ _ h

theorem blockAt_modifyBlock_oob (opt : Opt) (i b : Nat) (f : BasicBlock → BasicBlock)
    (h : opt.len ≤ i) : (opt.modifyBlock i f).blockAt b = opt.blockAt b := by
  show (opt.program.blocks.set i _).getD b default = _
  rw [List.set_eq_of_length_le h]
  rfl

theorem blockAt_modifyBlock (opt : Opt) (i b : Nat) (f : BasicBlock → BasicBlock) :
    (opt.modifyBlock i f).blockAt b =
      if b = i ∧ i < opt.len then f (opt.blockAt i) else opt.blockAt b := by
  by_cases hb : b = i
  · subst hb
    by_cases hi : b < opt.len
    · simp [hi, blockAt_modifyBlock_same _ _ _ hi]
    · simp [hi, blockAt_modifyBlock_oob _ _ _ _ (Nat.le_of_not_lt hi)]
  · simp [hb, blockAt_modifyBlock_other _ _ _ _ hb]

@[simp] theorem edges_modifyBlock (opt : Opt) (i : Nat) (f : BasicBlock → BasicBlock) :
    (opt.modifyBlock i f).edges = opt.edges := rfl
@[simp] theorem ret_modifyBlock (opt : Opt) (i : Nat) (f : BasicBlock → BasicBlock) :
    (opt.modifyBlock i f).ret = opt.ret := rfl
@[simp] theorem cursor_modifyBlock (opt : Opt) (i : Nat) (f : BasicBlock → BasicBlock) :
    (opt.modifyBlock i f).currentBlock = opt.currentBlock := rfl
@[simp] theorem loopBreak_modifyBlock (opt : Opt) (i : Nat) (f : BasicBlock → BasicBlock) :
    (opt.modifyBlock i f).loopBreak = opt.loopBreak := rfl

/-! Derived effect lemmas for the `modifyBlock`-based updates. -/

theorem cf_setCF_same (opt : Opt) (i : Nat) (c : ControlFlow) (h : i < opt.len) :
    (opt.setCF i c).cf i = c := by
  simp [setCF, cf, blockAt_modifyBlock_same _ _ _ h]

theorem cf_setCF_other (opt : Opt) (i b : Nat) (c : ControlFlow) (h : b ≠ i) :
    (opt.setCF i c).cf b = opt.cf b := by
  simp [setCF, cf, blockAt_modifyBlock_other _ _ _ _ h]

theorem cf_setCF (opt : Opt) (i b : Nat) (c : ControlFlow) :
    (opt.setCF i c).cf b = if b = i ∧ i < opt.len then c else opt.cf b := by
  unfold cf setCF
  rw [blockAt_modifyBlock]
  by_cases h : b = i ∧ i < opt.len <;> simp [h]

theorem flags_setCF (opt : Opt) (i b : Nat) (c : ControlFlow) :
    (opt.setCF i c).flags b = opt.flags b := by
  unfold flags setCF
  rw [blockAt_modifyBlock]
  by_cases h : b = i ∧ i < opt.len <;> simp [h]

theorem opsOf_setCF (opt : Opt) (i b : Nat) (c : ControlFlow) :
    (opt.setCF i c).opsOf b = opt.opsOf b := by
  unfold opsOf setCF
  rw [blockAt_modifyBlock]
  by_cases h : b = i ∧ i < opt.len <;> simp [h]

theorem phisOf_setCF (opt : Opt) (i b : Nat) (c : ControlFlow) :
    (opt.setCF i c).phisOf b = opt.phisOf b := by
  unfold phisOf setCF
  rw [blockAt_modifyBlock]
  by_cases h : b = i ∧ i < opt.len <;> simp [h]

theorem flags_pushFlag_same (opt : Opt) (i : Nat) (u : BlockUse) (h : i < opt.len) :
    (opt.pushFlag i u).flags i = opt.flags i ++ [u] := by
  simp [pushFlag, flags, blockAt_modifyBlock_same _ _ _ h]

theorem flags_pushFlag_other (opt : Opt) (i b : Nat) (u : BlockUse) (h : b ≠ i) :
    (opt.pushFlag i u).flags b = opt.flags b := by
  simp [pushFlag, flags, blockAt_modifyBlock_other _ _ _ _ h]

theorem flags_pushFlag_append (opt : Opt) (i b : Nat) (u : BlockUse) :
    ∃ l, (opt.pushFlag i u).flags b = opt.flags b ++ l := by
  unfold flags pushFlag
  rw [blockAt_modifyBlock]
  by_cases h : b = i ∧ i < opt.len
  · exact ⟨[u], by simp [h]⟩
  · exact ⟨[], by simp [h]⟩

theorem cf_pushFlag (opt : Opt) (i b : Nat) (u : BlockUse) :
    (opt.pushFlag i u).cf b = opt.cf b := by
  unfold cf pushFlag
  rw [blockAt_modifyBlock]
  by_cases h : b = i ∧ i < opt.len <;> simp [h]

theorem opsOf_pushFlag (opt : Opt) (i b : Nat) (u : BlockUse) :
    (opt.pushFlag i u).opsOf b = opt.opsOf b := by
  unfold opsOf pushFlag
  rw [blockAt_modifyBlock]
  by_cases h : b = i ∧ i < opt.len <;> simp [h]

theorem cf_pushOp (opt : Opt) (i b : Nat) (op : Operation) :
    (opt.pushOp i op).cf b = opt.cf b := by
  unfold cf pushOp
  rw [blockAt_modifyBlock]
  by_cases h : b = i ∧ i < opt.len <;> simp [h]

theorem flags_pushOp (opt : Opt) (i b : Nat) (op : Operation) :
    (opt.pushOp i op).flags b = opt.flags b := by
  unfold flags pushOp
  rw [blockAt_modifyBlock]
  by_cases h : b = i ∧ i < opt.len <;> simp [h]

theorem opsOf_pushOp_same (opt : Opt) (i : Nat) (op : Operation) (h : i < opt.len) :
    (opt.pushOp i op).opsOf i = opt.opsOf i ++ [op] := by
  simp [pushOp, opsOf, blockAt_modifyBlock_same _ _ _ h]

theorem opsOf_pushOp_other (opt : Opt) (i b : Nat) (op : Operation) (h : b ≠ i) :
    (opt.pushOp i op).opsOf b = opt.opsOf b := by
  simp [pushOp, opsOf, blockAt_modifyBlock_other _ _ _ _ h]

theorem cf_insertPhi (opt : Opt) (i b : Nat) (v : Nat × Nat) (it : Item) :
    (opt.insertPhi i v it).cf b = opt.cf b := by
  unfold cf insertPhi
  rw [blockAt_modifyBlock]
  by_cases h : b = i ∧ i < opt.len <;> simp [h]

theorem flags_insertPhi (opt : Opt) (i b : Nat) (v : Nat × Nat) (it : Item) :
    (opt.insertPhi i v it).flags b = opt.flags b := by
  unfold flags insertPhi
  rw [blockAt_modifyBlock]
  by_cases h : b = i ∧ i < opt.len <;> simp [h]

theorem opsOf_insertPhi (opt : Opt) (i b : Nat) (v : Nat × Nat) (it : Item) :
    (opt.insertPhi i v it).opsOf b = opt.opsOf b := by
  unfold opsOf insertPhi
  rw [blockAt_modifyBlock]
  by_cases h : b = i ∧ i < opt.len <;> simp [h]

@[simp] theorem len_insertPhi (opt : Opt) (i : Nat) (v : Nat × Nat) (it : Item) :
    (opt.insertPhi i v it).len = opt.len := by
  simp [insertPhi]
@[simp] theorem edges_insertPhi (opt : Opt) (i : Nat) (v : Nat × Nat) (it : Item) :
    (opt.insertPhi i v it).edges = opt.edges := rfl
@[simp] theorem ret_insertPhi (opt : Opt) (i : Nat) (v : Nat × Nat) (it : Item) :
    (opt.insertPhi i v it).ret = opt.ret := rfl
@[simp] theorem cursor_insertPhi (opt : Opt) (i : Nat) (v : Nat × Nat) (it : Item) :
    (opt.insertPhi i v it).currentBlock = opt.currentBlock := rfl
@[simp] theorem loopBreak_insertPhi (opt : Opt) (i : Nat) (v : Nat × Nat) (it : Item) :
    (opt.insertPhi i v it).loopBreak = opt.loopBreak := rfl

@[simp] theorem len_setCursor (opt : Opt) (c : Option Nat) : (opt.setCursor c).len = opt.len := rfl
@[simp] theorem blockAt_setCursor (opt : Opt) (c : Option Nat) (b : Nat) :
    (opt.setCursor c).blockAt b = opt.blockAt b := rfl
@[simp] theorem edges_setCursor (opt : Opt) (c : Option Nat) :
    (opt.setCursor c).edges = opt.edges := rfl
@[simp] theorem ret_setCursor (opt : Opt) (c : Option Nat) : (opt.setCursor c).ret = opt.ret := rfl
@[simp] theorem cursor_setCursor (opt : Opt) (c : Option Nat) :
    (opt.setCursor c).currentBlock = c := rfl
@[simp] theorem loopBreak_setCursor (opt : Opt) (c : Option Nat) :
    (opt.setCursor c).loopBreak = opt.loopBreak := rfl
@[simp] theorem cf_setCursor (opt : Opt) (c : Option Nat) (b : Nat) :
    (opt.setCursor c).cf b = opt.cf b := rfl
@[simp] theorem flags_setCursor (opt : Opt) (c : Option Nat) (b : Nat) :
    (opt.setCursor c).flags b = opt.flags b := rfl
@[simp] theorem opsOf_setCursor (opt : Opt) (c : Option Nat) (b : Nat) :
    (opt.setCursor c).opsOf b = opt.opsOf b := rfl

@[simp] theorem len_pushBreak (opt : Opt) (n : Nat) : (opt.pushBreak n).len = opt.len := rfl
@[simp] theorem blockAt_pushBreak (opt : Opt) (n b : Nat) :
    (opt.pushBreak n).blockAt b = opt.blockAt b := rfl
@[simp] theorem edges_pushBreak (opt : Opt) (n : Nat) :
    (opt.pushBreak n).edges = opt.edges := rfl
@[simp] theorem ret_pushBreak (opt : Opt) (n : Nat) : (opt.pushBreak n).ret = opt.ret := rfl
@[simp] theorem cursor_pushBreak (opt : Opt) (n : Nat) :
    (opt.pushBreak n).currentBlock = opt.currentBlock := rfl
@[simp] theorem loopBreak_pushBreak (opt : Opt) (n : Nat) :
    (opt.pushBreak n).loopBreak = n :: opt.loopBreak := rfl
@[simp] theorem cf_pushBreak (opt : Opt) (n b : Nat) :
    (opt.pushBreak n).cf b = opt.cf b := rfl
@[simp] theorem flags_pushBreak (opt : Opt) (n b : Nat) :
    (opt.pushBreak n).flags b = opt.flags b := rfl
@[simp] theorem opsOf_pushBreak (opt : Opt) (n b : Nat) :
    (opt.pushBreak n).opsOf b = opt.opsOf b := rfl

@[simp] theorem len_popBreak (opt : Opt) : opt.popBreak.len = opt.len := rfl
@[simp] theorem blockAt_popBreak (opt : Opt) (b : Nat) :
    opt.popBreak.blockAt b = opt.blockAt b := rfl
@[simp] theorem edges_popBreak (opt : Opt) : opt.popBreak.edges = opt.edges := rfl
@[simp] theorem ret_popBreak (opt : Opt) : opt.popBreak.ret = opt.ret := rfl
@[simp] theorem cursor_popBreak (opt : Opt) :
    opt.popBreak.currentBlock = opt.currentBlock := rfl
@[simp] theorem loopBreak_popBreak (opt : Opt) :
    opt.popBreak.loopBreak = opt.loopBreak.tail := rfl
@[simp] theorem cf_popBreak (opt : Opt) (b : Nat) : opt.popBreak.cf b = opt.cf b := rfl
@[simp] theorem flags_popBreak (opt : Opt) (b : Nat) :
    opt.popBreak.flags b = opt.flags b := rfl
@[simp] theorem opsOf_popBreak (opt : Opt) (b : Nat) :
    opt.popBreak.opsOf b = opt.opsOf b := rfl

@[simp] theorem len_insertVariable (opt : Opt) (v : Nat × Nat) (it : Item) :
    (opt.insertVariable v it).len = opt.len := rfl
@[simp] theorem blockAt_insertVariable (opt : Opt) (v : Nat × Nat) (it : Item) (b : Nat) :
    (opt.insertVariable v it).blockAt b = opt.blockAt b := rfl
@[simp] theorem edges_insertVariable (opt : Opt) (v : Nat × Nat) (it : Item) :
    (opt.insertVariable v it).edges = opt.edges := rfl
@[simp] theorem ret_insertVariable (opt : Opt) (v : Nat × Nat) (it : Item) :
    (opt.insertVariable v it).ret = opt.ret := rfl
@[simp] theorem cursor_insertVariable (opt : Opt) (v : Nat × Nat) (it : Item) :
    (opt.insertVariable v it).currentBlock = opt.currentBlock := rfl
@[simp] theorem loopBreak_insertVariable (opt : Opt) (v : Nat × Nat) (it : Item) :
    (opt.insertVariable v it).loopBreak = opt.loopBreak := rfl

@[simp] theorem len_createTemporary (opt : Opt) (it : Item) :
    ((opt.createTemporary it).1).len = opt.len := rfl
@[simp] theorem blockAt_createTemporary (opt : Opt) (it : Item) (b : Nat) :
    ((opt.createTemporary it).1).blockAt b = opt.blockAt b := rfl
@[simp] theorem edges_createTemporary (opt : Opt) (it : Item) :
    ((opt.createTemporary it).1).edges = opt.edges := rfl
@[simp] theorem ret_createTemporary (opt : Opt) (it : Item) :
    ((opt.createTemporary it).1).ret = opt.ret := rfl
@[simp] theorem cursor_createTemporary (opt : Opt) (it : Item) :
    ((opt.createTemporary it).1).currentBlock = opt.currentBlock := rfl
@[simp] theorem loopBreak_createTemporary (opt : Opt) (it : Item) :
    ((opt.createTemporary it).1).loopBreak = opt.loopBreak := rfl


@[simp] theorem len_setCF (opt : Opt) (i : Nat) (c : ControlFlow) :
    (opt.setCF i c).len = opt.len := by simp [setCF]
@[simp] theorem edges_setCF (opt : Opt) (i : Nat) (c : ControlFlow) :
    (opt.setCF i c).edges = opt.edges := rfl
@[simp] theorem ret_setCF (opt : Opt) (i : Nat) (c : ControlFlow) :
    (opt.setCF i c).ret = opt.ret := rfl
@[simp] theorem cursor_setCF (opt : Opt) (i : Nat) (c : ControlFlow) :
    (opt.setCF i c).currentBlock = opt.currentBlock := rfl
@[simp] theorem loopBreak_setCF (opt : Opt) (i : Nat) (c : ControlFlow) :
    (opt.setCF i c).loopBreak = opt.loopBreak := rfl

@[simp] theorem len_pushFlag (opt : Opt) (i : Nat) (u : BlockUse) :
    (opt.pushFlag i u).len = opt.len := by simp [pushFlag]
@[simp] theorem edges_pushFlag (opt : Opt) (i : Nat) (u : BlockUse) :
    (opt.pushFlag i u).edges = opt.edges := rfl
@[simp] theorem ret_pushFlag (opt : Opt) (i : Nat) (u : BlockUse) :
    (opt.pushFlag i u).ret = opt.ret := rfl
@[simp] theorem cursor_pushFlag (opt : Opt) (i : Nat) (u : BlockUse) :
    (opt.pushFlag i u).currentBlock = opt.currentBlock := rfl
@[simp] theorem loopBreak_pushFlag (opt : Opt) (i : Nat) (u : BlockUse) :
    (opt.pushFlag i u).loopBreak = opt.loopBreak := rfl

@[simp] theorem len_pushOp (opt : Opt) (i : Nat) (op : Operation) :
    (opt.pushOp i op).len = opt.len := by simp [pushOp]
@[simp] theorem edges_pushOp (opt : Opt) (i : Nat) (op : Operation) :
    (opt.pushOp i op).edges = opt.edges := rfl
@[simp] theorem ret_pushOp (opt : Opt) (i : Nat) (op : Operation) :
    (opt.pushOp i op).ret = opt.ret := rfl
@[simp] theorem cursor_pushOp (opt : Opt) (i : Nat) (op : Operation) :
    (opt.pushOp i op).currentBlock = opt.currentBlock := rfl
@[simp] theorem loopBreak_pushOp (opt : Opt) (i : Nat) (op : Operation) :
    (opt.pushOp i op).loopBreak = opt.loopBreak := rfl

theorem cf_createTemporary (opt : Opt) (it : Item) (b : Nat) :
    ((opt.createTemporary it).1).cf b = opt.cf b := rfl
theorem flags_createTemporary (opt : Opt) (it : Item) (b : Nat) :
    ((opt.createTemporary it).1).flags b = opt.flags b := rfl
theorem opsOf_createTemporary (opt : Opt) (it : Item) (b : Nat) :
    ((opt.createTemporary it).1).opsOf b = opt.opsOf b := rfl
theorem cf_insertVariable (opt : Opt) (v : Nat × Nat) (it : Item) (b : Nat) :
    (opt.insertVariable v it).cf b = opt.cf b := rfl
theorem flags_insertVariable (opt : Opt) (v : Nat × Nat) (it : Item) (b : Nat) :
    (opt.insertVariable v it).flags b = opt.flags b := rfl
theorem opsOf_insertVariable (opt : Opt) (v : Nat × Nat) (it : Item) (b : Nat) :
    (opt.insertVariable v it).opsOf b = opt.opsOf b := rfl

theorem cf_addNode_ne (opt : Opt) (b : Nat) (h : b ≠ opt.len) :
    (opt.addNode.1).cf b = opt.cf b := by
  simp [cf, blockAt_addNode_ne _ _ h]

theorem cf_addNode_self (opt : Opt) :
    (opt.addNode.1).cf opt.len = .none := by
  simp [cf, blockAt_addNode_self]

theorem flags_addNode_ne (opt : Opt) (b : Nat) (h : b ≠ opt.len) :
    (opt.addNode.1).flags b = opt.flags b := by
  simp [flags, blockAt_addNode_ne _ _ h]

theorem flags_addNode_self (opt : Opt) :
    (opt.addNode.1).flags opt.len = [] := by
  simp [flags, blockAt_addNode_self]

theorem opsOf_addNode_ne (opt : Opt) (b : Nat) (h : b ≠ opt.len) :
    (opt.addNode.1).opsOf b = opt.opsOf b := by
  simp [opsOf, blockAt_addNode_ne _ _ h]

theorem opsOf_addNode_self (opt : Opt) :
    (opt.addNode.1).opsOf opt.len = [] := by
  simp [opsOf, blockAt_addNode_self]

theorem cf_addEdge (opt : Opt) (a b c : Nat) : (opt.addEdge a b).cf c = opt.cf c := rfl
theorem flags_addEdge (opt : Opt) (a b c : Nat) :
    (opt.addEdge a b).flags c = opt.flags c := rfl
theorem opsOf_addEdge (opt : Opt) (a b c : Nat) :
    (opt.addEdge a b).opsOf c = opt.opsOf c := rfl

theorem indeg_addEdge (opt : Opt) (a b c : Nat) :
    (opt.addEdge a b).indeg c = opt.indeg c + (if b = c then 1 else 0) := by
  by_cases h : b = c <;> simp [indeg, List.countP_append, List.countP_cons, h]

theorem cf_oob (opt : Opt) (b : Nat) (h : opt.len ≤ b) : opt.cf b = .none := by
  show (opt.program.blocks.getD b default).controlFlow = _
  rw [getD_of_le _ _ _ h]
  rfl

theorem flags_oob (opt : Opt) (b : Nat) (h : opt.len ≤ b) : opt.flags b = [] := by
  show (opt.program.blocks.getD b default).blockUse = _
  rw [getD_of_le _ _ _ h]
  rfl

end Opt


/-! ## Shared concrete inputs -/

/-- An opaque boolean condition variable. -/
def bVar : Variable := .other 0 ⟨.bool⟩

/-- A local variable used as a range-loop induction variable. -/
def iVar : Variable := .localVar 0 0 ⟨.uint⟩

/-- An unsigned constant. -/
def cu (n : Nat) : Variable := .constantScalar (.uint n)

/-- A concrete graph in the shape `parse_for_loop` produces: block 0 is a
loop header with terminator `LoopBreak{body := 1, continue_target := 3,
merge := 2}`, and the edge `(0, 1)` is critical (block 0 has two outgoing
edges, block 1 has two incoming edges). -/
def critGraph : Opt :=
  { program :=
      { blocks :=
          [{ controlFlow := .loopBreak (.other 0 ⟨.bool⟩) 1 3 2 }, {}, {}, {}],
        edges := [(0, 1), (0, 2), (3, 1)],
        varTable := [] },
    currentBlock := Option.none,
    ret := 2,
    loopBreak := [],
    tempId := 0 }

/-! ## Decomposition lemmas for `parse_for_loop` -/

/-- `parse_for_loop` is the composition of its setup phase, the body
lowering, and its finish phase. -/
theorem parseForLoop_decomp (fuel : Nat) (opt : Opt) (i start stop : Variable)
    (step : Option Variable) (inclusive : Bool) (scope : List Stmt)
    (s : Opt × Nat × Nat × Nat × (Nat × Nat)) (mid : Opt) (brk : Bool)
    (hsetup : forLoopSetup opt i start = .ok s)
    (hscope : parseScope fuel s.1 scope = .ok (mid, brk)) :
    parseForLoop (fuel + 1) opt i start stop step inclusive scope =
      forLoopFinish mid s.2.1 s.2.2.2.1 s.2.2.1 s.2.2.2.2 i stop
        (step.getD (.constantScalar (.uint 1))) inclusive start.item := by
  simp [parseForLoop, hsetup, hscope, Bind.bind, Except.bind]

/-- Behaviour of the finish phase when the body exit block is flagged
`Merge`: a fresh continue-target block is allocated and flagged, but the
increment lands in the exit block, not the fresh block. -/
theorem forLoopFinish_merge (opt2 : Opt) (header next body : Nat)
    (iId : Nat × Nat) (i stop stepVar : Variable) (inclusive : Bool)
    (startItem : Item) (cb : Nat)
    (hc : opt2.currentBlock = some cb)
    (hcb : cb < opt2.len) (hh : header < opt2.len) (hn : next < opt2.len)
    (hhcb : header ≠ cb)
    (hflag : BlockUse.merge ∈ opt2.flags cb) :
    ∃ o', forLoopFinish opt2 header next body iId i stop stepVar inclusive startItem =
        .ok o' ∧
      o'.len = opt2.len + 1 ∧
      BlockUse.continueTarget ∈ o'.flags opt2.len ∧
      o'.opsOf opt2.len = [] ∧
      o'.opsOf cb = opt2.opsOf cb ++ [.add i stepVar i] ∧
      (cb, opt2.len) ∈ o'.edges ∧ ((opt2.len, header) ∈ o'.edges) := by
  simp only [forLoopFinish, Opt.cursor_popBreak, hc, Opt.flags_popBreak, hflag, if_pos,
    Opt.idx_addNode, Opt.len_popBreak]
  refine ⟨_, rfl, ?_, ?_, ?_, ?_, ?_, ?_⟩
  · simp
  · rw [Opt.flags_pushOp, Opt.flags_setCF, Opt.flags_pushOp, Opt.flags_createTemporary,
      Opt.flags_insertPhi, Opt.flags_setCursor,
      Opt.flags_pushFlag_other _ _ _ _ (by omega),
      Opt.flags_pushFlag_same _ _ _ (by simp <;> omega)]
    simp
  · rw [Opt.opsOf_pushOp_other _ _ _ _ (by omega), Opt.opsOf_setCF,
      Opt.opsOf_pushOp_other _ _ _ _ (by omega), Opt.opsOf_createTemporary,
      Opt.opsOf_insertPhi, Opt.opsOf_setCursor, Opt.opsOf_pushFlag, Opt.opsOf_pushFlag,
      Opt.opsOf_addEdge, Opt.opsOf_addEdge]
    exact Opt.opsOf_addNode_self _
  · rw [Opt.opsOf_pushOp_same _ _ _ (by simp <;> omega),
      Opt.opsOf_setCF, Opt.opsOf_pushOp_other _ _ _ _ (Ne.symm hhcb),
      Opt.opsOf_createTemporary,
      Opt.opsOf_insertPhi, Opt.opsOf_setCursor, Opt.opsOf_pushFlag, Opt.opsOf_pushFlag,
      Opt.opsOf_addEdge, Opt.opsOf_addEdge, Opt.opsOf_addNode_ne _ _ (by simp <;> omega)]
    rfl
  · simp
  · simp

/-- Behaviour of the finish phase when the body exit block is not flagged
`Merge`: the exit block itself becomes the continue target and hosts the
increment. -/
theorem forLoopFinish_nonmerge (opt2 : Opt) (header next body : Nat)
    (iId : Nat × Nat) (i stop stepVar : Variable) (inclusive : Bool)
    (startItem : Item) (cb : Nat)
    (hc : opt2.currentBlock = some cb)
    (hcb : cb < opt2.len) (hhcb : header ≠ cb) (hncb : next ≠ cb)
    (hflag : BlockUse.merge ∉ opt2.flags cb) :
    ∃ o', forLoopFinish opt2 header next body iId i stop stepVar inclusive startItem =
        .ok o' ∧
      o'.len = opt2.len ∧
      BlockUse.continueTarget ∈ o'.flags cb ∧
      o'.opsOf cb = opt2.opsOf cb ++ [.add i stepVar i] ∧
      (cb, header) ∈ o'.edges := by
  simp only [forLoopFinish, Opt.cursor_popBreak, hc, Opt.flags_popBreak, hflag, if_neg,
    Opt.idx_addNode, Opt.len_popBreak, if_false, ite_false]
  refine ⟨_, rfl, ?_, ?_, ?_, ?_⟩
  · simp
  · rw [Opt.flags_pushOp, Opt.flags_setCF, Opt.flags_pushOp, Opt.flags_createTemporary,
      Opt.flags_insertPhi, Opt.flags_setCursor,
      Opt.flags_pushFlag_other _ _ _ _ hncb.symm,
      Opt.flags_pushFlag_same _ _ _ (by simp <;> omega)]
    simp
  · rw [Opt.opsOf_pushOp_same _ _ _ (by simp <;> omega),
      Opt.opsOf_setCF, Opt.opsOf_pushOp_other _ _ _ _ (Ne.symm hhcb),
      Opt.opsOf_createTemporary,
      Opt.opsOf_insertPhi, Opt.opsOf_setCursor, Opt.opsOf_pushFlag, Opt.opsOf_pushFlag,
      Opt.opsOf_addEdge]
    rfl
  · simp

/-! ## Claim C2 -/

/-- C2, refuted: a range loop whose body always diverges (here: returns)
makes the build fail fatally instead of completing normally. -/
theorem claim_C2_counterexample :
    buildFn 20 [Stmt.rangeLoop iVar (cu 0) (cu 5) Option.none false [Stmt.ret]] =
      .error .noLoopbackPath := by
  decide

/-- C2, amended: lowering a range loop whose body path never reaches the
loop-back edge (the cursor is unset after the body) is a fatal build error
(the `expect("For loop has no loopback path")` panic); the back edge is
not created and the build aborts.  (The unconditional loop, by contrast,
tolerates a diverged body.) -/
theorem claim_C2 (fuel : Nat) (opt : Opt) (i start stop : Variable)
    (step : Option Variable) (inclusive : Bool) (scope : List Stmt)
    (s : Opt × Nat × Nat × Nat × (Nat × Nat)) (mid : Opt) (brk : Bool)
    (hsetup : forLoopSetup opt i start = .ok s)
    (hscope : parseScope fuel s.1 scope = .ok (mid, brk))
    (hcur : mid.currentBlock = Option.none) :
    parseForLoop (fuel + 1) opt i start stop step inclusive scope =
      .error .noLoopbackPath := by
  rw [parseForLoop_decomp fuel opt i start stop step inclusive scope s mid brk
    hsetup hscope]
  simp [forLoopFinish, hcur]

/-- Witness for C2 at a concrete range loop whose body is a bare return. -/
theorem claim_C2_witness :
    parseForLoop 11 initOpt iVar (cu 0) (cu 5) Option.none false [Stmt.ret] =
      .error .noLoopbackPath :=
  claim_C2 10 initOpt iVar (cu 0) (cu 5) Option.none false [Stmt.ret] _ _ false
    rfl rfl rfl

/-! ## Claim C3 -/

/-- C3, refuted: in the built graph for a range loop whose body exit block
(block 6, the inner conditional's merge) is flagged `Merge`, the fresh
continue-target block 7 is allocated and flagged, but the synthesized
increment is appended to the Merge-flagged block 6, not to block 7, whose
op list stays empty. -/
theorem claim_C3_counterexample :
    (buildFn 20 [Stmt.rangeLoop iVar (cu 0) (cu 5) Option.none false
        [Stmt.ifBr bVar [Stmt.op 7]]]).toOption.map
      (fun r => (r.1.opsOf 7, r.1.flags 7, r.1.opsOf 6, r.1.flags 6)) =
    some ([], [BlockUse.continueTarget],
          [Operation.add iVar (cu 1) iVar], [BlockUse.merge]) := by
  decide

/-- C3, amended: when the body's fall-through exit block is flagged
`Merge`, a fresh block is inserted between the exit and the loop-back edge
and that fresh block (not the Merge block) is flagged Continue-target, but
the synthesized increment is appended to the Merge-flagged exit block, not
to the fresh block; when the exit block is not flagged `Merge`, the exit
block itself is the continue-target and hosts the increment. -/
theorem claim_C3 :
    (∀ (fuel : Nat) (opt : Opt) (i start stop : Variable) (step : Option Variable)
        (inclusive : Bool) (scope : List Stmt)
        (s : Opt × Nat × Nat × Nat × (Nat × Nat)) (mid : Opt) (brk : Bool),
      forLoopSetup opt i start = .ok s →
      parseScope fuel s.1 scope = .ok (mid, brk) →
      parseForLoop (fuel + 1) opt i start stop step inclusive scope =
        forLoopFinish mid s.2.1 s.2.2.2.1 s.2.2.1 s.2.2.2.2 i stop
          (step.getD (.constantScalar (.uint 1))) inclusive start.item) ∧
    (∀ (opt2 : Opt) (header next body : Nat) (iId : Nat × Nat)
        (i stop stepVar : Variable) (inclusive : Bool) (startItem : Item) (cb : Nat),
      opt2.currentBlock = some cb → cb < opt2.len → header < opt2.len →
      next < opt2.len → header ≠ cb → BlockUse.merge ∈ opt2.flags cb →
      ∃ o', forLoopFinish opt2 header next body iId i stop stepVar inclusive
          startItem = .ok o' ∧
        o'.len = opt2.len + 1 ∧
        BlockUse.continueTarget ∈ o'.flags opt2.len ∧
        o'.opsOf opt2.len = [] ∧
        o'.opsOf cb = opt2.opsOf cb ++ [.add i stepVar i] ∧
        (cb, opt2.len) ∈ o'.edges ∧ ((opt2.len, header) ∈ o'.edges)) ∧
    (∀ (opt2 : Opt) (header next body : Nat) (iId : Nat × Nat)
        (i stop stepVar : Variable) (inclusive : Bool) (startItem : Item) (cb : Nat),
      opt2.currentBlock = some cb → cb < opt2.len → header ≠ cb → next ≠ cb →
      BlockUse.merge ∉ opt2.flags cb →
      ∃ o', forLoopFinish opt2 header next body iId i stop stepVar inclusive
          startItem = .ok o' ∧
        o'.len = opt2.len ∧
        BlockUse.continueTarget ∈ o'.flags cb ∧
        o'.opsOf cb = opt2.opsOf cb ++ [.add i stepVar i] ∧
        (cb, header) ∈ o'.edges) :=
  ⟨fun fuel opt i start stop step inclusive scope s mid brk h1 h2 =>
      parseForLoop_decomp fuel opt i start stop step inclusive scope s mid brk h1 h2,
   fun opt2 header next body iId i stop stepVar inclusive startItem cb h1 h2 h3 h4 h5 h6 =>
      forLoopFinish_merge opt2 header next body iId i stop stepVar inclusive
        startItem cb h1 h2 h3 h4 h5 h6,
   fun opt2 header next body iId i stop stepVar inclusive startItem cb h1 h2 h3 h4 h5 =>
      forLoopFinish_nonmerge opt2 header next body iId i stop stepVar inclusive
        startItem cb h1 h2 h3 h4 h5⟩

/-- Witness for C3: a two-block context whose open exit block 0 carries the
`Merge` flag; the finish phase allocates block 2 as continue target and the
increment lands in block 0. -/
theorem claim_C3_witness :
    ∃ o', forLoopFinish
        { program := { blocks := [{ blockUse := [BlockUse.merge] }, {}],
                       edges := [], varTable := [] },
          currentBlock := some 0, ret := 1, loopBreak := [], tempId := 0 }
        1 1 1 (0, 0) iVar (cu 5) (cu 1) false ⟨.uint⟩ = .ok o' ∧
      o'.len = 3 ∧
      BlockUse.continueTarget ∈ o'.flags 2 ∧
      o'.opsOf 2 = [] ∧
      o'.opsOf 0 = [] ++ [.add iVar (cu 1) iVar] ∧
      (0, 2) ∈ o'.edges ∧ ((2, 1) ∈ o'.edges) :=
  claim_C3.2.1
    { program := { blocks := [{ blockUse := [BlockUse.merge] }, {}],
                   edges := [], varTable := [] },
      currentBlock := some 0, ret := 1, loopBreak := [], tempId := 0 }
    1 1 1 (0, 0) iVar (cu 5) (cu 1) false ⟨.uint⟩ 0
    rfl (by decide) (by decide) (by decide) (by decide) (by decide)

/-! ## Claim C4 -/

/-- C4, refuted: after the critical-edge pass splits the edge `(0, 1)` of
`critGraph` (inserting block 4), block 0's `LoopBreak` terminator is left
unchanged: it still references node 1, which is no longer among block 0's
outgoing-edge targets. -/
theorem claim_C4_counterexample :
    (splitCriticalEdges critGraph).cf 0 = .loopBreak (.other 0 ⟨.bool⟩) 1 3 2 ∧
    (0, 1) ∉ (splitCriticalEdges critGraph).edges ∧
    (0, 4) ∈ (splitCriticalEdges critGraph).edges := by
  decide

/-- C4, amended: when the critical-edge pass splits an edge, the terminator
rewrite covers only the `IfElse` then/else targets and the `Switch`
default/branch targets; the `merge` fields are never rewritten, and `Loop`,
`LoopBreak`, `Return` and `None` terminators are left entirely unchanged,
so after the pass a `Loop`/`LoopBreak` terminator (or a merge field) may
reference node ids that are not among the block's outgoing-edge targets. -/
theorem claim_C4 (opt : Opt) (block fro dst : Nat) :
    (∀ cond thenId orElse merge, opt.cf block = .ifElse cond thenId orElse merge →
       (updateControlFlow opt block fro dst).cf block =
         .ifElse cond (if thenId = fro then dst else thenId)
           (if orElse = fro then dst else orElse) merge) ∧
    (∀ value default branches merge, opt.cf block = .switch value default branches merge →
       (updateControlFlow opt block fro dst).cf block =
         .switch value (if default = fro then dst else default)
           (branches.map fun br => (br.1, if br.2 = fro then dst else br.2)) merge) ∧
    (∀ body ct merge, opt.cf block = .loop body ct merge →
       updateControlFlow opt block fro dst = opt) ∧
    (∀ cond body ct merge, opt.cf block = .loopBreak cond body ct merge →
       updateControlFlow opt block fro dst = opt) ∧
    (opt.cf block = .ret → updateControlFlow opt block fro dst = opt) ∧
    (opt.cf block = .none → updateControlFlow opt block fro dst = opt) := by
  refine ⟨?_, ?_, ?_, ?_, ?_, ?_⟩
  · intro cond thenId orElse merge h
    have hlt : block < opt.len := by
      by_contra hge
      rw [Opt.cf_oob _ _ (Nat.le_of_not_lt hge)] at h
      cases h
    unfold updateControlFlow
    rw [h]
    exact Opt.cf_setCF_same _ _ _ hlt
  · intro value default branches merge h
    have hlt : block < opt.len := by
      by_contra hge
      rw [Opt.cf_oob _ _ (Nat.le_of_not_lt hge)] at h
      cases h
    unfold updateControlFlow
    rw [h]
    exact Opt.cf_setCF_same _ _ _ hlt
  · intro body ct merge h
    unfold updateControlFlow
    rw [h]
  · intro cond body ct merge h
    unfold updateControlFlow
    rw [h]
  · intro h
    unfold updateControlFlow
    rw [h]
  · intro h
    unfold updateControlFlow
    rw [h]

/-- Witness for C4: applying the pass's terminator rewrite to the loop
header of `critGraph` leaves the context unchanged. -/
theorem claim_C4_witness :
    updateControlFlow critGraph 0 1 4 = critGraph :=
  (claim_C4 critGraph 0 1 4).2.2.2.1 (.other 0 ⟨.bool⟩) 1 3 2 rfl

/-! ## Claim C8 -/

/-- C8, confirmed: dispatching a break adds an edge from the current block
to the innermost (most recently pushed) entry of the break-target stack
and clears the cursor; with an empty stack it fails fatally; and in the
nested-loop program `loop { loop { break } }` the break edge `(6, 7)`
targets the inner loop's `next` (block 7), not the outer loop's `next`
(block 4). -/
theorem claim_C8 :
    (∀ (fuel : Nat) (opt : Opt) (c lb : Nat) (rest : List Nat),
      opt.currentBlock = some c → opt.loopBreak = lb :: rest →
      parseControlFlow (fuel + 1) opt .brk =
        .ok ((opt.addEdge c lb).setCursor Option.none)) ∧
    (∀ (fuel : Nat) (opt : Opt) (c : Nat),
      opt.currentBlock = some c → opt.loopBreak = [] →
      parseControlFlow (fuel + 1) opt .brk = .error .brokeOutsideLoop) ∧
    ((buildFn 20 [Stmt.loop [Stmt.loop [Stmt.brk]]]).toOption.map
        (fun r => (((6, 7) ∈ r.1.edges : Bool), ((6, 4) ∈ r.1.edges : Bool))) =
      some (true, false)) := by
  refine ⟨?_, ?_, ?_⟩
  · intro fuel opt c lb rest hc hlb
    simp [parseControlFlow, hc, hlb]
  · intro fuel opt c hc hlb
    simp [parseControlFlow, hc, hlb]
  · decide

/-- Witness for C8: a concrete break dispatch inside one loop level. -/
theorem claim_C8_witness :
    parseControlFlow 1
      { program := { blocks := [{}, {}], edges := [], varTable := [] },
        currentBlock := some 0, ret := 1, loopBreak := [5, 9], tempId := 0 } .brk =
      .ok ((Opt.addEdge
        { program := { blocks := [{}, {}], edges := [], varTable := [] },
          currentBlock := some 0, ret := 1, loopBreak := [5, 9], tempId := 0 }
        0 5).setCursor Option.none) :=
  claim_C8.1 0
    { program := { blocks := [{}, {}], edges := [], varTable := [] },
      currentBlock := some 0, ret := 1, loopBreak := [5, 9], tempId := 0 }
    0 5 [9] rfl rfl


/-- Node indices allocated by the setup phase of `parse_for_loop`:
header, body and `next` are the next three arena slots. -/
theorem forLoopSetup_parts (opt : Opt) (i start : Variable)
    (s : Opt × Nat × Nat × Nat × (Nat × Nat))
    (h : forLoopSetup opt i start = .ok s) :
    s.2.1 = opt.len ∧ s.2.2.1 = opt.len + 1 ∧ s.2.2.2.1 = opt.len + 2 := by
  unfold forLoopSetup at h
  split at h
  · simp only [Opt.cursor_insertVariable] at h
    split at h
    · cases h
    · cases h
      refine ⟨?_, ?_, ?_⟩ <;> simp
  · cases h

/-- The finish phase of `parse_for_loop` always leaves the cursor at the
loop's `next` block. -/
theorem forLoopFinish_cursor (opt2 : Opt) (header next body : Nat)
    (iId : Nat × Nat) (i stop stepVar : Variable) (inclusive : Bool)
    (startItem : Item) (o' : Opt)
    (h : forLoopFinish opt2 header next body iId i stop stepVar inclusive startItem =
      .ok o') : o'.currentBlock = some next := by
  simp only [forLoopFinish, Opt.cursor_popBreak] at h
  split at h
  · cases h
  · split at h <;> (cases h; simp)

/-! ## Claim C9 -/

/-- C9, refuted: after lowering `if (c) { return } else { return }` every
path inside the construct diverged via return, yet the cursor is not left
unset: it points at the (unreachable) `next` block 4. -/
theorem claim_C9_counterexample :
    (buildFn 20 [Stmt.ifElse bVar [Stmt.ret] [Stmt.ret]]).toOption.map
      (fun r => r.1.currentBlock) = some (some 4) := by
  decide

/-- C9, amended: after lowering any structured construct (conditional,
switch, or loop), the cursor is always set to the construct's `next`
block — the block allocated to continue after the construct — even when
every path inside the construct diverged via return or break (in which
case `next` is simply unreachable).  The cursor is cleared only by
dispatching `return` or `break` themselves. -/
theorem claim_C9 :
    (∀ (fuel : Nat) (opt : Opt) (cond : Variable) (scope : List Stmt) (o' : Opt),
      parseIf fuel opt cond scope = .ok o' → o'.currentBlock = some (opt.len + 1)) ∧
    (∀ (fuel : Nat) (opt : Opt) (cond : Variable) (s1 s2 : List Stmt) (o' : Opt),
      parseIfElse fuel opt cond s1 s2 = .ok o' → o'.currentBlock = some (opt.len + 2)) ∧
    (∀ (fuel : Nat) (opt : Opt) (value : Variable)
        (cases : List (Variable × List Stmt)) (sd : List Stmt) (o' : Opt),
      parseSwitch fuel opt value cases sd = .ok o' → o'.currentBlock = some opt.len) ∧
    (∀ (fuel : Nat) (opt : Opt) (scope : List Stmt) (o' : Opt),
      parseLoop fuel opt scope = .ok o' → o'.currentBlock = some (opt.len + 2)) ∧
    (∀ (fuel : Nat) (opt : Opt) (i start stop : Variable) (step : Option Variable)
        (inclusive : Bool) (scope : List Stmt) (o' : Opt),
      parseForLoop fuel opt i start stop step inclusive scope = .ok o' →
        o'.currentBlock = some (opt.len + 2)) := by
  refine ⟨?_, ?_, ?_, ?_, ?_⟩
  · intro fuel opt cond scope o' h
    match fuel with
    | 0 => exact absurd h (by simp [parseIf])
    | fuel + 1 =>
      rw [parseIf] at h
      rcases hc : opt.currentBlock with _ | c
      · rw [hc] at h
        cases h
      · rw [hc] at h
        simp only [Bind.bind, Except.bind] at h
        split at h
        · cases h
        · split at h <;> (try split at h) <;> (cases h; simp)
  · intro fuel opt cond s1 s2 o' h
    match fuel with
    | 0 => exact absurd h (by simp [parseIfElse])
    | fuel + 1 =>
      rw [parseIfElse] at h
      rcases hc : opt.currentBlock with _ | c
      · rw [hc] at h
        cases h
      · rw [hc] at h
        simp only [Bind.bind, Except.bind] at h
        split at h
        · cases h
        · split at h
          · cases h
          · split at h <;> split at h <;> (try split at h) <;> (cases h; simp)
  · intro fuel opt value cases' sd o' h
    match fuel with
    | 0 => exact absurd h (by simp [parseSwitch])
    | fuel + 1 =>
      rw [parseSwitch] at h
      rcases hc : opt.currentBlock with _ | c
      · rw [hc] at h
        cases h
      · rw [hc] at h
        simp only [Bind.bind, Except.bind] at h
        split at h
        · cases h
        · split at h
          · cases h
          · split at h <;> split at h <;> (try split at h) <;> (cases h; simp)
  · intro fuel opt scope o' h
    match fuel with
    | 0 => exact absurd h (by simp [parseLoop])
    | fuel + 1 =>
      rw [parseLoop] at h
      rcases hc : opt.currentBlock with _ | c
      · rw [hc] at h
        cases h
      · rw [hc] at h
        simp only [Bind.bind, Except.bind] at h
        split at h
        · cases h
        · split at h <;> (cases h; simp)
  · intro fuel opt i start stop step inclusive scope o' h
    match fuel with
    | 0 => exact absurd h (by simp [parseForLoop])
    | fuel + 1 =>
      rw [parseForLoop] at h
      simp only [Bind.bind, Except.bind] at h
      split at h
      · cases h
      · rename_i s hs
        split at h
        · cases h
        · rename_i r hr
          have hparts := forLoopSetup_parts opt i start s hs
          rw [← hparts.2.2]
          exact forLoopFinish_cursor _ _ _ _ _ _ _ _ _ _ _ h

/-- Witness for C9: the single-branch conditional of Scenario A leaves the
cursor at its `next` block (block 3). -/
theorem claim_C9_witness :
    ∃ o', parseIf 10 initOpt bVar [Stmt.op 7] = .ok o' ∧
      o'.currentBlock = some 3 := by
  refine ⟨_, rfl, ?_⟩
  exact claim_C9.1 10 initOpt bVar [Stmt.op 7] _ rfl

/-! ## Claim C10 -/

/-- C10, confirmed: a signed integer switch-case label is stored as its
32-bit two's-complement reinterpretation, i.e. the label value reduced
modulo `2^32` (so `-1` is stored as `4294967295`); unsigned labels are
truncated modulo `2^32`; and in a concrete build the converted label is
what ends up in the `Switch` terminator's branch list. -/
theorem claim_C10 :
    (∀ (v : Int) (k : IntKind),
      switchLabel (.constantScalar (.int v k)) = .ok ((v % 2 ^ 32).toNat)) ∧
    switchLabel (.constantScalar (.int (-1) .i32)) = .ok 4294967295 ∧
    (∀ u : Nat, switchLabel (.constantScalar (.uint u)) = .ok (u % 2 ^ 32)) ∧
    (buildFn 20 [Stmt.switch (.other 1 ⟨.int⟩)
        [(.constantScalar (.int (-1) .i32), [Stmt.op 3])] []]).toOption.map
      (fun r => r.1.cf 0) =
      some (.switch (.other 1 ⟨.int⟩) 4 [(4294967295, 3)] (some 2)) := by
  refine ⟨?_, by decide, fun u => rfl, by decide⟩
  intro v k
  simp only [switchLabel, Variable.asConst]
  congr 1
  by_cases h : (0 : Int) ≤ (v + 2 ^ 31) % 2 ^ 32 - 2 ^ 31
  · rw [if_pos h]
    omega
  · rw [if_neg h]
    omega



/-! ## The critical-edge pass: C5 and C6 -/


/-! Split-pass structural lemmas -/

theorem len_updatePhi (opt : Opt) (block fro dst : Nat) :
    (updatePhi opt block fro dst).len = opt.len := by
  simp [updatePhi]

theorem edges_updatePhi (opt : Opt) (block fro dst : Nat) :
    (updatePhi opt block fro dst).edges = opt.edges := rfl

theorem len_updateControlFlow (opt : Opt) (block fro dst : Nat) :
    (updateControlFlow opt block fro dst).len = opt.len := by
  unfold updateControlFlow
  split <;> simp

theorem edges_updateControlFlow (opt : Opt) (block fro dst : Nat) :
    (updateControlFlow opt block fro dst).edges = opt.edges := by
  unfold updateControlFlow
  split <;> rfl

theorem splitOne_len (p : Opt) (b t : Nat) : (splitOne p b t).len = p.len + 1 := by
  unfold splitOne
  rw [len_updateControlFlow, len_updatePhi]
  simp [Opt.len, Opt.addNode, Opt.addEdge]

theorem splitOne_edges (p : Opt) (b t : Nat) :
    (splitOne p b t).edges = (p.edges.erase (b, t)) ++ [(b, p.len), (p.len, t)] := by
  unfold splitOne
  rw [edges_updateControlFlow, edges_updatePhi]
  simp [Opt.addEdge, Opt.addNode, Opt.edges, Opt.len]

/-- Counting decomposition of `erase` at a member. -/
theorem countP_eq_countP_erase (l : List (Nat × Nat)) (a : Nat × Nat) (h : a ∈ l)
    (f : Nat × Nat → Bool) :
    l.countP f = (l.erase a).countP f + (if f a then 1 else 0) := by
  obtain ⟨l₁, l₂, _, hd, he⟩ := List.exists_erase_eq h
  rw [he, hd]
  simp [List.countP_append, List.countP_cons]
  by_cases hfa : f a <;> simp [hfa] <;> omega

theorem count_eq_count_erase (l : List (Nat × Nat)) (a : Nat × Nat) (h : a ∈ l)
    (e : Nat × Nat) :
    l.count e = (l.erase a).count e + (if e = a then 1 else 0) := by
  obtain ⟨l₁, l₂, _, hd, he⟩ := List.exists_erase_eq h
  rw [he, hd]
  simp [List.count_append, List.count_cons]
  by_cases hea : e = a <;> simp [hea]
  · omega
  · exact fun hh => hea hh.symm

theorem preds_length (p : Opt) (v : Nat) :
    (p.predecessors v).length = p.indeg v := by
  simp [Opt.predecessors, Opt.indeg, List.countP_eq_length_filter]

theorem outdeg_eq_filter_length (p : Opt) (b : Nat) :
    (p.edges.filter (fun e => e.1 = b)).length = p.outdeg b := by
  simp [Opt.outdeg, List.countP_eq_length_filter]



theorem splitOne_indeg (p : Opt) (b t : Nat) (hmem : (b, t) ∈ p.edges) (v : Nat) :
    (splitOne p b t).indeg v = p.indeg v + (if p.len = v then 1 else 0) := by
  have h1 := countP_eq_countP_erase p.edges (b, t) hmem (fun e => e.2 = v)
  unfold Opt.indeg
  rw [splitOne_edges, List.countP_append, h1]
  by_cases hv1 : p.len = v <;> by_cases hv2 : t = v <;>
    simp [List.countP_cons, hv1, hv2] <;> omega

theorem splitOne_outdeg (p : Opt) (b t : Nat) (hmem : (b, t) ∈ p.edges) (v : Nat) :
    (splitOne p b t).outdeg v = p.outdeg v + (if p.len = v then 1 else 0) := by
  have h1 := countP_eq_countP_erase p.edges (b, t) hmem (fun e => e.1 = v)
  unfold Opt.outdeg
  rw [splitOne_edges, List.countP_append, h1]
  by_cases hv1 : p.len = v <;> by_cases hv2 : b = v <;>
    simp [List.countP_cons, hv1, hv2] <;> omega

theorem indeg_oob (p : Opt) (hwf : EdgesWF p) (v : Nat) (hv : p.len ≤ v) :
    p.indeg v = 0 := by
  unfold Opt.indeg
  rw [List.countP_eq_zero]
  intro e he
  have := (hwf e he).2
  simp
  omega

theorem outdeg_oob (p : Opt) (hwf : EdgesWF p) (v : Nat) (hv : p.len ≤ v) :
    p.outdeg v = 0 := by
  unfold Opt.outdeg
  rw [List.countP_eq_zero]
  intro e he
  have := (hwf e he).1
  simp
  omega

theorem splitOne_wf (p : Opt) (b t : Nat) (hwf : EdgesWF p) (hmem : (b, t) ∈ p.edges) :
    EdgesWF (splitOne p b t) := by
  intro e he
  rw [splitOne_edges] at he
  rw [splitOne_len]
  rcases List.mem_append.mp he with h | h
  · have := hwf e ((p.edges.erase_sublist (b, t)).mem h)
    omega
  · have hb : b < p.len := (hwf (b, t) hmem).1
    have ht : t < p.len := (hwf (b, t) hmem).2
    rcases List.mem_cons.mp h with h1 | h1
    · rw [h1]
      exact ⟨by omega, by simp <;> omega⟩
    · rcases List.mem_cons.mp h1 with h2 | h2
      · rw [h2]
        exact ⟨by simp <;> omega, by omega⟩
      · cases h2

theorem splitOne_edge_mem (p : Opt) (b t : Nat) (e : Nat × Nat)
    (he : e ∈ (splitOne p b t).edges) :
    e ∈ p.edges ∨ e = (b, p.len) ∨ e = (p.len, t) := by
  rw [splitOne_edges] at he
  rcases List.mem_append.mp he with h | h
  · exact Or.inl ((p.edges.erase_sublist (b, t)).mem h)
  · rcases List.mem_cons.mp h with h1 | h1
    · exact Or.inr (Or.inl h1)
    · rcases List.mem_cons.mp h1 with h2 | h2
      · exact Or.inr (Or.inr h2)
      · cases h2

theorem splitOne_count_old (p : Opt) (b t : Nat) (hmem : (b, t) ∈ p.edges)
    (e : Nat × Nat) (he1 : e.1 < p.len) (he2 : e.2 < p.len) :
    (splitOne p b t).edges.count e + (if e = (b, t) then 1 else 0) =
      p.edges.count e := by
  have h1 := count_eq_count_erase p.edges (b, t) hmem e
  rw [splitOne_edges, List.count_append]
  have hne1 : e ≠ (b, p.len) := by
    intro hh
    rw [hh] at he2
    simp at he2 <;> omega
  have hne2 : e ≠ (p.len, t) := by
    intro hh
    rw [hh] at he1
    simp at he1 <;> omega
  simp [List.count_cons, hne1, hne2]
  omega

theorem splitOne_count_ge (p : Opt) (b t : Nat) (e : Nat × Nat) :
    (p.edges.erase (b, t)).count e ≤ (splitOne p b t).edges.count e := by
  rw [splitOne_edges, List.count_append]
  omega



theorem fold_splitOne (p0 : Opt) (b : Nat) :
    ∀ (cr : List (Nat × Nat)) (acc : Opt),
    (∀ e ∈ cr, e.1 = b) →
    (∀ e, cr.count e ≤ acc.edges.count e) →
    p0.len ≤ acc.len →
    (∀ v, v < p0.len → acc.indeg v = p0.indeg v ∧ acc.outdeg v = p0.outdeg v) →
    (∀ v, p0.len ≤ v → v < acc.len → acc.indeg v = 1 ∧ acc.outdeg v = 1) →
    EdgesWF acc →
    (∀ e ∈ acc.edges, e ∈ p0.edges ∨ p0.len ≤ e.1 ∨ p0.len ≤ e.2) →
    p0.len ≤ (cr.foldl (fun a e => splitOne a b e.2) acc).len ∧
    (∀ v, v < p0.len →
      (cr.foldl (fun a e => splitOne a b e.2) acc).indeg v = p0.indeg v ∧
      (cr.foldl (fun a e => splitOne a b e.2) acc).outdeg v = p0.outdeg v) ∧
    (∀ v, p0.len ≤ v → v < (cr.foldl (fun a e => splitOne a b e.2) acc).len →
      (cr.foldl (fun a e => splitOne a b e.2) acc).indeg v = 1 ∧
      (cr.foldl (fun a e => splitOne a b e.2) acc).outdeg v = 1) ∧
    EdgesWF (cr.foldl (fun a e => splitOne a b e.2) acc) ∧
    (∀ e ∈ (cr.foldl (fun a e => splitOne a b e.2) acc).edges,
      e ∈ p0.edges ∨ p0.len ≤ e.1 ∨ p0.len ≤ e.2) ∧
    (∀ e : Nat × Nat, e.1 < p0.len → e.2 < p0.len →
      (cr.foldl (fun a e => splitOne a b e.2) acc).edges.count e + cr.count e =
        acc.edges.count e) := by
  intro cr
  induction cr with
  | nil =>
    intro acc _ _ h3 h4 h5 h6 h7
    refine ⟨h3, h4, h5, h6, h7, ?_⟩
    intro e _ _
    simp
  | cons c cr' ih =>
    obtain ⟨c1, t⟩ := c
    intro acc hsrc hcount hlen hold hfresh hwf hchar
    have hc1 : c1 = b := hsrc (c1, t) (List.mem_cons_self _ _)
    subst hc1
    have hmem : (c1, t) ∈ acc.edges := by
      rw [← List.count_pos_iff]
      have := hcount (c1, t)
      simp [List.count_cons] at this
      omega
    have hb : c1 < acc.len := (hwf _ hmem).1
    have ht : t < acc.len := (hwf _ hmem).2
    rw [List.foldl_cons, show ((c1, t) : Nat × Nat).2 = t from rfl]
    have hcount' : ∀ e, cr'.count e ≤ (splitOne acc c1 t).edges.count e := by
      intro e
      by_cases he : e = (c1, t)
      · subst he
        have h1 := splitOne_count_old acc c1 t hmem (c1, t) hb ht
        have h2 := hcount (c1, t)
        rw [List.count_cons_self] at h2
        simp at h1
        omega
      · have h1 : (acc.edges.erase (c1, t)).count e = acc.edges.count e :=
          List.count_erase_of_ne he _
        have h2 := splitOne_count_ge acc c1 t e
        have h3 := hcount e
        have h4 : cr'.count e ≤ ((c1, t) :: cr').count e := by
          simp [List.count_cons]
        omega
    have hlen' : p0.len ≤ (splitOne acc c1 t).len := by
      rw [splitOne_len]
      omega
    have hold' : ∀ v, v < p0.len →
        (splitOne acc c1 t).indeg v = p0.indeg v ∧
        (splitOne acc c1 t).outdeg v = p0.outdeg v := by
      intro v hv
      rw [splitOne_indeg _ _ _ hmem, splitOne_outdeg _ _ _ hmem, if_neg (by omega)]
      simp [hold v hv]
    have hfresh' : ∀ v, p0.len ≤ v → v < (splitOne acc c1 t).len →
        (splitOne acc c1 t).indeg v = 1 ∧ (splitOne acc c1 t).outdeg v = 1 := by
      intro v hv1 hv2
      rw [splitOne_len] at hv2
      rw [splitOne_indeg _ _ _ hmem, splitOne_outdeg _ _ _ hmem]
      by_cases hv : acc.len = v
      · subst hv
        simp [indeg_oob acc hwf acc.len (le_refl _),
          outdeg_oob acc hwf acc.len (le_refl _)]
      · rw [if_neg hv]
        simp [hfresh v hv1 (by omega)]
    have hwf' : EdgesWF (splitOne acc c1 t) := splitOne_wf acc c1 t hwf hmem
    have hchar' : ∀ e ∈ (splitOne acc c1 t).edges,
        e ∈ p0.edges ∨ p0.len ≤ e.1 ∨ p0.len ≤ e.2 := by
      intro e he
      rcases splitOne_edge_mem acc c1 t e he with h | h | h
      · exact hchar e h
      · rw [h]
        right
        right
        simpa using hlen
      · rw [h]
        right
        left
        simpa using hlen
    have hsrc' : ∀ e ∈ cr', e.1 = c1 := fun e he => hsrc e (List.mem_cons_of_mem _ he)
    obtain ⟨r1, r2, r3, r4, r5, r6⟩ :=
      ih (splitOne acc c1 t) hsrc' hcount' hlen' hold' hfresh' hwf' hchar'
    refine ⟨r1, r2, r3, r4, r5, ?_⟩
    intro e he1 he2
    have h1 := r6 e he1 he2
    have h2 := splitOne_count_old acc c1 t hmem e (by omega) (by omega)
    by_cases he : e = (c1, t)
    · subst he
      rw [List.count_cons_self]
      simp at h2
      omega
    · rw [List.count_cons_of_ne he]
      rw [if_neg he] at h2
      omega



theorem splitBlockEdges_eq (p : Opt) (b : Nat) : splitBlockEdges p b =
    if 1 < (p.edges.filter (fun e => e.1 = b)).length then
      ((p.edges.filter (fun e => e.1 = b)).filter
        (fun e => 1 < (p.predecessors e.2).length)).foldl
          (fun acc e => splitOne acc b e.2) p
    else p := rfl

theorem splitBlockEdges_props (p : Opt) (b : Nat) (hwf : EdgesWF p) (hb : b < p.len) :
    p.len ≤ (splitBlockEdges p b).len ∧
    (∀ v, v < p.len → (splitBlockEdges p b).indeg v = p.indeg v ∧
      (splitBlockEdges p b).outdeg v = p.outdeg v) ∧
    (∀ v, p.len ≤ v → v < (splitBlockEdges p b).len →
      (splitBlockEdges p b).indeg v = 1 ∧ (splitBlockEdges p b).outdeg v = 1) ∧
    EdgesWF (splitBlockEdges p b) ∧
    (∀ e ∈ (splitBlockEdges p b).edges, e ∈ p.edges ∨ p.len ≤ e.1 ∨ p.len ≤ e.2) ∧
    (∀ e ∈ (splitBlockEdges p b).edges, e.1 = b → 1 < (splitBlockEdges p b).outdeg b →
      (splitBlockEdges p b).indeg e.2 ≤ 1) := by
  by_cases hs : 1 < (p.edges.filter (fun e => e.1 = b)).length
  · rw [splitBlockEdges_eq, if_pos hs]
    have hsub : ((p.edges.filter (fun e => e.1 = b)).filter
        (fun e => 1 < (p.predecessors e.2).length)).Sublist p.edges :=
      (List.filter_sublist _).trans (List.filter_sublist _)
    obtain ⟨r1, r2, r3, r4, r5, r6⟩ := fold_splitOne p b
      ((p.edges.filter (fun e => e.1 = b)).filter
        (fun e => 1 < (p.predecessors e.2).length)) p
      (by
        intro e he
        have := List.of_mem_filter (List.mem_of_mem_filter he)
        simpa using this)
      (fun e => hsub.count_le e)
      (le_refl _)
      (fun v _ => ⟨rfl, rfl⟩)
      (fun v hv1 hv2 => absurd (lt_of_le_of_lt hv1 hv2) (lt_irrefl _))
      hwf
      (fun e he => Or.inl he)
    refine ⟨r1, r2, r3, r4, r5, ?_⟩
    intro e he heb houtdeg
    rcases r5 e he with hin | h1 | h2
    · by_cases hcrit : 1 < (p.predecessors e.2).length
      · exfalso
        have he2lt : e.2 < p.len := (hwf e hin).2
        have he1lt : e.1 < p.len := by omega
        have hc := r6 e he1lt he2lt
        have hcnt1 : ((p.edges.filter (fun e => e.1 = b)).filter
            (fun e => 1 < (p.predecessors e.2).length)).count e =
            (p.edges.filter (fun e => e.1 = b)).count e :=
          List.count_filter (by simpa using hcrit)
        have hcnt2 : (p.edges.filter (fun e => e.1 = b)).count e =
            p.edges.count e :=
          List.count_filter (by simpa using heb)
        have hmemr : 1 ≤ (((p.edges.filter (fun e => e.1 = b)).filter
            (fun e => 1 < (p.predecessors e.2).length)).foldl
              (fun acc e => splitOne acc b e.2) p).edges.count e :=
          List.count_pos_iff.mpr he
        have hple : p.edges.count e ≥ 1 := List.count_pos_iff.mpr hin
        omega
      · have he2lt : e.2 < p.len := (hwf e hin).2
        rw [(r2 e.2 he2lt).1]
        rw [preds_length] at hcrit
        omega
    · omega
    · have he2lt : e.2 < (((p.edges.filter (fun e => e.1 = b)).filter
          (fun e => 1 < (p.predecessors e.2).length)).foldl
            (fun acc e => splitOne acc b e.2) p).len := (r4 e he).2
      rw [(r3 e.2 h2 he2lt).1]
  · rw [splitBlockEdges_eq, if_neg hs]
    refine ⟨le_refl _, fun v _ => ⟨rfl, rfl⟩,
      (fun v hv1 hv2 => absurd (lt_of_le_of_lt hv1 hv2) (lt_irrefl _)),
      hwf, (fun e he => Or.inl he), ?_⟩
    intro e he heb houtdeg
    exfalso
    rw [outdeg_eq_filter_length] at hs
    omega



theorem fold_blocks (p0 : Opt) :
    ∀ (bs : List Nat) (q : Opt),
    (∀ b ∈ bs, b < p0.len) →
    p0.len ≤ q.len →
    (∀ v, v < p0.len → q.indeg v = p0.indeg v ∧ q.outdeg v = p0.outdeg v) →
    (∀ v, p0.len ≤ v → v < q.len → q.indeg v = 1 ∧ q.outdeg v = 1) →
    EdgesWF q →
    (∀ e ∈ q.edges, e.1 ∉ bs → e.1 < p0.len → 1 < q.outdeg e.1 → q.indeg e.2 ≤ 1) →
    p0.len ≤ (bs.foldl splitBlockEdges q).len ∧
    (∀ v, p0.len ≤ v → v < (bs.foldl splitBlockEdges q).len →
      (bs.foldl splitBlockEdges q).indeg v = 1 ∧
      (bs.foldl splitBlockEdges q).outdeg v = 1) ∧
    EdgesWF (bs.foldl splitBlockEdges q) ∧
    (∀ e ∈ (bs.foldl splitBlockEdges q).edges, e.1 < p0.len →
      1 < (bs.foldl splitBlockEdges q).outdeg e.1 →
      (bs.foldl splitBlockEdges q).indeg e.2 ≤ 1) := by
  intro bs
  induction bs with
  | nil =>
    intro q _ h2 _ h4 h5 h6
    exact ⟨h2, h4, h5, fun e he he1 => h6 e he (by simp) he1⟩
  | cons b bs' ih =>
    intro q hbs hlen hold hfresh hwf hclean
    have hb : b < p0.len := hbs b (List.mem_cons_self _ _)
    have hbq : b < q.len := by omega
    obtain ⟨s1, s2, s3, s4, s5, s6⟩ := splitBlockEdges_props q b hwf hbq
    rw [List.foldl_cons]
    apply ih
    · exact fun b' hb' => hbs b' (List.mem_cons_of_mem _ hb')
    · omega
    · intro v hv
      have := s2 v (by omega)
      have := hold v hv
      omega
    · intro v hv1 hv2
      by_cases hvq : v < q.len
      · have := s2 v hvq
        have := hfresh v hv1 hvq
        omega
      · exact s3 v (by omega) hv2
    · exact s4
    · intro e he hnotin he1 houtdeg
      by_cases heb : e.1 = b
      · subst heb
        exact s6 e he rfl houtdeg
      · have hnotin' : e.1 ∉ b :: bs' := by
          intro hmem
          rcases List.mem_cons.mp hmem with h | h
          · exact heb h
          · exact hnotin h
        rcases s5 e he with hin | h1 | h2
        · have he1q : e.1 < q.len := by omega
          have he2q : e.2 < q.len := (hwf e hin).2
          have hd1 := s2 e.1 he1q
          have hd2 := s2 e.2 he2q
          have hq := hclean e hin hnotin' he1
          omega
        · omega
        · have he2lt : e.2 < (splitBlockEdges q b).len := (s4 e he).2
          have := s3 e.2 h2 he2lt
          omega

theorem splitCriticalEdges_props (opt : Opt) (hwf : EdgesWF opt) :
    opt.len ≤ (splitCriticalEdges opt).len ∧
    (∀ v, opt.len ≤ v → v < (splitCriticalEdges opt).len →
      (splitCriticalEdges opt).indeg v = 1 ∧ (splitCriticalEdges opt).outdeg v = 1) ∧
    EdgesWF (splitCriticalEdges opt) ∧
    (∀ e ∈ (splitCriticalEdges opt).edges,
      ¬(1 < (splitCriticalEdges opt).outdeg e.1 ∧
        1 < (splitCriticalEdges opt).indeg e.2)) := by
  rw [show splitCriticalEdges opt = (List.range opt.len).foldl splitBlockEdges opt
    from rfl]
  obtain ⟨r1, r2, r3, r4⟩ := fold_blocks opt (List.range opt.len) opt
    (fun b hb => List.mem_range.mp hb)
    (le_refl _)
    (fun v _ => ⟨rfl, rfl⟩)
    (fun v hv1 hv2 => absurd (lt_of_le_of_lt hv1 hv2) (lt_irrefl _))
    hwf
    (fun e he hnotin he1 => absurd (List.mem_range.mpr he1) hnotin)
  refine ⟨r1, r2, r3, ?_⟩
  intro e he hcontra
  by_cases he1 : e.1 < opt.len
  · have := r4 e he he1 hcontra.1
    omega
  · have he1lt : e.1 < (splitCriticalEdges opt).len := (r3 e he).1
    have := (r2 e.1 (by omega) he1lt).2
    omega



theorem splitBlockEdges_eq_self (q : Opt)
    (hcf : ∀ e ∈ q.edges, ¬(1 < q.outdeg e.1 ∧ 1 < q.indeg e.2)) (b : Nat) :
    splitBlockEdges q b = q := by
  rw [splitBlockEdges_eq]
  by_cases hs : 1 < (q.edges.filter (fun e => e.1 = b)).length
  · rw [if_pos hs]
    have hcrit : (q.edges.filter (fun e => e.1 = b)).filter
        (fun e => 1 < (q.predecessors e.2).length) = [] := by
      rw [List.filter_eq_nil_iff]
      intro e he
      simp only [decide_eq_true_eq]
      rw [preds_length]
      have hmem : e ∈ q.edges := List.mem_of_mem_filter he
      have heb : e.1 = b := by simpa using List.of_mem_filter he
      have houtdeg : 1 < q.outdeg b := by
        rw [← outdeg_eq_filter_length]
        exact hs
      have hc := hcf e hmem
      rw [heb] at hc
      omega
    rw [hcrit]
    rfl
  · rw [if_neg hs]

theorem foldl_fixed {α β : Type} (f : α → β → α) (q : α) :
    ∀ (l : List β), (∀ b ∈ l, f q b = q) → l.foldl f q = q := by
  intro l
  induction l with
  | nil => intro _; rfl
  | cons b l' ih =>
    intro h
    rw [List.foldl_cons, h b (List.mem_cons_self _ _)]
    exact ih (fun b' hb' => h b' (List.mem_cons_of_mem _ hb'))

/-- C5, confirmed: after `split_critical_edges` runs once on a well-formed
graph, no edge has a source with more than one outgoing edge and a target
with more than one incoming edge, and every block the pass inserted has
exactly one incoming and one outgoing edge. -/
theorem claim_C5 (opt : Opt) (hwf : EdgesWF opt) :
    (∀ e ∈ (splitCriticalEdges opt).edges,
      ¬(1 < (splitCriticalEdges opt).outdeg e.1 ∧
        1 < (splitCriticalEdges opt).indeg e.2)) ∧
    (∀ v, opt.len ≤ v → v < (splitCriticalEdges opt).len →
      (splitCriticalEdges opt).indeg v = 1 ∧ (splitCriticalEdges opt).outdeg v = 1) := by
  obtain ⟨r1, r2, r3, r4⟩ := splitCriticalEdges_props opt hwf
  exact ⟨r4, r2⟩

/-- Witness for C5 on the concrete `critGraph`. -/
theorem claim_C5_witness :
    (∀ e ∈ (splitCriticalEdges critGraph).edges,
      ¬(1 < (splitCriticalEdges critGraph).outdeg e.1 ∧
        1 < (splitCriticalEdges critGraph).indeg e.2)) ∧
    (∀ v, critGraph.len ≤ v → v < (splitCriticalEdges critGraph).len →
      (splitCriticalEdges critGraph).indeg v = 1 ∧
      (splitCriticalEdges critGraph).outdeg v = 1) :=
  claim_C5 critGraph (by decide)

/-- C6, confirmed: `split_critical_edges` is idempotent on well-formed
graphs: running it a second time adds no nodes, removes no edges, and
leaves the whole program (graph, phi entries, terminators) unchanged. -/
theorem claim_C6 (opt : Opt) (hwf : EdgesWF opt) :
    splitCriticalEdges (splitCriticalEdges opt) = splitCriticalEdges opt := by
  have hcf := (splitCriticalEdges_props opt hwf).2.2.2
  rw [show splitCriticalEdges (splitCriticalEdges opt) =
    (List.range (splitCriticalEdges opt).len).foldl splitBlockEdges
      (splitCriticalEdges opt) from rfl]
  exact foldl_fixed _ _ _ (fun b _ => splitBlockEdges_eq_self _ hcf b)

/-- Witness for C6 on the concrete `critGraph`. -/
theorem claim_C6_witness :
    splitCriticalEdges (splitCriticalEdges critGraph) = splitCriticalEdges critGraph :=
  claim_C6 critGraph (by decide)


end CubeCFG

namespace CubeCFG

/-- Cursor invariant: an open cursor always points at an allocated block
whose terminator has not yet been written. -/
def CInv (opt : Opt) : Prop :=
  ∀ c, opt.currentBlock = some c → c < opt.len ∧ opt.cf c = .none

/-- Return uniqueness: the canonical return node is the only block carrying
the `Return` terminator. -/
def RetUniq (opt : Opt) : Prop :=
  opt.ret < opt.len ∧ ∀ b, b < opt.len → (opt.cf b = .ret ↔ b = opt.ret)

/-- Whether block `h` carries a loop terminator whose merge is `b`. -/
def isLoopMergeOf (opt : Opt) (h b : Nat) : Bool :=
  match opt.cf h with
  | .loop _ _ m => m = b
  | .loopBreak _ _ _ m => m = b
  | _ => false

/-- Whether block `h` carries a switch terminator whose merge is `some b`. -/
def isSwitchMergeOf (opt : Opt) (h b : Nat) : Bool :=
  match opt.cf h with
  | .switch _ _ _ m => m = some b
  | _ => false

/-- What being a justified `Merge` block means: at least two incoming
edges, or a funnel into the canonical return node (the return node itself
or a block with an edge to it), or the merge of some loop or switch
terminator. -/
def QProp (opt : Opt) (b : Nat) : Prop :=
  2 ≤ opt.indeg b ∨ b = opt.ret ∨ (b, opt.ret) ∈ opt.edges ∨
  (∃ h, h < opt.len ∧ isLoopMergeOf opt h b = true) ∨
  (∃ h, h < opt.len ∧ isSwitchMergeOf opt h b = true)

/-- Every Merge-flagged block is justified. -/
def MergeInv (opt : Opt) : Prop :=
  ∀ b, b < opt.len → BlockUse.merge ∈ opt.flags b → QProp opt b

/-- Builder-step relation: everything a single recursive lowering call
preserves or only monotonically extends. -/
def Pres (o o' : Opt) : Prop :=
  o'.ret = o.ret ∧
  o.len ≤ o'.len ∧
  (∃ l, o'.edges = o.edges ++ l) ∧
  (∀ b, b < o.len → ∃ l, o'.flags b = o.flags b ++ l) ∧
  (∀ b, b < o.len → some b ≠ o.currentBlock → o'.cf b = o.cf b) ∧
  (∀ b, o'.cf b = .ret → b < o.len ∧ o.cf b = .ret) ∧
  (o'.currentBlock = o.currentBlock ∨ o'.currentBlock = Option.none ∨
    ∃ c, o.len ≤ c ∧ o'.currentBlock = some c) ∧
  (CInv o → CInv o') ∧
  (CInv o → MergeInv o → MergeInv o')

theorem Pres_refl (o : Opt) : Pres o o := by
  refine ⟨rfl, le_refl _, ⟨[], by simp⟩, fun b _ => ⟨[], by simp⟩,
    fun _ _ _ => rfl, ?_, Or.inl rfl, id, fun _ h => h⟩
  intro b hb
  refine ⟨?_, hb⟩
  by_contra hlt
  rw [Opt.cf_oob o b (Nat.le_of_not_lt hlt)] at hb
  cases hb

theorem Pres_trans {o1 o2 o3 : Opt} (h12 : Pres o1 o2) (h23 : Pres o2 o3) :
    Pres o1 o3 := by
  obtain ⟨r1, l1, e1, f1, c1, rr1, cc1, ci1, mi1⟩ := h12
  obtain ⟨r2, l2, e2, f2, c2, rr2, cc2, ci2, mi2⟩ := h23
  refine ⟨r2.trans r1, l1.trans l2, ?_, ?_, ?_, ?_, ?_, ?_, ?_⟩
  · obtain ⟨la, ha⟩ := e1
    obtain ⟨lb, hb⟩ := e2
    exact ⟨la ++ lb, by rw [hb, ha, List.append_assoc]⟩
  · intro b hb
    obtain ⟨la, ha⟩ := f1 b hb
    obtain ⟨lb, hb2⟩ := f2 b (by omega)
    exact ⟨la ++ lb, by rw [hb2, ha, List.append_assoc]⟩
  · intro b hb hne
    have h2 : o2.cf b = o1.cf b := c1 b hb hne
    have hne2 : some b ≠ o2.currentBlock := by
      rcases cc1 with h | h | ⟨c, hc, h⟩
      · rw [h]
        exact hne
      · rw [h]
        simp
      · rw [h]
        intro hcon
        have : b = c := by injection hcon
        omega
    rw [c2 b (by omega) hne2, h2]
  · intro b hb
    have h3 := rr2 b hb
    have h4 := rr1 b h3.2
    exact h4
  · rcases cc2 with h | h | ⟨c, hc, h⟩
    · rw [h]
      exact cc1
    · exact Or.inr (Or.inl h)
    · exact Or.inr (Or.inr ⟨c, by omega, h⟩)
  · exact fun h => ci2 (ci1 h)
  · exact fun hc hm => mi2 (ci1 hc) (mi1 hc hm)

end CubeCFG

namespace CubeCFG

theorem QProp_mono (o o' : Opt) (hret : o'.ret = o.ret) (hlen : o.len ≤ o'.len)
    (hedges : ∃ l, o'.edges = o.edges ++ l)
    (hcf : ∀ h, h < o.len → o.cf h ≠ .none → o'.cf h = o.cf h) :
    ∀ b, QProp o b → QProp o' b := by
  intro b hq
  obtain ⟨l, hl⟩ := hedges
  rcases hq with h | h | h | ⟨h, hh, hm⟩ | ⟨h, hh, hm⟩
  · left
    unfold Opt.indeg at h ⊢
    rw [hl, List.countP_append]
    omega
  · right
    left
    rw [hret, h]
  · right
    right
    left
    rw [hret, hl]
    exact List.mem_append_left _ h
  · right
    right
    right
    left
    refine ⟨h, by omega, ?_⟩
    have hne : o.cf h ≠ .none := by
      unfold isLoopMergeOf at hm
      intro hcon
      rw [hcon] at hm
      cases hm
    unfold isLoopMergeOf at hm ⊢
    rw [hcf h hh hne]
    exact hm
  · right
    right
    right
    right
    refine ⟨h, by omega, ?_⟩
    have hne : o.cf h ≠ .none := by
      unfold isSwitchMergeOf at hm
      intro hcon
      rw [hcon] at hm
      cases hm
    unfold isSwitchMergeOf at hm ⊢
    rw [hcf h hh hne]
    exact hm

/-! Effect lemmas for `mergeRet`. -/

theorem mergeRet_eq (o : Opt) : mergeRet o =
    if BlockUse.merge ∈ o.flags o.ret then
      (((o.addNode.1).addEdge o.len o.ret).pushFlag o.len .merge, o.len)
    else (o.pushFlag o.ret .merge, o.ret) := by
  unfold mergeRet
  split <;> simp

theorem mergeRet_ret (o : Opt) : (mergeRet o).1.ret = o.ret := by
  rw [mergeRet_eq]
  split <;> simp

theorem mergeRet_cursor (o : Opt) : (mergeRet o).1.currentBlock = o.currentBlock := by
  rw [mergeRet_eq]
  split <;> simp

theorem mergeRet_len (o : Opt) : o.len ≤ (mergeRet o).1.len := by
  rw [mergeRet_eq]
  split <;> simp

theorem mergeRet_cf (o : Opt) (b : Nat) : (mergeRet o).1.cf b = o.cf b := by
  rw [mergeRet_eq]
  split
  · show (((o.addNode.1).addEdge o.len o.ret).pushFlag o.len .merge).cf b = o.cf b
    rw [Opt.cf_pushFlag, Opt.cf_addEdge]
    by_cases hb : b = o.len
    · subst hb
      rw [Opt.cf_addNode_self, Opt.cf_oob o _ (le_refl _)]
    · rw [Opt.cf_addNode_ne _ _ hb]
  · show (o.pushFlag o.ret .merge).cf b = o.cf b
    rw [Opt.cf_pushFlag]

theorem mergeRet_edges (o : Opt) : ∃ l, (mergeRet o).1.edges = o.edges ++ l := by
  rw [mergeRet_eq]
  split
  · exact ⟨[(o.len, o.ret)], by simp⟩
  · exact ⟨[], by simp⟩

theorem mergeRet_flags (o : Opt) (b : Nat) (hb : b < o.len) :
    ∃ l, (mergeRet o).1.flags b = o.flags b ++ l := by
  rw [mergeRet_eq]
  split
  · show ∃ l, (((o.addNode.1).addEdge o.len o.ret).pushFlag o.len .merge).flags b = _
    rw [Opt.flags_pushFlag_other _ _ _ _ (by omega), Opt.flags_addEdge,
      Opt.flags_addNode_ne _ _ (by omega)]
    exact ⟨[], by simp⟩
  · show ∃ l, (o.pushFlag o.ret .merge).flags b = _
    exact Opt.flags_pushFlag_append o o.ret b .merge

theorem mergeRet_val (o : Opt) :
    (mergeRet o).2 = o.ret ∨ ((mergeRet o).2, o.ret) ∈ (mergeRet o).1.edges := by
  rw [mergeRet_eq]
  split
  · right
    simp
  · left
    rfl

theorem mergeRet_val_lt (o : Opt) (hret : o.ret < o.len) :
    (mergeRet o).2 < (mergeRet o).1.len := by
  rw [mergeRet_eq]
  split <;> simp <;> omega

theorem mergeRet_Q (o : Opt) : QProp (mergeRet o).1 (mergeRet o).2 := by
  rcases mergeRet_val o with h | h
  · right
    left
    rw [h, mergeRet_ret]
  · right
    right
    left
    rw [mergeRet_ret o]
    exact h

theorem mergeRet_mergeInv (o : Opt) (hm : MergeInv o) : MergeInv (mergeRet o).1 := by
  have hmono := QProp_mono o (mergeRet o).1 (mergeRet_ret o) (mergeRet_len o)
    (mergeRet_edges o) (fun h hh _ => mergeRet_cf o h)
  rw [mergeRet_eq] at hmono ⊢
  revert hmono
  split
  case isTrue hf =>
    intro hmono b hb hflag
    by_cases hbl : b = o.len
    · subst hbl
      right
      right
      left
      simp
    · simp only [Opt.len_pushFlag, Opt.len_addEdge, Opt.len_addNode] at hb
      have hblt : b < o.len := by omega
      rw [Opt.flags_pushFlag_other _ _ _ _ hbl, Opt.flags_addEdge,
        Opt.flags_addNode_ne _ _ hbl] at hflag
      exact hmono b (hm b hblt hflag)
  case isFalse hf =>
    intro hmono b hb hflag
    by_cases hbr : b = o.ret
    · subst hbr
      right
      left
      simp
    · rw [Opt.flags_pushFlag_other _ _ _ _ hbr] at hflag
      simp only [Opt.len_pushFlag] at hb
      exact hmono b (hm b hb hflag)

theorem mergeRet_pres (o : Opt) : Pres o (mergeRet o).1 := by
  refine ⟨mergeRet_ret o, mergeRet_len o, mergeRet_edges o, mergeRet_flags o,
    fun b _ _ => mergeRet_cf o b, ?_, ?_, ?_, fun _ hm => mergeRet_mergeInv o hm⟩
  · intro b hb
    rw [mergeRet_cf] at hb
    refine ⟨?_, hb⟩
    by_contra hlt
    rw [Opt.cf_oob o b (Nat.le_of_not_lt hlt)] at hb
    cases hb
  · rw [mergeRet_cursor]
    exact Or.inl rfl
  · intro hc c hcc
    rw [mergeRet_cursor] at hcc
    obtain ⟨h1, h2⟩ := hc c hcc
    have := mergeRet_len o
    rw [mergeRet_cf]
    exact ⟨by omega, h2⟩

end CubeCFG

namespace CubeCFG

/-! Step-extension lemmas: extend a `Pres` fact by one primitive update. -/

theorem MergeInv_of_same (o o' : Opt) (hlen : o'.len = o.len)
    (hflags : ∀ b, o'.flags b = o.flags b) (hret : o'.ret = o.ret)
    (hedges : ∃ l, o'.edges = o.edges ++ l)
    (hcf : ∀ h, h < o.len → o.cf h ≠ .none → o'.cf h = o.cf h)
    (hm : MergeInv o) : MergeInv o' := by
  intro b hb hflag
  rw [hflags b] at hflag
  exact QProp_mono o o' hret (by omega) hedges hcf b (hm b (by omega) hflag)

theorem Pres_step_addNode {o o' : Opt} (hp : Pres o o') : Pres o (o'.addNode.1) := by
  obtain ⟨r1, l1, e1, f1, c1, rr1, cc1, ci1, mi1⟩ := hp
  refine ⟨by simp [r1], by simp; omega, ?_, ?_, ?_, ?_, ?_, ?_, ?_⟩
  · obtain ⟨l, hl⟩ := e1
    exact ⟨l, by simp [hl]⟩
  · intro b hb
    obtain ⟨l, hl⟩ := f1 b hb
    exact ⟨l, by rw [Opt.flags_addNode_ne _ _ (by omega), hl]⟩
  · intro b hb hne
    rw [Opt.cf_addNode_ne _ _ (by omega)]
    exact c1 b hb hne
  · intro b hb
    by_cases hbl : b = o'.len
    · rw [hbl, Opt.cf_addNode_self] at hb
      cases hb
    · rw [Opt.cf_addNode_ne _ _ hbl] at hb
      exact rr1 b hb
  · rcases cc1 with h | h | ⟨c, hc1, hc2⟩
    · rw [Opt.cursor_addNode, h]
      exact Or.inl rfl
    · rw [Opt.cursor_addNode, h]
      exact Or.inr (Or.inl rfl)
    · exact Or.inr (Or.inr ⟨c, hc1, by rw [Opt.cursor_addNode, hc2]⟩)
  · intro hc c hcc
    rw [Opt.cursor_addNode] at hcc
    obtain ⟨h1, h2⟩ := ci1 hc c hcc
    rw [Opt.cf_addNode_ne _ _ (by omega)]
    exact ⟨by simp; omega, h2⟩
  · intro hc hm b hb hflag
    have hm' := mi1 hc hm
    simp only [Opt.len_addNode] at hb
    by_cases hbl : b = o'.len
    · rw [hbl, Opt.flags_addNode_self] at hflag
      cases hflag
    · rw [Opt.flags_addNode_ne _ _ hbl] at hflag
      have hq := hm' b (by omega) hflag
      exact QProp_mono o' (o'.addNode.1) (by simp) (by simp) ⟨[], by simp⟩
        (fun h hh _ => Opt.cf_addNode_ne _ _ (by omega)) b hq

theorem Pres_step_addEdge {o o' : Opt} (hp : Pres o o') (a b : Nat) :
    Pres o (o'.addEdge a b) := by
  obtain ⟨r1, l1, e1, f1, c1, rr1, cc1, ci1, mi1⟩ := hp
  refine ⟨by simp [r1], by simp; omega, ?_, ?_, ?_, ?_, ?_, ?_, ?_⟩
  · obtain ⟨l, hl⟩ := e1
    exact ⟨l ++ [(a, b)], by simp [hl]⟩
  · intro bb hb
    exact f1 bb hb
  · intro bb hb hne
    exact c1 bb hb hne
  · intro bb hb
    exact rr1 bb hb
  · rcases cc1 with h | h | ⟨c, hc1, hc2⟩
    · exact Or.inl h
    · exact Or.inr (Or.inl h)
    · exact Or.inr (Or.inr ⟨c, hc1, hc2⟩)
  · intro hc c hcc
    rw [Opt.cursor_addEdge] at hcc
    exact ci1 hc c hcc
  · intro hc hm
    have hm' := mi1 hc hm
    exact MergeInv_of_same o' _ (by simp) (fun bb => rfl) (by simp)
      ⟨[(a, b)], by simp⟩ (fun h hh _ => rfl) hm'

theorem Pres_step_pushOp {o o' : Opt} (hp : Pres o o') (i : Nat) (op : Operation) :
    Pres o (o'.pushOp i op) := by
  obtain ⟨r1, l1, e1, f1, c1, rr1, cc1, ci1, mi1⟩ := hp
  refine ⟨by simp [r1], by simp; omega, by simpa using e1, ?_, ?_, ?_, ?_, ?_, ?_⟩
  · intro b hb
    obtain ⟨l, hl⟩ := f1 b hb
    exact ⟨l, by rw [Opt.flags_pushOp, hl]⟩
  · intro b hb hne
    rw [Opt.cf_pushOp]
    exact c1 b hb hne
  · intro b hb
    rw [Opt.cf_pushOp] at hb
    exact rr1 b hb
  · simpa using cc1
  · intro hc c hcc
    rw [Opt.cursor_pushOp] at hcc
    obtain ⟨h1, h2⟩ := ci1 hc c hcc
    rw [Opt.cf_pushOp]
    exact ⟨by simp; omega, h2⟩
  · intro hc hm
    exact MergeInv_of_same o' _ (by simp) (fun bb => Opt.flags_pushOp _ _ _ _)
      (by simp) ⟨[], by simp⟩ (fun h hh _ => Opt.cf_pushOp _ _ _ _) (mi1 hc hm)

end CubeCFG

namespace CubeCFG

/-- Extension by a step that changes nothing `Pres` observes. -/
theorem Pres_step_silent {o o' o'' : Opt} (hp : Pres o o')
    (hlen : o''.len = o'.len) (hcf : ∀ b, o''.cf b = o'.cf b)
    (hflags : ∀ b, o''.flags b = o'.flags b) (hedges : o''.edges = o'.edges)
    (hcursor : o''.currentBlock = o'.currentBlock) (hret : o''.ret = o'.ret) :
    Pres o o'' := by
  obtain ⟨r1, l1, e1, f1, c1, rr1, cc1, ci1, mi1⟩ := hp
  refine ⟨by rw [hret, r1], by omega, ?_, ?_, ?_, ?_, ?_, ?_, ?_⟩
  · obtain ⟨l, hl⟩ := e1
    exact ⟨l, by rw [hedges, hl]⟩
  · intro b hb
    obtain ⟨l, hl⟩ := f1 b hb
    exact ⟨l, by rw [hflags, hl]⟩
  · intro b hb hne
    rw [hcf]
    exact c1 b hb hne
  · intro b hb
    rw [hcf] at hb
    exact rr1 b hb
  · rw [hcursor]
    exact cc1
  · intro hc c hcc
    rw [hcursor] at hcc
    obtain ⟨h1, h2⟩ := ci1 hc c hcc
    rw [hcf]
    exact ⟨by omega, h2⟩
  · intro hc hm
    exact MergeInv_of_same o' o'' hlen hflags (by rw [hret]) ⟨[], by rw [hedges]; simp⟩
      (fun h hh _ => hcf h) (mi1 hc hm)

theorem Pres_step_insertPhi {o o' : Opt} (hp : Pres o o') (blk : Nat)
    (v : Nat × Nat) (it : Item) : Pres o (o'.insertPhi blk v it) :=
  Pres_step_silent hp (by simp) (fun b => Opt.cf_insertPhi _ _ _ _ _)
    (fun b => Opt.flags_insertPhi _ _ _ _ _) rfl rfl rfl

theorem Pres_step_insertVariable {o o' : Opt} (hp : Pres o o') (v : Nat × Nat)
    (it : Item) : Pres o (o'.insertVariable v it) :=
  Pres_step_silent hp rfl (fun b => rfl) (fun b => rfl) rfl rfl rfl

theorem Pres_step_createTemporary {o o' : Opt} (hp : Pres o o') (it : Item) :
    Pres o ((o'.createTemporary it).1) :=
  Pres_step_silent hp rfl (fun b => rfl) (fun b => rfl) rfl rfl rfl

theorem Pres_step_pushBreak {o o' : Opt} (hp : Pres o o') (n : Nat) :
    Pres o (o'.pushBreak n) :=
  Pres_step_silent hp rfl (fun b => rfl) (fun b => rfl) rfl rfl rfl

theorem Pres_step_popBreak {o o' : Opt} (hp : Pres o o') :
    Pres o o'.popBreak :=
  Pres_step_silent hp rfl (fun b => rfl) (fun b => rfl) rfl rfl rfl

theorem Pres_step_setCursor_none {o o' : Opt} (hp : Pres o o') :
    Pres o (o'.setCursor Option.none) := by
  obtain ⟨r1, l1, e1, f1, c1, rr1, cc1, ci1, mi1⟩ := hp
  refine ⟨r1, l1, e1, f1, ?_, rr1, Or.inr (Or.inl rfl), ?_, mi1⟩
  · intro b hb hne
    exact c1 b hb hne
  · intro _ c hcc
    cases hcc

theorem Pres_step_setCursor_fresh {o o' : Opt} (hp : Pres o o') (c : Nat)
    (hge : o.len ≤ c) (hlt : c < o'.len) (hcf : CInv o → o'.cf c = .none) :
    Pres o (o'.setCursor (some c)) := by
  obtain ⟨r1, l1, e1, f1, c1, rr1, cc1, ci1, mi1⟩ := hp
  refine ⟨r1, l1, e1, f1, ?_, rr1, Or.inr (Or.inr ⟨c, hge, rfl⟩), ?_, mi1⟩
  · intro b hb hne
    exact c1 b hb hne
  · intro hc cc hcc
    rw [Opt.cursor_setCursor] at hcc
    injection hcc with hcc
    subst hcc
    exact ⟨hlt, hcf hc⟩

theorem Pres_step_setCF {o o' : Opt} (hp : Pres o o') (c₀ : Nat) (v : ControlFlow)
    (hwhere : o.currentBlock = some c₀ ∨ o.len ≤ c₀)
    (hnr : v ≠ .ret)
    (hcf0 : CInv o → o'.cf c₀ = .none)
    (hnc : CInv o → o'.currentBlock ≠ some c₀) :
    Pres o (o'.setCF c₀ v) := by
  obtain ⟨r1, l1, e1, f1, c1, rr1, cc1, ci1, mi1⟩ := hp
  refine ⟨r1, by simpa using l1, by simpa using e1, ?_, ?_, ?_, by simpa using cc1,
    ?_, ?_⟩
  · intro b hb
    obtain ⟨l, hl⟩ := f1 b hb
    exact ⟨l, by rw [Opt.flags_setCF, hl]⟩
  · intro b hb hne
    have hbc : b ≠ c₀ := by
      rcases hwhere with h | h
      · intro hcon
        rw [hcon] at hne
        exact hne h.symm
      · omega
    rw [Opt.cf_setCF_other _ _ _ _ hbc]
    exact c1 b hb hne
  · intro b hb
    rw [Opt.cf_setCF] at hb
    by_cases hcase : b = c₀ ∧ c₀ < o'.len
    · rw [if_pos hcase] at hb
      exact absurd hb hnr
    · rw [if_neg hcase] at hb
      exact rr1 b hb
  · intro hc cc hcc
    rw [Opt.cursor_setCF] at hcc
    obtain ⟨h1, h2⟩ := ci1 hc cc hcc
    have hccne : cc ≠ c₀ := by
      intro hcon
      apply hnc hc
      rw [← hcon]
      exact hcc
    rw [Opt.cf_setCF_other _ _ _ _ hccne]
    exact ⟨by simpa using h1, h2⟩
  · intro hc hm
    have hm' := mi1 hc hm
    have hcf0' := hcf0 hc
    exact MergeInv_of_same o' _ (by simp) (fun b => Opt.flags_setCF _ _ _ _)
      (by simp) ⟨[], by simp⟩
      (fun h hh hne => by
        have hhc : h ≠ c₀ := by
          intro hcon
          rw [hcon] at hne
          exact hne hcf0'
        exact Opt.cf_setCF_other _ _ _ _ hhc) hm'

theorem Pres_step_pushFlag_merge {o o' : Opt} (hp : Pres o o') (m : Nat)
    (hq : CInv o → MergeInv o → QProp o' m) :
    Pres o (o'.pushFlag m .merge) := by
  obtain ⟨r1, l1, e1, f1, c1, rr1, cc1, ci1, mi1⟩ := hp
  refine ⟨by simpa using r1, by simpa using l1, by simpa using e1, ?_, ?_, ?_,
    by simpa using cc1, ?_, ?_⟩
  · intro b hb
    obtain ⟨l, hl⟩ := f1 b hb
    obtain ⟨l2, hl2⟩ := Opt.flags_pushFlag_append o' m b .merge
    exact ⟨l ++ l2, by rw [hl2, hl, List.append_assoc]⟩
  · intro b hb hne
    rw [Opt.cf_pushFlag]
    exact c1 b hb hne
  · intro b hb
    rw [Opt.cf_pushFlag] at hb
    exact rr1 b hb
  · intro hc cc hcc
    rw [Opt.cursor_pushFlag] at hcc
    obtain ⟨h1, h2⟩ := ci1 hc cc hcc
    rw [Opt.cf_pushFlag]
    exact ⟨by simpa using h1, h2⟩
  · intro hc hm
    have hm' := mi1 hc hm
    have hq' := hq hc hm
    have htrans : ∀ b, QProp o' b → QProp (o'.pushFlag m .merge) b :=
      QProp_mono o' _ (by simp) (by simp) ⟨[], by simp⟩
        (fun h hh _ => Opt.cf_pushFlag _ _ _ _)
    intro b hb hflag
    simp only [Opt.len_pushFlag] at hb
    by_cases hbm : b = m ∧ m < o'.len
    · obtain ⟨hbm1, hbm2⟩ := hbm
      subst hbm1
      exact htrans b hq'
    · have : (o'.pushFlag m .merge).flags b = o'.flags b := by
        by_cases hmo : m < o'.len
        · have hbm' : b ≠ m := fun hcon => hbm ⟨hcon, hmo⟩
          exact Opt.flags_pushFlag_other _ _ _ _ hbm'
        · unfold Opt.flags Opt.pushFlag
          rw [Opt.blockAt_modifyBlock_oob _ _ _ _ (by omega)]
      rw [this] at hflag
      exact htrans b (hm' b hb hflag)

theorem Pres_step_pushFlag_ct {o o' : Opt} (hp : Pres o o') (m : Nat) :
    Pres o (o'.pushFlag m .continueTarget) := by
  obtain ⟨r1, l1, e1, f1, c1, rr1, cc1, ci1, mi1⟩ := hp
  refine ⟨by simpa using r1, by simpa using l1, by simpa using e1, ?_, ?_, ?_,
    by simpa using cc1, ?_, ?_⟩
  · intro b hb
    obtain ⟨l, hl⟩ := f1 b hb
    obtain ⟨l2, hl2⟩ := Opt.flags_pushFlag_append o' m b .continueTarget
    exact ⟨l ++ l2, by rw [hl2, hl, List.append_assoc]⟩
  · intro b hb hne
    rw [Opt.cf_pushFlag]
    exact c1 b hb hne
  · intro b hb
    rw [Opt.cf_pushFlag] at hb
    exact rr1 b hb
  · intro hc cc hcc
    rw [Opt.cursor_pushFlag] at hcc
    obtain ⟨h1, h2⟩ := ci1 hc cc hcc
    rw [Opt.cf_pushFlag]
    exact ⟨by simpa using h1, h2⟩
  · intro hc hm
    have hm' := mi1 hc hm
    have htrans : ∀ b, QProp o' b → QProp (o'.pushFlag m .continueTarget) b :=
      QProp_mono o' _ (by simp) (by simp) ⟨[], by simp⟩
        (fun h hh _ => Opt.cf_pushFlag _ _ _ _)
    intro b hb hflag
    simp only [Opt.len_pushFlag] at hb
    have : BlockUse.merge ∈ o'.flags b := by
      by_cases hmo : m < o'.len
      · by_cases hbm : b = m
        · subst hbm
          rw [Opt.flags_pushFlag_same _ _ _ hmo] at hflag
          rcases List.mem_append.mp hflag with h | h
          · exact h
          · simp at h
        · rw [Opt.flags_pushFlag_other _ _ _ _ hbm] at hflag
          exact hflag
      · unfold Opt.flags Opt.pushFlag at hflag
        rw [Opt.blockAt_modifyBlock_oob _ _ _ _ (by omega)] at hflag
        exact hflag
    exact htrans b (hm' b hb this)

theorem Pres_step_mergeRet {o o' : Opt} (hp : Pres o o') :
    Pres o (mergeRet o').1 :=
  Pres_trans hp (mergeRet_pres o')

end CubeCFG

namespace CubeCFG

set_option maxHeartbeats 2000000 in
theorem parseIf_pres (fuel : Nat)
    (ihScope : ∀ (o : Opt) (ss : List Stmt) (r : Opt × Bool),
      parseScope fuel o ss = .ok r → Pres o r.1) :
    ∀ (o : Opt) (cond : Variable) (sc : List Stmt) (o' : Opt),
      parseIf (fuel + 1) o cond sc = .ok o' → Pres o o' := by
  intro o cond sc o' h
  rw [parseIf] at h
  rcases hc : o.currentBlock with _ | c₀
  · rw [hc] at h
    cases h
  · rw [hc] at h
    simp only [Bind.bind, Except.bind, Opt.idx_addNode, Opt.len_addNode] at h
    split at h
    · cases h
    · rename_i r hr
      obtain ⟨m1, m2, m3, m4, m5, m6, m7, m8, m9⟩ := ihScope _ _ _ hr
      have hP1 : Pres o r.1 := by
        refine Pres_trans ?_ (ihScope _ _ _ hr)
        refine Pres_step_setCursor_fresh
          (Pres_step_addEdge (Pres_step_addEdge
            (Pres_step_addNode (Pres_step_addNode (Pres_refl o))) c₀ o.len)
            c₀ (o.len + 1)) o.len (le_refl _) (by simp <;> omega) ?_
        intro _
        rw [Opt.cf_addEdge, Opt.cf_addEdge,
          Opt.cf_addNode_ne _ _ (by simp), Opt.cf_addNode_self]
      have hlen2 : o.len + 2 ≤ r.1.len := by simpa using m2
      have hcfc0 : CInv o → r.1.cf c₀ = ControlFlow.none := by
        intro hCI
        obtain ⟨hlt0, hcf0⟩ := hCI c₀ hc
        have h1 := m5 c₀ (by simp; omega) (by
          simp only [Opt.cursor_setCursor]
          intro hcon
          injection hcon with hcon
          omega)
        rw [h1, Opt.cf_setCursor, Opt.cf_addEdge, Opt.cf_addEdge,
          Opt.cf_addNode_ne _ _ (by simp; omega),
          Opt.cf_addNode_ne _ _ (by simp; omega)]
        exact hcf0
      have hcurcases : r.1.currentBlock = some o.len ∨
          r.1.currentBlock = Option.none ∨
          ∃ c, o.len + 2 ≤ c ∧ r.1.currentBlock = some c := by
        rcases m7 with h7 | h7 | ⟨c, hc1, hc2⟩
        · left
          rw [h7]
          simp
        · right
          left
          exact h7
        · right
          right
          exact ⟨c, by simpa using hc1, hc2⟩
      have hcfnext : r.1.cf (o.len + 1) = ControlFlow.none := by
        have h1 := m5 (o.len + 1) (by simp <;> omega) (by
          simp only [Opt.cursor_setCursor]
          intro hcon
          injection hcon with hcon
          omega)
        rw [h1, Opt.cf_setCursor, Opt.cf_addEdge, Opt.cf_addEdge,
          show o.len + 1 = (o.addNode.1).len by simp, Opt.cf_addNode_self]
      rcases hcur : r.1.currentBlock with _ | exit <;> rw [hcur] at h
      · -- body returned: mergeRet path
        have P2 := Pres_step_mergeRet hP1
        have hmcf : CInv o → (mergeRet r.1).1.cf c₀ = ControlFlow.none := by
          intro hCI
          rw [mergeRet_cf]
          exact hcfc0 hCI
        have hmnc : CInv o → (mergeRet r.1).1.currentBlock ≠ some c₀ := by
          intro _
          rw [mergeRet_cursor, hcur]
          simp
        have hmlen : r.1.len ≤ (mergeRet r.1).1.len := mergeRet_len r.1
        cases hbrk : r.2 <;> rw [hbrk] at h
        · rw [if_neg (by simp)] at h
          cases h
          have P3 := Pres_step_setCF P2 c₀
            (ControlFlow.ifElse cond o.len (o.len + 1) (some (mergeRet r.1).2))
            (Or.inl hc) (by simp) hmcf hmnc
          have hq : CInv o → MergeInv o →
              QProp ((mergeRet r.1).1.setCF c₀
                (ControlFlow.ifElse cond o.len (o.len + 1) (some (mergeRet r.1).2)))
                ((mergeRet r.1).2) := by
            intro hCI _
            refine QProp_mono (mergeRet r.1).1 _ (by simp) (by simp) ⟨[], by simp⟩
              ?_ _ (mergeRet_Q r.1)
            intro hh hhlt hhne
            have hhc : hh ≠ c₀ := by
              intro hcon
              rw [hcon, hmcf hCI] at hhne
              exact hhne rfl
            exact Opt.cf_setCF_other _ _ _ _ hhc
          have P4 := Pres_step_pushFlag_merge P3 ((mergeRet r.1).2) hq
          exact Pres_step_setCursor_fresh P4 (o.len + 1) (by omega)
            (by simp <;> omega)
            (fun hCI => by
              obtain ⟨hlt0, _⟩ := hCI c₀ hc
              rw [Opt.cf_pushFlag, Opt.cf_setCF_other _ _ _ _ (by omega),
                mergeRet_cf]
              exact hcfnext)
        · rw [if_pos rfl] at h
          cases h
          have P3 := Pres_step_setCF P2 c₀
            (ControlFlow.ifElse cond o.len (o.len + 1) Option.none)
            (Or.inl hc) (by simp) hmcf hmnc
          exact Pres_step_setCursor_fresh P3 (o.len + 1) (by omega)
            (by simp <;> omega)
            (fun hCI => by
              obtain ⟨hlt0, _⟩ := hCI c₀ hc
              rw [Opt.cf_setCF_other _ _ _ _ (by omega), mergeRet_cf]
              exact hcfnext)
      · -- body open
        have hexit : exit = o.len ∨ o.len + 2 ≤ exit := by
          rcases hcurcases with h7 | h7 | ⟨c, hc1, hc2⟩
          · rw [hcur] at h7
            injection h7 with h7
            omega
          · rw [hcur] at h7
            cases h7
          · rw [hcur] at hc2
            injection hc2 with hc2
            omega
        cases hbrk : r.2 <;> rw [hbrk] at h
        · rw [if_neg (by simp)] at h
          cases h
          have P2 := Pres_step_addEdge hP1 exit (o.len + 1)
          have P3 := Pres_step_setCF P2 c₀
            (ControlFlow.ifElse cond o.len (o.len + 1) (some (o.len + 1)))
            (Or.inl hc) (by simp)
            (fun hCI => by rw [Opt.cf_addEdge]; exact hcfc0 hCI)
            (fun hCI => by
              rw [Opt.cursor_addEdge, hcur]
              obtain ⟨hlt0, _⟩ := hCI c₀ hc
              intro hcon
              injection hcon with hcon
              omega)
          have hq : CInv o → MergeInv o →
              QProp ((r.1.addEdge exit (o.len + 1)).setCF c₀
                (ControlFlow.ifElse cond o.len (o.len + 1) (some (o.len + 1))))
                (o.len + 1) := by
            intro _ _
            left
            obtain ⟨l, hl⟩ := m3
            simp only [Opt.indeg, Opt.edges_setCF, Opt.edges_addEdge]
            rw [hl]
            simp only [Opt.edges_setCursor, Opt.edges_addEdge, Opt.edges_addNode]
            rw [List.countP_append, List.countP_append, List.countP_append,
              List.countP_append]
            simp [List.countP_cons]
            omega
          have P4 := Pres_step_pushFlag_merge P3 (o.len + 1) hq
          exact Pres_step_setCursor_fresh P4 (o.len + 1) (by omega)
            (by simp <;> omega)
            (fun hCI => by
              obtain ⟨hlt0, _⟩ := hCI c₀ hc
              rw [Opt.cf_pushFlag, Opt.cf_setCF_other _ _ _ _ (by omega),
                Opt.cf_addEdge]
              exact hcfnext)
        · rw [if_pos rfl] at h
          cases h
          have P2 := Pres_step_addEdge hP1 exit (o.len + 1)
          have P3 := Pres_step_setCF P2 c₀
            (ControlFlow.ifElse cond o.len (o.len + 1) Option.none)
            (Or.inl hc) (by simp)
            (fun hCI => by rw [Opt.cf_addEdge]; exact hcfc0 hCI)
            (fun hCI => by
              rw [Opt.cursor_addEdge, hcur]
              obtain ⟨hlt0, _⟩ := hCI c₀ hc
              intro hcon
              injection hcon with hcon
              omega)
          exact Pres_step_setCursor_fresh P3 (o.len + 1) (by omega)
            (by simp <;> omega)
            (fun hCI => by
              obtain ⟨hlt0, _⟩ := hCI c₀ hc
              rw [Opt.cf_setCF_other _ _ _ _ (by omega), Opt.cf_addEdge]
              exact hcfnext)

end CubeCFG

namespace CubeCFG

/-- Common construct tail: write the terminator into the saved block and
reopen the cursor at the construct's `next` block. -/
theorem Pres_finish {o C : Opt} (hp : Pres o C) (c₀ : Nat)
    (hc : o.currentBlock = some c₀) (v : ControlFlow)
    (hnr : v ≠ ControlFlow.ret)
    (next : Nat) (hge : o.len ≤ next) (hlt : next < C.len)
    (hcf0 : CInv o → C.cf c₀ = ControlFlow.none)
    (hnc : CInv o → C.currentBlock ≠ some c₀)
    (hcfnext : CInv o → C.cf next = ControlFlow.none) :
    Pres o ((C.setCF c₀ v).setCursor (some next)) := by
  have P3 := Pres_step_setCF hp c₀ v (Or.inl hc) hnr hcf0 hnc
  refine Pres_step_setCursor_fresh P3 next hge (by simpa using hlt) ?_
  intro hCI
  obtain ⟨hlt0, _⟩ := hCI c₀ hc
  rw [Opt.cf_setCF_other _ _ _ _ (by omega)]
  exact hcfnext hCI

/-- Common construct tail with a justified merge flag pushed after the
terminator is written. -/
theorem Pres_finish_merge {o C : Opt} (hp : Pres o C) (c₀ : Nat)
    (hc : o.currentBlock = some c₀) (v : ControlFlow)
    (hnr : v ≠ ControlFlow.ret)
    (next m : Nat) (hge : o.len ≤ next) (hlt : next < C.len)
    (hcf0 : CInv o → C.cf c₀ = ControlFlow.none)
    (hnc : CInv o → C.currentBlock ≠ some c₀)
    (hcfnext : CInv o → C.cf next = ControlFlow.none)
    (hq : CInv o → MergeInv o → QProp (C.setCF c₀ v) m) :
    Pres o (((C.setCF c₀ v).pushFlag m BlockUse.merge).setCursor (some next)) := by
  have P3 := Pres_step_setCF hp c₀ v (Or.inl hc) hnr hcf0 hnc
  have P4 := Pres_step_pushFlag_merge P3 m hq
  refine Pres_step_setCursor_fresh P4 next hge (by simpa using hlt) ?_
  intro hCI
  obtain ⟨hlt0, _⟩ := hCI c₀ hc
  rw [Opt.cf_pushFlag, Opt.cf_setCF_other _ _ _ _ (by omega)]
  exact hcfnext hCI

/-- A merge flag whose justification only materialises a few steps later
(the loop and switch lowerings write the terminator that justifies the
flag after pushing it): jump over the transiently unjustified window in
one step, comparing the final state `o''` against the state `o'` just
before the flag push. -/
theorem Pres_deferredMerge {o o' : Opt} (o'' : Opt) (hp : Pres o o') (m h₀ : Nat)
    (hret : o''.ret = o'.ret)
    (hlen : o''.len = o'.len)
    (hedges : ∃ l, o''.edges = o'.edges ++ l)
    (hflags : ∀ b, o''.flags b = (o'.pushFlag m BlockUse.merge).flags b)
    (hcf : ∀ b, b ≠ h₀ → o''.cf b = o'.cf b)
    (hwhere : o.currentBlock = some h₀ ∨ o.len ≤ h₀)
    (hcfret : o''.cf h₀ = ControlFlow.ret → o'.cf h₀ = ControlFlow.ret)
    (hcf0 : CInv o → o'.cf h₀ = ControlFlow.none)
    (hcc : (o''.currentBlock = o'.currentBlock ∧
        (CInv o → o'.currentBlock ≠ some h₀)) ∨
      ∃ c, o.len ≤ c ∧ c < o''.len ∧ o''.currentBlock = some c ∧
        (CInv o → o''.cf c = ControlFlow.none))
    (hq : CInv o → MergeInv o → QProp o'' m) :
    Pres o o'' := by
  obtain ⟨r1, l1, e1, f1, c1, rr1, cc1, ci1, mi1⟩ := hp
  refine ⟨hret.trans r1, by omega, ?_, ?_, ?_, ?_, ?_, ?_, ?_⟩
  · obtain ⟨la, ha⟩ := e1
    obtain ⟨lb, hb⟩ := hedges
    exact ⟨la ++ lb, by rw [hb, ha, List.append_assoc]⟩
  · intro b hb
    obtain ⟨la, ha⟩ := f1 b hb
    obtain ⟨lb, hb2⟩ := Opt.flags_pushFlag_append o' m b BlockUse.merge
    exact ⟨la ++ lb, by rw [hflags b, hb2, ha, List.append_assoc]⟩
  · intro b hb hne
    have hbh : b ≠ h₀ := by
      rcases hwhere with hw | hw
      · intro hcon
        rw [hcon] at hne
        exact hne hw.symm
      · omega
    rw [hcf b hbh]
    exact c1 b hb hne
  · intro b hb
    by_cases hbh : b = h₀
    · subst hbh
      exact rr1 b (hcfret hb)
    · rw [hcf b hbh] at hb
      exact rr1 b hb
  · rcases hcc with ⟨hsame, _⟩ | ⟨c, hc1, hc2, hc3, _⟩
    · rw [hsame]
      exact cc1
    · exact Or.inr (Or.inr ⟨c, hc1, hc3⟩)
  · intro hCI cc hcc2
    rcases hcc with ⟨hsame, hnc⟩ | ⟨c, hd1, hd2, hd3, hd4⟩
    · rw [hsame] at hcc2
      obtain ⟨hlt1, hcfnone⟩ := ci1 hCI cc hcc2
      have hcch : cc ≠ h₀ := by
        intro hcon
        exact hnc hCI (by rw [← hcon]; exact hcc2)
      rw [hcf cc hcch]
      exact ⟨by omega, hcfnone⟩
    · rw [hd3] at hcc2
      injection hcc2 with hcc2
      subst hcc2
      exact ⟨hd2, hd4 hCI⟩
  · intro hCI hMI
    have hm' := mi1 hCI hMI
    have hq' := hq hCI hMI
    have hcf0' := hcf0 hCI
    have htrans : ∀ b, QProp o' b → QProp o'' b := by
      refine QProp_mono o' o'' hret (by omega) hedges ?_
      intro hh hhlt hhne
      have hhh : hh ≠ h₀ := by
        intro hcon
        rw [hcon, hcf0'] at hhne
        exact hhne rfl
      exact hcf hh hhh
    intro b hb hflag
    rw [hflags b] at hflag
    by_cases hbm : b = m
    · subst hbm
      exact hq'
    · rw [Opt.flags_pushFlag_other _ _ _ _ hbm] at hflag
      exact htrans b (hm' b (by omega) hflag)

end CubeCFG

namespace CubeCFG

set_option maxHeartbeats 4000000 in
theorem parseIfElse_pres (fuel : Nat)
    (ihScope : ∀ (o : Opt) (ss : List Stmt) (r : Opt × Bool),
      parseScope fuel o ss = .ok r → Pres o r.1) :
    ∀ (o : Opt) (cond : Variable) (s1 s2 : List Stmt) (o' : Opt),
      parseIfElse (fuel + 1) o cond s1 s2 = .ok o' → Pres o o' := by
  intro o cond s1 s2 o' h
  rw [parseIfElse] at h
  rcases hc : o.currentBlock with _ | c₀
  · rw [hc] at h
    cases h
  · rw [hc] at h
    simp only [Bind.bind, Except.bind, Opt.idx_addNode, Opt.len_addNode] at h
    split at h
    · cases h
    · rename_i r1 hr1
      obtain ⟨m1, m2, m3, m4, m5, m6, m7, m8, m9⟩ := ihScope _ _ _ hr1
      have hP1 : Pres o r1.1 := by
        refine Pres_trans ?_ (ihScope _ _ _ hr1)
        refine Pres_step_setCursor_fresh
          (Pres_step_addEdge (Pres_step_addEdge
            (Pres_step_addNode (Pres_step_addNode (Pres_step_addNode
              (Pres_refl o)))) c₀ o.len)
            c₀ (o.len + 1)) o.len (le_refl _) (by simp <;> omega) ?_
        intro _
        rw [Opt.cf_addEdge, Opt.cf_addEdge,
          Opt.cf_addNode_ne _ _ (by simp only [Opt.len_addNode]; omega),
          Opt.cf_addNode_ne _ _ (by simp only [Opt.len_addNode]; omega),
          Opt.cf_addNode_self]
      have hlen1 : o.len + 3 ≤ r1.1.len := by simpa using m2
      have hcfc0 : CInv o → r1.1.cf c₀ = ControlFlow.none := by
        intro hCI
        obtain ⟨hlt0, hcf0⟩ := hCI c₀ hc
        have h1 := m5 c₀ (by simp only [Opt.len_setCursor, Opt.len_addEdge, Opt.len_addNode]; omega) (by
          simp only [Opt.cursor_setCursor]
          intro hcon
          injection hcon with hcon
          omega)
        rw [h1, Opt.cf_setCursor, Opt.cf_addEdge, Opt.cf_addEdge,
          Opt.cf_addNode_ne _ _ (by simp only [Opt.len_addNode]; omega),
          Opt.cf_addNode_ne _ _ (by simp only [Opt.len_addNode]; omega),
          Opt.cf_addNode_ne _ _ (by omega)]
        exact hcf0
      have hcfor : r1.1.cf (o.len + 1) = ControlFlow.none := by
        have h1 := m5 (o.len + 1) (by simp only [Opt.len_setCursor, Opt.len_addEdge, Opt.len_addNode]; omega) (by
          simp only [Opt.cursor_setCursor]
          intro hcon
          injection hcon with hcon
          omega)
        rw [h1, Opt.cf_setCursor, Opt.cf_addEdge, Opt.cf_addEdge,
          Opt.cf_addNode_ne _ _ (by simp only [Opt.len_addNode]; omega),
          show o.len + 1 = (o.addNode.1).len by simp, Opt.cf_addNode_self]
      have hcfnext : r1.1.cf (o.len + 2) = ControlFlow.none := by
        have h1 := m5 (o.len + 2) (by simp only [Opt.len_setCursor, Opt.len_addEdge, Opt.len_addNode]; omega) (by
          simp only [Opt.cursor_setCursor]
          intro hcon
          injection hcon with hcon
          omega)
        rw [h1, Opt.cf_setCursor, Opt.cf_addEdge, Opt.cf_addEdge,
          show o.len + 2 = ((o.addNode.1).addNode.1).len by simp,
          Opt.cf_addNode_self]
      have hcur1cases : r1.1.currentBlock = some o.len ∨
          r1.1.currentBlock = Option.none ∨
          ∃ c, o.len + 3 ≤ c ∧ r1.1.currentBlock = some c := by
        rcases m7 with h7 | h7 | ⟨c, hc1, hc2⟩
        · left
          rw [h7]
          simp
        · right
          left
          exact h7
        · right
          right
          exact ⟨c, by simpa using hc1, hc2⟩
      rcases hcur1 : r1.1.currentBlock with _ | cur1 <;> rw [hcur1] at h
      · -- then-branch returned: `mergeRet` chooses the first merge value
        have PB := Pres_step_mergeRet hP1
        have hBlen : r1.1.len ≤ (mergeRet r1.1).1.len := mergeRet_len r1.1
        have PB2 : Pres o ((mergeRet r1.1).1.setCursor (some (o.len + 1))) :=
          Pres_step_setCursor_fresh PB (o.len + 1) (by omega) (by omega)
            (fun _ => by rw [mergeRet_cf]; exact hcfor)
        split at h
        · cases h
        · rename_i r2 hr2
          obtain ⟨n1, n2, n3, n4, n5, n6, n7, n8, n9⟩ := ihScope _ _ _ hr2
          have hP2 : Pres o r2.1 := Pres_trans PB2 (ihScope _ _ _ hr2)
          have hlen2 : o.len + 3 ≤ r2.1.len := by
            have := n2
            simp only [Opt.len_setCursor] at this
            omega
          have hcfc0₂ : CInv o → r2.1.cf c₀ = ControlFlow.none := by
            intro hCI
            obtain ⟨hlt0, _⟩ := hCI c₀ hc
            have h1 := n5 c₀ (by simp only [Opt.len_setCursor]; omega) (by
              simp only [Opt.cursor_setCursor]
              intro hcon
              injection hcon with hcon
              omega)
            rw [h1, Opt.cf_setCursor, mergeRet_cf]
            exact hcfc0 hCI
          have hcfnext₂ : r2.1.cf (o.len + 2) = ControlFlow.none := by
            have h1 := n5 (o.len + 2) (by simp only [Opt.len_setCursor]; omega)
              (by
                simp only [Opt.cursor_setCursor]
                intro hcon
                injection hcon with hcon
                omega)
            rw [h1, Opt.cf_setCursor, mergeRet_cf]
            exact hcfnext
          have hcur2cases : r2.1.currentBlock = some (o.len + 1) ∨
              r2.1.currentBlock = Option.none ∨
              ∃ c, r1.1.len ≤ c ∧ r2.1.currentBlock = some c := by
            rcases n7 with h7 | h7 | ⟨c, hc1, hc2⟩
            · left
              rw [h7]
              simp
            · right
              left
              exact h7
            · right
              right
              refine ⟨c, ?_, hc2⟩
              simp only [Opt.len_setCursor] at hc1
              omega
          have hret2 : r2.1.ret = r1.1.ret := by
            have := n1
            simp only [Opt.ret_setCursor] at this
            rw [this, mergeRet_ret]
          have hfunnel : (mergeRet r1.1).2 = r2.1.ret ∨
              ((mergeRet r1.1).2, r2.1.ret) ∈ r2.1.edges := by
            rcases mergeRet_val r1.1 with hf | hf
            · left
              rw [hret2, hf]
            · right
              rw [hret2]
              obtain ⟨l₂, hl₂⟩ := n3
              simp only [Opt.edges_setCursor] at hl₂
              rw [hl₂]
              exact List.mem_append_left _ hf
          rcases hcur2 : r2.1.currentBlock with _ | cur2 <;> rw [hcur2] at h
          · -- else-branch returned as well
            have PC := Pres_step_mergeRet hP2
            have hmcf : CInv o → (mergeRet r2.1).1.cf c₀ = ControlFlow.none :=
              fun hCI => by rw [mergeRet_cf]; exact hcfc0₂ hCI
            have hmnc : CInv o → (mergeRet r2.1).1.currentBlock ≠ some c₀ :=
              fun _ => by rw [mergeRet_cursor, hcur2]; simp
            cases hbrk : (r2.2 || r1.2) <;> rw [hbrk] at h
            · rw [if_neg (by simp)] at h
              cases h
              refine Pres_finish_merge PC c₀ hc _ (by simp) (o.len + 2) _
                (by omega) (by have := mergeRet_len r2.1; omega) hmcf hmnc
                (fun _ => by rw [mergeRet_cf]; exact hcfnext₂) ?_
              intro hCI _
              refine QProp_mono (mergeRet r2.1).1 _ (by simp) (by simp)
                ⟨[], by simp⟩ ?_ _ (mergeRet_Q r2.1)
              intro hh hhlt hhne
              exact Opt.cf_setCF_other _ _ _ _
                (fun hcon => hhne (by rw [hcon]; exact hmcf hCI))
            · rw [if_pos rfl] at h
              cases h
              exact Pres_finish PC c₀ hc _ (by simp) (o.len + 2) (by omega)
                (by have := mergeRet_len r2.1; omega) hmcf hmnc
                (fun _ => by rw [mergeRet_cf]; exact hcfnext₂)
          · -- else-branch open: wire its exit into `next`
            have hcur2b : cur2 = o.len + 1 ∨ r1.1.len ≤ cur2 := by
              rcases hcur2cases with h7 | h7 | ⟨c, hc1, hc2⟩
              · rw [hcur2] at h7
                injection h7 with h7
                omega
              · rw [hcur2] at h7
                cases h7
              · rw [hcur2] at hc2
                injection hc2 with hc2
                omega
            have PC := Pres_step_addEdge hP2 cur2 (o.len + 2)
            have hacf : CInv o →
                (r2.1.addEdge cur2 (o.len + 2)).cf c₀ = ControlFlow.none :=
              fun hCI => by rw [Opt.cf_addEdge]; exact hcfc0₂ hCI
            have hanc : CInv o →
                (r2.1.addEdge cur2 (o.len + 2)).currentBlock ≠ some c₀ := by
              intro hCI
              rw [Opt.cursor_addEdge, hcur2]
              obtain ⟨hlt0, _⟩ := hCI c₀ hc
              intro hcon
              injection hcon with hcon
              omega
            cases hbrk : (r2.2 || r1.2) <;> rw [hbrk] at h
            · rw [if_neg (by simp)] at h
              cases h
              refine Pres_finish_merge PC c₀ hc _ (by simp) (o.len + 2) _
                (by omega) (by simp only [Opt.len_addEdge]; omega) hacf hanc
                (fun _ => by rw [Opt.cf_addEdge]; exact hcfnext₂) ?_
              intro hCI _
              rcases hfunnel with hf | hf
              · right
                left
                rw [hf]
                simp
              · right
                right
                left
                simp only [Opt.edges_setCF, Opt.edges_addEdge, Opt.ret_setCF,
                  Opt.ret_addEdge]
                exact List.mem_append_left _ hf
            · rw [if_pos rfl] at h
              cases h
              exact Pres_finish PC c₀ hc _ (by simp) (o.len + 2) (by omega)
                (by simp only [Opt.len_addEdge]; omega) hacf hanc
                (fun _ => by rw [Opt.cf_addEdge]; exact hcfnext₂)
      · -- then-branch open: wire its exit into `next`
        have hcur1b : cur1 = o.len ∨ o.len + 3 ≤ cur1 := by
          rcases hcur1cases with h7 | h7 | ⟨c, hc1, hc2⟩
          · rw [hcur1] at h7
            injection h7 with h7
            omega
          · rw [hcur1] at h7
            cases h7
          · rw [hcur1] at hc2
            injection hc2 with hc2
            omega
        have PB := Pres_step_addEdge hP1 cur1 (o.len + 2)
        have PB2 : Pres o
            ((r1.1.addEdge cur1 (o.len + 2)).setCursor (some (o.len + 1))) :=
          Pres_step_setCursor_fresh PB (o.len + 1) (by omega)
            (by simp only [Opt.len_addEdge]; omega)
            (fun _ => by rw [Opt.cf_addEdge]; exact hcfor)
        split at h
        · cases h
        · rename_i r2 hr2
          obtain ⟨n1, n2, n3, n4, n5, n6, n7, n8, n9⟩ := ihScope _ _ _ hr2
          have hP2 : Pres o r2.1 := Pres_trans PB2 (ihScope _ _ _ hr2)
          have hlen2 : o.len + 3 ≤ r2.1.len := by
            have := n2
            simp only [Opt.len_setCursor, Opt.len_addEdge] at this
            omega
          have hcfc0₂ : CInv o → r2.1.cf c₀ = ControlFlow.none := by
            intro hCI
            obtain ⟨hlt0, _⟩ := hCI c₀ hc
            have h1 := n5 c₀ (by simp only [Opt.len_setCursor, Opt.len_addEdge]; omega) (by
              simp only [Opt.cursor_setCursor]
              intro hcon
              injection hcon with hcon
              omega)
            rw [h1, Opt.cf_setCursor, Opt.cf_addEdge]
            exact hcfc0 hCI
          have hcfnext₂ : r2.1.cf (o.len + 2) = ControlFlow.none := by
            have h1 := n5 (o.len + 2) (by simp only [Opt.len_setCursor, Opt.len_addEdge]; omega) (by
              simp only [Opt.cursor_setCursor]
              intro hcon
              injection hcon with hcon
              omega)
            rw [h1, Opt.cf_setCursor, Opt.cf_addEdge]
            exact hcfnext
          have hcur2cases : r2.1.currentBlock = some (o.len + 1) ∨
              r2.1.currentBlock = Option.none ∨
              ∃ c, r1.1.len ≤ c ∧ r2.1.currentBlock = some c := by
            rcases n7 with h7 | h7 | ⟨c, hc1, hc2⟩
            · left
              rw [h7]
              simp
            · right
              left
              exact h7
            · right
              right
              refine ⟨c, ?_, hc2⟩
              simp only [Opt.len_setCursor, Opt.len_addEdge] at hc1
              omega
          rcases hcur2 : r2.1.currentBlock with _ | cur2 <;> rw [hcur2] at h
          · -- else-branch returned: `mergeRet` chooses the merge value
            have PC := Pres_step_mergeRet hP2
            have hmcf : CInv o → (mergeRet r2.1).1.cf c₀ = ControlFlow.none :=
              fun hCI => by rw [mergeRet_cf]; exact hcfc0₂ hCI
            have hmnc : CInv o → (mergeRet r2.1).1.currentBlock ≠ some c₀ :=
              fun _ => by rw [mergeRet_cursor, hcur2]; simp
            cases hbrk : (r2.2 || r1.2) <;> rw [hbrk] at h
            · rw [if_neg (by simp)] at h
              cases h
              refine Pres_finish_merge PC c₀ hc _ (by simp) (o.len + 2) _
                (by omega) (by have := mergeRet_len r2.1; omega) hmcf hmnc
                (fun _ => by rw [mergeRet_cf]; exact hcfnext₂) ?_
              intro hCI _
              refine QProp_mono (mergeRet r2.1).1 _ (by simp) (by simp)
                ⟨[], by simp⟩ ?_ _ (mergeRet_Q r2.1)
              intro hh hhlt hhne
              exact Opt.cf_setCF_other _ _ _ _
                (fun hcon => hhne (by rw [hcon]; exact hmcf hCI))
            · rw [if_pos rfl] at h
              cases h
              exact Pres_finish PC c₀ hc _ (by simp) (o.len + 2) (by omega)
                (by have := mergeRet_len r2.1; omega) hmcf hmnc
                (fun _ => by rw [mergeRet_cf]; exact hcfnext₂)
          · -- both branches open: `next` has two incoming edges
            have hcur2b : cur2 = o.len + 1 ∨ r1.1.len ≤ cur2 := by
              rcases hcur2cases with h7 | h7 | ⟨c, hc1, hc2⟩
              · rw [hcur2] at h7
                injection h7 with h7
                omega
              · rw [hcur2] at h7
                cases h7
              · rw [hcur2] at hc2
                injection hc2 with hc2
                omega
            have PC := Pres_step_addEdge hP2 cur2 (o.len + 2)
            have hacf : CInv o →
                (r2.1.addEdge cur2 (o.len + 2)).cf c₀ = ControlFlow.none :=
              fun hCI => by rw [Opt.cf_addEdge]; exact hcfc0₂ hCI
            have hanc : CInv o →
                (r2.1.addEdge cur2 (o.len + 2)).currentBlock ≠ some c₀ := by
              intro hCI
              rw [Opt.cursor_addEdge, hcur2]
              obtain ⟨hlt0, _⟩ := hCI c₀ hc
              intro hcon
              injection hcon with hcon
              omega
            cases hbrk : (r2.2 || r1.2) <;> rw [hbrk] at h
            · rw [if_neg (by simp)] at h
              cases h
              refine Pres_finish_merge PC c₀ hc _ (by simp) (o.len + 2) _
                (by omega) (by simp only [Opt.len_addEdge]; omega) hacf hanc
                (fun _ => by rw [Opt.cf_addEdge]; exact hcfnext₂) ?_
              intro _ _
              left
              obtain ⟨l₂, hl₂⟩ := n3
              simp only [Opt.indeg, Opt.edges_setCF, Opt.edges_addEdge]
              rw [hl₂]
              simp only [Opt.edges_setCursor, Opt.edges_addEdge]
              rw [List.countP_append, List.countP_append, List.countP_append]
              simp [List.countP_cons]
              omega
            · rw [if_pos rfl] at h
              cases h
              exact Pres_finish PC c₀ hc _ (by simp) (o.len + 2) (by omega)
                (by simp only [Opt.len_addEdge]; omega) hacf hanc
                (fun _ => by rw [Opt.cf_addEdge]; exact hcfnext₂)

end CubeCFG

namespace CubeCFG

set_option maxHeartbeats 4000000 in
theorem parseLoop_pres (fuel : Nat)
    (ihScope : ∀ (o : Opt) (ss : List Stmt) (r : Opt × Bool),
      parseScope fuel o ss = .ok r → Pres o r.1) :
    ∀ (o : Opt) (sc : List Stmt) (o' : Opt),
      parseLoop (fuel + 1) o sc = .ok o' → Pres o o' := by
  intro o sc o' h
  rw [parseLoop] at h
  rcases hc : o.currentBlock with _ | c₀
  · rw [hc] at h
    cases h
  · rw [hc] at h
    simp only [Bind.bind, Except.bind, Opt.idx_addNode, Opt.len_addNode,
      Opt.len_addEdge] at h
    split at h
    · cases h
    · rename_i r hr
      obtain ⟨m1, m2, m3, m4, m5, m6, m7, m8, m9⟩ := ihScope _ _ _ hr
      have hP1 : Pres o r.1 := by
        refine Pres_trans ?_ (ihScope _ _ _ hr)
        refine Pres_step_setCursor_fresh
          (Pres_step_pushBreak
            (Pres_step_addEdge
              (Pres_step_addNode (Pres_step_addNode
                (Pres_step_addEdge (Pres_step_addNode (Pres_refl o)) c₀ o.len)))
              o.len (o.len + 1)) (o.len + 2))
          (o.len + 1) (by omega) (by simp <;> omega) ?_
        intro _
        rw [Opt.cf_pushBreak, Opt.cf_addEdge,
          Opt.cf_addNode_ne _ _ (by simp only [Opt.len_addNode, Opt.len_addEdge]; omega),
          show o.len + 1 = ((o.addNode.1).addEdge c₀ o.len).len by simp,
          Opt.cf_addNode_self]
      have hlen1 : o.len + 3 ≤ r.1.len := by simpa using m2
      have hcfheader : r.1.cf o.len = ControlFlow.none := by
        have h1 := m5 o.len (by simp only [Opt.len_setCursor, Opt.len_pushBreak,
            Opt.len_addEdge, Opt.len_addNode]; omega) (by
          simp only [Opt.cursor_setCursor]
          intro hcon
          injection hcon with hcon
          omega)
        rw [h1, Opt.cf_setCursor, Opt.cf_pushBreak, Opt.cf_addEdge,
          Opt.cf_addNode_ne _ _ (by simp only [Opt.len_addNode, Opt.len_addEdge]; omega),
          Opt.cf_addNode_ne _ _ (by simp only [Opt.len_addEdge, Opt.len_addNode]; omega),
          Opt.cf_addEdge, Opt.cf_addNode_self]
      have hcfnext1 : r.1.cf (o.len + 2) = ControlFlow.none := by
        have h1 := m5 (o.len + 2) (by simp only [Opt.len_setCursor, Opt.len_pushBreak,
            Opt.len_addEdge, Opt.len_addNode]; omega) (by
          simp only [Opt.cursor_setCursor]
          intro hcon
          injection hcon with hcon
          omega)
        rw [h1, Opt.cf_setCursor, Opt.cf_pushBreak, Opt.cf_addEdge,
          show o.len + 2 = (((o.addNode.1).addEdge c₀ o.len).addNode.1).len by simp,
          Opt.cf_addNode_self]
      have hcurcases : r.1.currentBlock = some (o.len + 1) ∨
          r.1.currentBlock = Option.none ∨
          ∃ c, o.len + 3 ≤ c ∧ r.1.currentBlock = some c := by
        rcases m7 with h7 | h7 | ⟨c, hc1, hc2⟩
        · left
          rw [h7]
          simp
        · right
          left
          exact h7
        · right
          right
          exact ⟨c, by simpa using hc1, hc2⟩
      simp only [Opt.cursor_popBreak, Opt.cursor_pushFlag, Opt.cursor_addNode] at h
      rcases hcur : r.1.currentBlock with _ | cur <;> rw [hcur] at h
      · -- the body diverged everywhere: no fall-through edge to the
        -- continue target
        cases h
        have PB := Pres_step_addEdge (Pres_step_popBreak
          (Pres_step_pushFlag_ct (Pres_step_addNode hP1) r.1.len)) r.1.len o.len
        have P3 := Pres_step_setCF PB o.len
          (ControlFlow.loop (o.len + 1) r.1.len (o.len + 2))
          (Or.inr (le_refl _)) (by simp)
          (fun _ => by
            rw [Opt.cf_addEdge, Opt.cf_popBreak, Opt.cf_pushFlag,
              Opt.cf_addNode_ne _ _ (by omega)]
            exact hcfheader)
          (fun _ => by
            rw [Opt.cursor_addEdge, Opt.cursor_popBreak, Opt.cursor_pushFlag,
              Opt.cursor_addNode, hcur]
            simp)
        have hq : CInv o → MergeInv o →
            QProp ((((((r.1.addNode.1).pushFlag r.1.len
                BlockUse.continueTarget).popBreak).addEdge r.1.len o.len).setCF
                o.len (ControlFlow.loop (o.len + 1) r.1.len (o.len + 2))))
              (o.len + 2) := by
          intro _ _
          right
          right
          right
          left
          refine ⟨o.len, by simp only [Opt.len_setCF, Opt.len_addEdge,
            Opt.len_popBreak, Opt.len_pushFlag, Opt.len_addNode]; omega, ?_⟩
          unfold isLoopMergeOf
          rw [Opt.cf_setCF_same _ _ _ (by simp only [Opt.len_addEdge,
            Opt.len_popBreak, Opt.len_pushFlag, Opt.len_addNode]; omega)]
          simp
        have P4 := Pres_step_pushFlag_merge P3 (o.len + 2) hq
        exact Pres_step_setCursor_fresh P4 (o.len + 2) (by omega)
          (by simp only [Opt.len_pushFlag, Opt.len_setCF, Opt.len_addEdge,
            Opt.len_popBreak, Opt.len_addNode]; omega)
          (fun _ => by
            rw [Opt.cf_pushFlag, Opt.cf_setCF_other _ _ _ _ (by omega),
              Opt.cf_addEdge, Opt.cf_popBreak, Opt.cf_pushFlag,
              Opt.cf_addNode_ne _ _ (by omega)]
            exact hcfnext1)
      · -- the body exit falls through into the continue target
        have hcurb : cur = o.len + 1 ∨ o.len + 3 ≤ cur := by
          rcases hcurcases with h7 | h7 | ⟨c, hc1, hc2⟩
          · rw [hcur] at h7
            injection h7 with h7
            omega
          · rw [hcur] at h7
            cases h7
          · rw [hcur] at hc2
            injection hc2 with hc2
            omega
        cases h
        have PB := Pres_step_addEdge (Pres_step_addEdge (Pres_step_popBreak
          (Pres_step_pushFlag_ct (Pres_step_addNode hP1) r.1.len)) cur r.1.len)
          r.1.len o.len
        have P3 := Pres_step_setCF PB o.len
          (ControlFlow.loop (o.len + 1) r.1.len (o.len + 2))
          (Or.inr (le_refl _)) (by simp)
          (fun _ => by
            rw [Opt.cf_addEdge, Opt.cf_addEdge, Opt.cf_popBreak, Opt.cf_pushFlag,
              Opt.cf_addNode_ne _ _ (by omega)]
            exact hcfheader)
          (fun _ => by
            rw [Opt.cursor_addEdge, Opt.cursor_addEdge, Opt.cursor_popBreak,
              Opt.cursor_pushFlag, Opt.cursor_addNode, hcur]
            intro hcon
            injection hcon with hcon
            omega)
        have hq : CInv o → MergeInv o →
            QProp (((((((r.1.addNode.1).pushFlag r.1.len
                BlockUse.continueTarget).popBreak).addEdge cur
                r.1.len).addEdge r.1.len o.len).setCF
                o.len (ControlFlow.loop (o.len + 1) r.1.len (o.len + 2))))
              (o.len + 2) := by
          intro _ _
          right
          right
          right
          left
          refine ⟨o.len, by simp only [Opt.len_setCF, Opt.len_addEdge,
            Opt.len_popBreak, Opt.len_pushFlag, Opt.len_addNode]; omega, ?_⟩
          unfold isLoopMergeOf
          rw [Opt.cf_setCF_same _ _ _ (by simp only [Opt.len_addEdge,
            Opt.len_popBreak, Opt.len_pushFlag, Opt.len_addNode]; omega)]
          simp
        have P4 := Pres_step_pushFlag_merge P3 (o.len + 2) hq
        exact Pres_step_setCursor_fresh P4 (o.len + 2) (by omega)
          (by simp only [Opt.len_pushFlag, Opt.len_setCF, Opt.len_addEdge,
            Opt.len_popBreak, Opt.len_addNode]; omega)
          (fun _ => by
            rw [Opt.cf_pushFlag, Opt.cf_setCF_other _ _ _ _ (by omega),
              Opt.cf_addEdge, Opt.cf_addEdge, Opt.cf_popBreak, Opt.cf_pushFlag,
              Opt.cf_addNode_ne _ _ (by omega)]
            exact hcfnext1)

end CubeCFG

namespace CubeCFG

theorem Opt.cf_addNode_at (opt : Opt) (b : Nat) (h : b = opt.len) :
    (opt.addNode.1).cf b = ControlFlow.none := by
  subst h
  exact Opt.cf_addNode_self opt

set_option maxHeartbeats 2000000 in
/-- The setup phase of `parse_for_loop` is a `Pres` step and produces the
header/body/next block ids in order, with body as the open cursor. -/
theorem forLoopSetup_pres (o : Opt) (i start : Variable)
    (s : Opt × Nat × Nat × Nat × (Nat × Nat))
    (hs : forLoopSetup o i start = .ok s) :
    Pres o s.1 ∧ s.2.1 = o.len ∧ s.2.2.1 = o.len + 1 ∧ s.2.2.2.1 = o.len + 2 ∧
    s.1.len = o.len + 3 ∧ s.1.currentBlock = some (o.len + 1) ∧
    s.1.cf o.len = ControlFlow.none ∧ s.1.cf (o.len + 2) = ControlFlow.none := by
  cases i with
  | constantScalar v => simp [forLoopSetup] at hs
  | temp id it => simp [forLoopSetup] at hs
  | other p it => simp [forLoopSetup] at hs
  | localVar id depth x =>
    rw [forLoopSetup] at hs
    simp only [Opt.cursor_insertVariable, Opt.idx_addNode, Opt.len_addNode,
      Opt.len_addEdge, Opt.len_pushOp, Opt.len_insertVariable] at hs
    rcases hc : o.currentBlock with _ | cur <;> rw [hc] at hs
    · cases hs
    · injection hs with hs
      subst hs
      refine ⟨?_, rfl, rfl, rfl, by simp, by simp, ?_, ?_⟩
      · refine Pres_step_setCursor_fresh
          (Pres_step_pushBreak
            (Pres_step_addEdge (Pres_step_addEdge
              (Pres_step_addNode (Pres_step_addNode
                (Pres_step_addEdge
                  (Pres_step_addNode
                    (Pres_step_pushOp
                      (Pres_step_insertVariable (Pres_refl o) _ _) cur _))
                  cur o.len)))
              o.len (o.len + 1)) o.len (o.len + 2)) (o.len + 2))
          (o.len + 1) (by omega)
          (by simp only [Opt.len_pushBreak, Opt.len_addEdge, Opt.len_addNode,
            Opt.len_pushOp, Opt.len_insertVariable]; omega) ?_
        intro _
        rw [Opt.cf_pushBreak, Opt.cf_addEdge, Opt.cf_addEdge,
          Opt.cf_addNode_ne _ _ (by simp only [Opt.len_addNode, Opt.len_addEdge,
            Opt.len_pushOp, Opt.len_insertVariable]; omega),
          Opt.cf_addNode_at _ _ (by simp only [Opt.len_addEdge, Opt.len_addNode,
            Opt.len_pushOp, Opt.len_insertVariable])]
      · rw [Opt.cf_setCursor, Opt.cf_pushBreak, Opt.cf_addEdge, Opt.cf_addEdge,
          Opt.cf_addNode_ne _ _ (by simp only [Opt.len_addNode, Opt.len_addEdge,
            Opt.len_pushOp, Opt.len_insertVariable]; omega),
          Opt.cf_addNode_ne _ _ (by simp only [Opt.len_addEdge, Opt.len_addNode,
            Opt.len_pushOp, Opt.len_insertVariable]; omega),
          Opt.cf_addEdge,
          Opt.cf_addNode_at _ _ (by simp only [Opt.len_pushOp,
            Opt.len_insertVariable])]
      · rw [Opt.cf_setCursor, Opt.cf_pushBreak, Opt.cf_addEdge, Opt.cf_addEdge,
          Opt.cf_addNode_at _ _ (by simp only [Opt.len_addNode, Opt.len_addEdge,
            Opt.len_pushOp, Opt.len_insertVariable])]

end CubeCFG

namespace CubeCFG

set_option maxHeartbeats 4000000 in
theorem parseForLoop_pres (fuel : Nat)
    (ihScope : ∀ (o : Opt) (ss : List Stmt) (r : Opt × Bool),
      parseScope fuel o ss = .ok r → Pres o r.1) :
    ∀ (o : Opt) (i st sp : Variable) (step : Option Variable) (inc : Bool)
      (sc : List Stmt) (o' : Opt),
      parseForLoop (fuel + 1) o i st sp step inc sc = .ok o' → Pres o o' := by
  intro o i st sp step inc sc o' h
  rw [parseForLoop] at h
  simp only [Bind.bind, Except.bind] at h
  split at h
  · cases h
  · rename_i s hs
    obtain ⟨PS, hdr, bdy, nxt, hSlen, hScur, hScf0, hScf2⟩ :=
      forLoopSetup_pres o i st s hs
    split at h
    · cases h
    · rename_i r hr
      rw [hdr, bdy, nxt] at h
      obtain ⟨n1, n2, n3, n4, n5, n6, n7, n8, n9⟩ := ihScope _ _ _ hr
      have hP1 : Pres o r.1 := Pres_trans PS (ihScope _ _ _ hr)
      have hlen1 : o.len + 3 ≤ r.1.len := by
        rw [hSlen] at n2
        exact n2
      have hcfheader : r.1.cf o.len = ControlFlow.none := by
        have h1 := n5 o.len (by rw [hSlen]; omega) (by
          rw [hScur]
          intro hcon
          injection hcon with hcon
          omega)
        rw [h1]
        exact hScf0
      have hcfnext1 : r.1.cf (o.len + 2) = ControlFlow.none := by
        have h1 := n5 (o.len + 2) (by rw [hSlen]; omega) (by
          rw [hScur]
          intro hcon
          injection hcon with hcon
          omega)
        rw [h1]
        exact hScf2
      simp only [forLoopFinish, Opt.cursor_popBreak, Opt.flags_popBreak,
        Opt.idx_addNode, Opt.len_popBreak] at h
      rcases hcur : r.1.currentBlock with _ | cb
      · rw [hcur] at h
        cases h
      · simp only [hcur] at h
        by_cases hflag : BlockUse.merge ∈ r.1.flags cb
        · rw [if_pos hflag] at h
          cases h
          have PW := Pres_step_pushFlag_ct (Pres_step_addEdge (Pres_step_addEdge
            (Pres_step_addNode (Pres_step_popBreak hP1)) cb r.1.len) r.1.len
            o.len) r.1.len
          refine Pres_deferredMerge _ PW (o.len + 2) o.len (by simp) (by simp)
            ⟨[], by simp⟩ ?_ ?_ (Or.inr (le_refl _)) ?_ ?_ ?_ ?_
          · intro b
            rw [Opt.flags_pushOp, Opt.flags_setCF, Opt.flags_pushOp,
              Opt.flags_createTemporary, Opt.flags_insertPhi,
              Opt.flags_setCursor]
          · intro b hb
            rw [Opt.cf_pushOp, Opt.cf_setCF_other _ _ _ _ hb, Opt.cf_pushOp,
              Opt.cf_createTemporary, Opt.cf_insertPhi, Opt.cf_setCursor,
              Opt.cf_pushFlag]
          · intro hb
            rw [Opt.cf_pushOp, Opt.cf_setCF,
              if_pos ⟨rfl, by simp only [Opt.len_pushOp,
                Opt.len_createTemporary, Opt.len_insertPhi, Opt.len_setCursor,
                Opt.len_pushFlag, Opt.len_addEdge, Opt.len_addNode,
                Opt.len_popBreak]; omega⟩] at hb
            cases hb
          · intro _
            rw [Opt.cf_pushFlag, Opt.cf_addEdge, Opt.cf_addEdge,
              Opt.cf_addNode_ne _ _ (by simp only [Opt.len_popBreak]; omega),
              Opt.cf_popBreak]
            exact hcfheader
          · refine Or.inr ⟨o.len + 2, by omega, ?_, by simp, ?_⟩
            · simp only [Opt.len_pushOp, Opt.len_setCF, Opt.len_createTemporary,
                Opt.len_insertPhi, Opt.len_setCursor, Opt.len_pushFlag,
                Opt.len_addEdge, Opt.len_addNode, Opt.len_popBreak]
              omega
            · intro _
              rw [Opt.cf_pushOp, Opt.cf_setCF_other _ _ _ _ (by omega),
                Opt.cf_pushOp, Opt.cf_createTemporary, Opt.cf_insertPhi,
                Opt.cf_setCursor, Opt.cf_pushFlag, Opt.cf_pushFlag,
                Opt.cf_addEdge, Opt.cf_addEdge,
                Opt.cf_addNode_ne _ _ (by simp only [Opt.len_popBreak]; omega),
                Opt.cf_popBreak]
              exact hcfnext1
          · intro _ _
            right
            right
            right
            left
            refine ⟨o.len, by simp only [Opt.len_pushOp, Opt.len_setCF,
              Opt.len_createTemporary, Opt.len_insertPhi, Opt.len_setCursor,
              Opt.len_pushFlag, Opt.len_addEdge, Opt.len_addNode,
              Opt.len_popBreak]; omega, ?_⟩
            unfold isLoopMergeOf
            rw [Opt.cf_pushOp, Opt.cf_setCF_same _ _ _
              (by simp only [Opt.len_pushOp, Opt.len_createTemporary,
                Opt.len_insertPhi, Opt.len_setCursor, Opt.len_pushFlag,
                Opt.len_addEdge, Opt.len_addNode, Opt.len_popBreak]; omega)]
            simp
        · rw [if_neg hflag] at h
          cases h
          have PW := Pres_step_pushFlag_ct (Pres_step_addEdge
            (Pres_step_popBreak hP1) cb o.len) cb
          refine Pres_deferredMerge _ PW (o.len + 2) o.len (by simp) (by simp)
            ⟨[], by simp⟩ ?_ ?_ (Or.inr (le_refl _)) ?_ ?_ ?_ ?_
          · intro b
            rw [Opt.flags_pushOp, Opt.flags_setCF, Opt.flags_pushOp,
              Opt.flags_createTemporary, Opt.flags_insertPhi,
              Opt.flags_setCursor]
          · intro b hb
            rw [Opt.cf_pushOp, Opt.cf_setCF_other _ _ _ _ hb, Opt.cf_pushOp,
              Opt.cf_createTemporary, Opt.cf_insertPhi, Opt.cf_setCursor,
              Opt.cf_pushFlag]
          · intro hb
            rw [Opt.cf_pushOp, Opt.cf_setCF,
              if_pos ⟨rfl, by simp only [Opt.len_pushOp,
                Opt.len_createTemporary, Opt.len_insertPhi, Opt.len_setCursor,
                Opt.len_pushFlag, Opt.len_addEdge,
                Opt.len_popBreak]; omega⟩] at hb
            cases hb
          · intro _
            rw [Opt.cf_pushFlag, Opt.cf_addEdge, Opt.cf_popBreak]
            exact hcfheader
          · refine Or.inr ⟨o.len + 2, by omega, ?_, by simp, ?_⟩
            · simp only [Opt.len_pushOp, Opt.len_setCF, Opt.len_createTemporary,
                Opt.len_insertPhi, Opt.len_setCursor, Opt.len_pushFlag,
                Opt.len_addEdge, Opt.len_popBreak]
              omega
            · intro _
              rw [Opt.cf_pushOp, Opt.cf_setCF_other _ _ _ _ (by omega),
                Opt.cf_pushOp, Opt.cf_createTemporary, Opt.cf_insertPhi,
                Opt.cf_setCursor, Opt.cf_pushFlag, Opt.cf_pushFlag,
                Opt.cf_addEdge, Opt.cf_popBreak]
              exact hcfnext1
          · intro _ _
            right
            right
            right
            left
            refine ⟨o.len, by simp only [Opt.len_pushOp, Opt.len_setCF,
              Opt.len_createTemporary, Opt.len_insertPhi, Opt.len_setCursor,
              Opt.len_pushFlag, Opt.len_addEdge, Opt.len_popBreak]; omega, ?_⟩
            unfold isLoopMergeOf
            rw [Opt.cf_pushOp, Opt.cf_setCF_same _ _ _
              (by simp only [Opt.len_pushOp, Opt.len_createTemporary,
                Opt.len_insertPhi, Opt.len_setCursor, Opt.len_pushFlag,
                Opt.len_addEdge, Opt.len_popBreak]; omega)]
            simp

end CubeCFG

namespace CubeCFG

set_option maxHeartbeats 2000000 in
/-- The per-case loop of `parse_switch` is a `Pres` step and, because it
re-points the cursor at a fresh case block before lowering anything,
preserves the terminator of every pre-existing block (the saved switch
entry block in particular). -/
theorem parseSwitchCases_pres (fuel : Nat)
    (ihScope : ∀ (o : Opt) (ss : List Stmt) (r : Opt × Bool),
      parseScope fuel o ss = .ok r → Pres o r.1)
    (ihCases : ∀ (o : Opt) (cb next : Nat) (cs : List (Variable × List Stmt))
      (r : Opt × List (Nat × Nat × Bool × Bool)),
      parseSwitchCases fuel o cb next cs = .ok r →
      Pres o r.1 ∧ ∀ b, b < o.len → r.1.cf b = o.cf b) :
    ∀ (o : Opt) (cb next : Nat) (cs : List (Variable × List Stmt))
      (r : Opt × List (Nat × Nat × Bool × Bool)),
      parseSwitchCases (fuel + 1) o cb next cs = .ok r →
      Pres o r.1 ∧ ∀ b, b < o.len → r.1.cf b = o.cf b := by
  intro o cb next cs r h
  rcases cs with _ | ⟨⟨val, scope⟩, rest⟩
  · rw [parseSwitchCases] at h
    injection h with h
    subst h
    exact ⟨Pres_refl o, fun b _ => rfl⟩
  · rw [parseSwitchCases] at h
    simp only [Bind.bind, Except.bind, Opt.idx_addNode] at h
    split at h
    · cases h
    · rename_i r1 hr1
      obtain ⟨m1, m2, m3, m4, m5, m6, m7, m8, m9⟩ := ihScope _ _ _ hr1
      have hPA : Pres o (((o.addNode.1).addEdge cb o.len).setCursor
          (some o.len)) :=
        Pres_step_setCursor_fresh
          (Pres_step_addEdge (Pres_step_addNode (Pres_refl o)) cb o.len)
          o.len (le_refl _) (by simp only [Opt.len_addEdge, Opt.len_addNode]; omega)
          (fun _ => by rw [Opt.cf_addEdge, Opt.cf_addNode_self])
      have hP1 : Pres o r1.1 := Pres_trans hPA (ihScope _ _ _ hr1)
      have hlen1 : o.len + 1 ≤ r1.1.len := by simpa using m2
      have hframe1 : ∀ b, b < o.len → r1.1.cf b = o.cf b := by
        intro b hb
        have h1 := m5 b (by simp only [Opt.len_setCursor, Opt.len_addEdge, Opt.len_addNode]; omega)
          (by
            simp only [Opt.cursor_setCursor]
            intro hcon
            injection hcon with hcon
            omega)
        rw [h1, Opt.cf_setCursor, Opt.cf_addEdge,
          Opt.cf_addNode_ne _ _ (by omega)]
      rcases hcur : r1.1.currentBlock with _ | cur
      · simp only [hcur] at h
        split at h
        · cases h
        · rename_i lab hlab
          split at h
          · cases h
          · rename_i r2 hr2
            injection h with h
            subst h
            obtain ⟨PR, hfr⟩ := ihCases _ _ _ _ _ hr2
            refine ⟨Pres_trans hP1 PR, ?_⟩
            intro b hb
            rw [hfr b (by omega), hframe1 b hb]
      · simp only [hcur] at h
        split at h
        · cases h
        · rename_i lab hlab
          split at h
          · cases h
          · rename_i r2 hr2
            injection h with h
            subst h
            obtain ⟨PR, hfr⟩ := ihCases _ _ _ _ _ hr2
            refine ⟨Pres_trans (Pres_step_addEdge hP1 cur next) PR, ?_⟩
            intro b hb
            rw [hfr b (by simp only [Opt.len_addEdge]; omega), Opt.cf_addEdge,
              hframe1 b hb]

end CubeCFG

namespace CubeCFG

set_option maxHeartbeats 4000000 in
theorem parseSwitch_pres (fuel : Nat)
    (ihScope : ∀ (o : Opt) (ss : List Stmt) (r : Opt × Bool),
      parseScope fuel o ss = .ok r → Pres o r.1)
    (ihCases : ∀ (o : Opt) (cb next : Nat) (cs : List (Variable × List Stmt))
      (r : Opt × List (Nat × Nat × Bool × Bool)),
      parseSwitchCases fuel o cb next cs = .ok r →
      Pres o r.1 ∧ ∀ b, b < o.len → r.1.cf b = o.cf b) :
    ∀ (o : Opt) (v : Variable) (cs : List (Variable × List Stmt))
      (sd : List Stmt) (o' : Opt),
      parseSwitch (fuel + 1) o v cs sd = .ok o' → Pres o o' := by
  intro o v cs sd o' h
  rw [parseSwitch] at h
  rcases hc : o.currentBlock with _ | c₀
  · rw [hc] at h
    cases h
  · rw [hc] at h
    simp only [Bind.bind, Except.bind, Opt.idx_addNode] at h
    split at h
    · cases h
    · rename_i rc hrc
      obtain ⟨PRc, hframec⟩ := ihCases _ _ _ _ _ hrc
      have hPc : Pres o rc.1 := Pres_trans (Pres_step_addNode (Pres_refl o)) PRc
      obtain ⟨k1, k2, k3, k4, k5, k6, k7, k8, k9⟩ := PRc
      have hlenc : o.len + 1 ≤ rc.1.len := by simpa using k2
      have hcfnextc : rc.1.cf o.len = ControlFlow.none := by
        rw [hframec o.len (by simp only [Opt.len_addNode]; omega),
          Opt.cf_addNode_self]
      have hcfc0c : CInv o → rc.1.cf c₀ = ControlFlow.none := by
        intro hCI
        obtain ⟨hlt0, hcf0⟩ := hCI c₀ hc
        rw [hframec c₀ (by simp only [Opt.len_addNode]; omega),
          Opt.cf_addNode_ne _ _ (by omega)]
        exact hcf0
      split at h
      · cases h
      · rename_i rd hrd
        obtain ⟨n1, n2, n3, n4, n5, n6, n7, n8, n9⟩ := ihScope _ _ _ hrd
        have hPD : Pres o (((rc.1.addNode.1).addEdge c₀ rc.1.len).setCursor
            (some rc.1.len)) :=
          Pres_step_setCursor_fresh
            (Pres_step_addEdge (Pres_step_addNode hPc) c₀ rc.1.len)
            rc.1.len (by omega) (by simp only [Opt.len_addEdge, Opt.len_addNode]; omega)
            (fun _ => by rw [Opt.cf_addEdge, Opt.cf_addNode_self])
        have hP2 : Pres o rd.1 := Pres_trans hPD (ihScope _ _ _ hrd)
        have hlend : rc.1.len + 1 ≤ rd.1.len := by simpa using n2
        have hcfc0d : CInv o → rd.1.cf c₀ = ControlFlow.none := by
          intro hCI
          obtain ⟨hlt0, _⟩ := hCI c₀ hc
          have h1 := n5 c₀ (by simp only [Opt.len_setCursor, Opt.len_addEdge, Opt.len_addNode]; omega)
            (by
              simp only [Opt.cursor_setCursor]
              intro hcon
              injection hcon with hcon
              omega)
          rw [h1, Opt.cf_setCursor, Opt.cf_addEdge,
            Opt.cf_addNode_ne _ _ (by omega)]
          exact hcfc0c hCI
        have hcfnextd : rd.1.cf o.len = ControlFlow.none := by
          have h1 := n5 o.len (by simp only [Opt.len_setCursor, Opt.len_addEdge, Opt.len_addNode]; omega)
            (by
              simp only [Opt.cursor_setCursor]
              intro hcon
              injection hcon with hcon
              omega)
          rw [h1, Opt.cf_setCursor, Opt.cf_addEdge,
            Opt.cf_addNode_ne _ _ (by omega)]
          exact hcfnextc
        have hcurdcases : rd.1.currentBlock = some rc.1.len ∨
            rd.1.currentBlock = Option.none ∨
            ∃ c, rc.1.len + 1 ≤ c ∧ rd.1.currentBlock = some c := by
          rcases n7 with h7 | h7 | ⟨c, hc1, hc2⟩
          · left
            rw [h7]
            simp
          · right
            left
            exact h7
          · right
            right
            refine ⟨c, ?_, hc2⟩
            simp only [Opt.len_setCursor, Opt.len_addEdge, Opt.len_addNode] at hc1
            omega
        rcases hcurD : rd.1.currentBlock with _ | cur
        · -- the default branch returned
          simp only [hcurD] at h
          have hmnc : CInv o → rd.1.currentBlock ≠ some c₀ := by
            intro _
            rw [hcurD]
            simp
          cases hrd2 : rd.2 <;> rw [hrd2] at h
          · -- no break in the default: its fall-off means a return
            simp only [Bool.false_or] at h
            cases hbb : rc.2.any (fun it => it.2.2.1) <;> rw [hbb] at h
            · rw [if_neg (by simp), if_pos (by simp)] at h
              cases h
              refine Pres_finish (Pres_step_mergeRet hP2) c₀ hc _ (by simp)
                o.len (le_refl _)
                (by have := mergeRet_len rd.1; omega)
                (fun hCI => by rw [mergeRet_cf]; exact hcfc0d hCI)
                (fun _ => by rw [mergeRet_cursor, hcurD]; simp)
                (fun _ => by rw [mergeRet_cf]; exact hcfnextd)
            · rw [if_pos rfl] at h
              cases h
              exact Pres_finish hP2 c₀ hc _ (by simp) o.len (le_refl _)
                (by omega) hcfc0d hmnc (fun _ => hcfnextd)
          · simp only [Bool.true_or] at h
            cases h
            exact Pres_finish hP2 c₀ hc _ (by simp) o.len (le_refl _)
              (by omega) hcfc0d hmnc (fun _ => hcfnextd)
        · -- the default branch fell through: wire it into `next`
          simp only [hcurD] at h
          have hcurb : cur = rc.1.len ∨ rc.1.len + 1 ≤ cur := by
            rcases hcurdcases with h7 | h7 | ⟨c, hc1, hc2⟩
            · rw [hcurD] at h7
              injection h7 with h7
              omega
            · rw [hcurD] at h7
              cases h7
            · rw [hcurD] at hc2
              injection hc2 with hc2
              omega
          have PQ := Pres_step_addEdge hP2 cur o.len
          have hqcf : CInv o → (rd.1.addEdge cur o.len).cf c₀ =
              ControlFlow.none :=
            fun hCI => by rw [Opt.cf_addEdge]; exact hcfc0d hCI
          have hqnc : CInv o → (rd.1.addEdge cur o.len).currentBlock ≠
              some c₀ := by
            intro hCI
            rw [Opt.cursor_addEdge, hcurD]
            obtain ⟨hlt0, _⟩ := hCI c₀ hc
            intro hcon
            injection hcon with hcon
            omega
          have hqnext : CInv o → (rd.1.addEdge cur o.len).cf o.len =
              ControlFlow.none :=
            fun _ => by rw [Opt.cf_addEdge]; exact hcfnextd
          cases hrd2 : rd.2 <;> rw [hrd2] at h
          · simp only [Bool.false_or] at h
            cases hbb : rc.2.any (fun it => it.2.2.1) <;> rw [hbb] at h
            · rw [if_neg (by simp)] at h
              cases hbr : rc.2.any (fun it => it.2.2.2) <;> rw [hbr] at h
              · -- neither break nor return anywhere: `next` is the merge
                rw [if_neg (by simp)] at h
                cases h
                refine Pres_deferredMerge _ PQ o.len c₀ (by simp) (by simp)
                  ⟨[], by simp⟩ ?_ ?_ (Or.inl hc) ?_ hqcf ?_ ?_
                · intro b
                  rw [Opt.flags_setCursor, Opt.flags_setCF]
                · intro b hb
                  rw [Opt.cf_setCursor, Opt.cf_setCF_other _ _ _ _ hb,
                    Opt.cf_pushFlag]
                · intro hb
                  rw [Opt.cf_setCursor, Opt.cf_setCF] at hb
                  by_cases hcase : c₀ = c₀ ∧ c₀ <
                      ((rd.1.addEdge cur o.len).pushFlag o.len
                        BlockUse.merge).len
                  · rw [if_pos hcase] at hb
                    cases hb
                  · rw [if_neg hcase, Opt.cf_pushFlag] at hb
                    exact hb
                · refine Or.inr ⟨o.len, le_refl _, ?_, by simp, ?_⟩
                  · simp only [Opt.len_setCursor, Opt.len_setCF,
                      Opt.len_pushFlag, Opt.len_addEdge]
                    omega
                  · intro hCI
                    obtain ⟨hlt0, _⟩ := hCI c₀ hc
                    rw [Opt.cf_setCursor, Opt.cf_setCF_other _ _ _ _ (by omega),
                      Opt.cf_pushFlag, Opt.cf_addEdge]
                    exact hcfnextd
                · intro hCI _
                  obtain ⟨hlt0, _⟩ := hCI c₀ hc
                  right
                  right
                  right
                  right
                  refine ⟨c₀, ?_, ?_⟩
                  · simp only [Opt.len_setCursor, Opt.len_setCF,
                      Opt.len_pushFlag, Opt.len_addEdge]
                    omega
                  · unfold isSwitchMergeOf
                    rw [Opt.cf_setCursor, Opt.cf_setCF_same _ _ _
                      (by simp only [Opt.len_pushFlag, Opt.len_addEdge]; omega)]
                    simp
              · -- some case returned: funnel the merge into the return node
                rw [if_pos rfl] at h
                cases h
                refine Pres_finish (Pres_step_mergeRet PQ) c₀ hc _ (by simp)
                  o.len (le_refl _)
                  (by have := mergeRet_len (rd.1.addEdge cur o.len)
                      simp only [Opt.len_addEdge] at this
                      omega)
                  (fun hCI => by rw [mergeRet_cf]; exact hqcf hCI)
                  (fun hCI => by rw [mergeRet_cursor]; exact hqnc hCI)
                  (fun hCI => by rw [mergeRet_cf]; exact hqnext hCI)
            · rw [if_pos rfl] at h
              cases h
              exact Pres_finish PQ c₀ hc _ (by simp) o.len (le_refl _)
                (by simp only [Opt.len_addEdge]; omega) hqcf hqnc hqnext
          · simp only [Bool.true_or] at h
            cases h
            exact Pres_finish PQ c₀ hc _ (by simp) o.len (le_refl _)
              (by simp only [Opt.len_addEdge]; omega) hqcf hqnc hqnext

end CubeCFG

namespace CubeCFG

/-- All builder entry points at a given fuel preserve the context in the
`Pres` sense (the switch case loop additionally preserves every
pre-existing terminator). -/
def MasterAt (fuel : Nat) : Prop :=
  (∀ (o : Opt) (s : Stmt) (o' : Opt),
    parseControlFlow fuel o s = .ok o' → Pres o o') ∧
  (∀ (o : Opt) (ss : List Stmt) (o' : Opt),
    parseStmts fuel o ss = .ok o' → Pres o o') ∧
  (∀ (o : Opt) (ss : List Stmt) (r : Opt × Bool),
    parseScope fuel o ss = .ok r → Pres o r.1) ∧
  (∀ (o : Opt) (cond : Variable) (sc : List Stmt) (o' : Opt),
    parseIf fuel o cond sc = .ok o' → Pres o o') ∧
  (∀ (o : Opt) (cond : Variable) (s1 s2 : List Stmt) (o' : Opt),
    parseIfElse fuel o cond s1 s2 = .ok o' → Pres o o') ∧
  (∀ (o : Opt) (cb next : Nat) (cs : List (Variable × List Stmt))
    (r : Opt × List (Nat × Nat × Bool × Bool)),
    parseSwitchCases fuel o cb next cs = .ok r →
    Pres o r.1 ∧ ∀ b, b < o.len → r.1.cf b = o.cf b) ∧
  (∀ (o : Opt) (v : Variable) (cs : List (Variable × List Stmt))
    (sd : List Stmt) (o' : Opt),
    parseSwitch fuel o v cs sd = .ok o' → Pres o o') ∧
  (∀ (o : Opt) (sc : List Stmt) (o' : Opt),
    parseLoop fuel o sc = .ok o' → Pres o o') ∧
  (∀ (o : Opt) (i st sp : Variable) (step : Option Variable) (inc : Bool)
    (sc : List Stmt) (o' : Opt),
    parseForLoop fuel o i st sp step inc sc = .ok o' → Pres o o')

set_option maxHeartbeats 2000000 in
theorem master : ∀ fuel, MasterAt fuel := by
  intro fuel
  induction fuel with
  | zero =>
    refine ⟨fun o s o' h => ?_, fun o ss o' h => ?_, fun o ss r h => ?_,
      fun o c sc o' h => ?_, fun o c s1 s2 o' h => ?_,
      fun o cb nx cs r h => ?_, fun o v cs sd o' h => ?_,
      fun o sc o' h => ?_, fun o i st sp stp inc sc o' h => ?_⟩
    · rw [parseControlFlow] at h
      cases h
    · rw [parseStmts] at h
      cases h
    · rw [parseScope] at h
      cases h
    · rw [parseIf] at h
      cases h
    · rw [parseIfElse] at h
      cases h
    · rw [parseSwitchCases] at h
      cases h
    · rw [parseSwitch] at h
      cases h
    · rw [parseLoop] at h
      cases h
    · rw [parseForLoop] at h
      cases h
  | succ fuel ih =>
    obtain ⟨ihCF, ihStmts, ihScope, ihIf, ihIfElse, ihCases, ihSwitch,
      ihLoop, ihFor⟩ := ih
    refine ⟨?_, ?_, ?_, parseIf_pres fuel ihScope, parseIfElse_pres fuel ihScope,
      parseSwitchCases_pres fuel ihScope ihCases,
      parseSwitch_pres fuel ihScope ihCases,
      parseLoop_pres fuel ihScope, parseForLoop_pres fuel ihScope⟩
    · intro o s o' h
      cases s with
      | op payload =>
        rw [parseControlFlow] at h
        rcases hc : o.currentBlock with _ | cur <;> rw [hc] at h
        · cases h
        · injection h with h
          subst h
          exact Pres_step_pushOp (Pres_refl o) cur _
      | select payload =>
        rw [parseControlFlow] at h
        rcases hc : o.currentBlock with _ | cur <;> rw [hc] at h
        · cases h
        · injection h with h
          subst h
          exact Pres_step_pushOp (Pres_refl o) cur _
      | ifBr cond sc =>
        rw [parseControlFlow] at h
        exact ihIf _ _ _ _ h
      | ifElse c s1 s2 =>
        rw [parseControlFlow] at h
        exact ihIfElse _ _ _ _ _ h
      | switch v cs sd =>
        rw [parseControlFlow] at h
        exact ihSwitch _ _ _ _ _ h
      | rangeLoop i st sp stp inc sc =>
        rw [parseControlFlow] at h
        exact ihFor _ _ _ _ _ _ _ _ h
      | loop sc =>
        rw [parseControlFlow] at h
        exact ihLoop _ _ _ h
      | ret =>
        rw [parseControlFlow] at h
        rcases hc : o.currentBlock with _ | cur <;> rw [hc] at h
        · cases h
        · injection h with h
          subst h
          exact Pres_step_setCursor_none
            (Pres_step_addEdge (Pres_refl o) cur o.ret)
      | brk =>
        rw [parseControlFlow] at h
        rcases hc : o.currentBlock with _ | cur <;> rw [hc] at h
        · cases h
        · rcases hlb : o.loopBreak with _ | ⟨lb, rest⟩ <;> rw [hlb] at h
          · cases h
          · injection h with h
            subst h
            exact Pres_step_setCursor_none
              (Pres_step_addEdge (Pres_refl o) cur lb)
    · intro o ss o' h
      rcases ss with _ | ⟨s, rest⟩
      · rw [parseStmts] at h
        injection h with h
        subst h
        exact Pres_refl o
      · rw [parseStmts] at h
        simp only [Bind.bind, Except.bind] at h
        split at h
        · cases h
        · rename_i o1 h1
          exact Pres_trans (ihCF _ _ _ h1) (ihStmts _ _ _ h)
    · intro o ss r h
      rw [parseScope] at h
      simp only [Bind.bind, Except.bind] at h
      split at h
      · cases h
      · rename_i o1 h1
        injection h with h
        subst h
        exact ihStmts _ _ _ h1

end CubeCFG

namespace CubeCFG

/-- A `Pres` step starting from a cursor-sound context with a unique return
node keeps the return node unique. -/
theorem RetUniq_of_pres {o o' : Opt} (hp : Pres o o') (hci : CInv o)
    (hru : RetUniq o) : RetUniq o' := by
  obtain ⟨m1, m2, m3, m4, m5, m6, m7, m8, m9⟩ := hp
  obtain ⟨hrlt, hr⟩ := hru
  refine ⟨by rw [m1]; omega, ?_⟩
  intro b hb
  constructor
  · intro hcf
    obtain ⟨hblt, hbo⟩ := m6 b hcf
    rw [m1]
    exact (hr b hblt).mp hbo
  · intro hbe
    subst hbe
    rw [m1]
    have hne : some o.ret ≠ o.currentBlock := by
      rcases hcc : o.currentBlock with _ | c
      · simp
      · obtain ⟨hclt, hcf⟩ := hci c hcc
        intro hcon
        injection hcon with hcon
        subst hcon
        rw [(hr o.ret hclt).mpr rfl] at hcf
        cases hcf
    rw [m5 o.ret hrlt hne]
    exact (hr o.ret hrlt).mpr rfl

/-- The initial context satisfies the cursor invariant. -/
theorem CInv_initOpt : CInv initOpt := by
  intro c hcc
  have hcc2 : some 0 = some c := hcc
  injection hcc2 with hcc2
  subst hcc2
  exact ⟨by decide, rfl⟩

/-- The initial context has a unique return node. -/
theorem RetUniq_initOpt : RetUniq initOpt := by
  refine ⟨by decide, ?_⟩
  intro b hb
  rcases b with _ | _ | n
  · exact ⟨fun h => (nomatch h), fun h => (nomatch h)⟩
  · exact ⟨fun _ => rfl, fun _ => rfl⟩
  · exact absurd hb (by have h2 : initOpt.len = 2 := rfl; omega)

/-- The initial context has no `Merge` flags at all. -/
theorem MergeInv_initOpt : MergeInv initOpt := by
  intro b hb hflag
  rcases b with _ | _ | n
  · exact absurd hflag (List.not_mem_nil _)
  · exact absurd hflag (List.not_mem_nil _)
  · exact absurd hb (by have h2 : initOpt.len = 2 := rfl; omega)

end CubeCFG

namespace CubeCFG

/-- C1, confirmed: any successful build from the initial context yields a
graph with exactly one canonical return node (the initial one); a `Return`
branch is lowered by adding an edge from the current block straight to the
canonical return node and unsetting the cursor; and the funnel value chosen
by `merge_ret` is the return node itself or a block with an edge to it. -/
theorem claim_C1 :
    (∀ (fuel : Nat) (stmts : List Stmt) (r : Opt × Bool),
      buildFn fuel stmts = .ok r →
      RetUniq r.1 ∧ r.1.ret = initOpt.ret) ∧
    (∀ (fuel : Nat) (opt : Opt) (c : Nat), opt.currentBlock = some c →
      parseControlFlow (fuel + 1) opt .ret =
        .ok ((opt.addEdge c opt.ret).setCursor Option.none)) ∧
    (∀ opt : Opt, (mergeRet opt).2 = opt.ret ∨
      ((mergeRet opt).2, opt.ret) ∈ (mergeRet opt).1.edges) := by
  refine ⟨?_, ?_, mergeRet_val⟩
  · intro fuel stmts r h
    have hp : Pres initOpt r.1 := (master fuel).2.2.1 initOpt stmts r h
    exact ⟨RetUniq_of_pres hp CInv_initOpt RetUniq_initOpt, hp.1⟩
  · intro fuel opt c hc
    rw [parseControlFlow, hc]

/-- Witness for C1 on a concrete build whose body returns inside a
conditional, plus the return-dispatch equation at the initial context. -/
theorem claim_C1_witness :
    (RetUniq ((buildFn 10 [Stmt.ifBr bVar [Stmt.ret]]).toOption.getD
        (initOpt, false)).1 ∧
      ((buildFn 10 [Stmt.ifBr bVar [Stmt.ret]]).toOption.getD
        (initOpt, false)).1.ret = initOpt.ret) ∧
    parseControlFlow 10 initOpt .ret =
      .ok ((initOpt.addEdge 0 initOpt.ret).setCursor Option.none) :=
  ⟨claim_C1.1 10 [Stmt.ifBr bVar [Stmt.ret]] _ rfl,
   claim_C1.2.1 9 initOpt 0 rfl⟩

end CubeCFG

namespace CubeCFG

/-- C7, refuted as stated: lowering `loop { break }` Merge-flags the loop's
`next` block (block 4), which is not a `merge_ret` funnel (it is not the
return node and has no edge to it), yet has in-degree 1: `parse_loop` never
adds the header-to-next edge, so only the break edge enters it. -/
theorem claim_C7_counterexample :
    (buildFn 20 [Stmt.loop [Stmt.brk]]).toOption.map
      (fun r => (decide (BlockUse.merge ∈ r.1.flags 4), r.1.indeg 4,
        decide (4 = r.1.ret), decide ((4, r.1.ret) ∈ r.1.edges))) =
      some (true, 1, false, false) := by
  decide

/-- C7, amended: in every context reachable by the builder from a
cursor-sound, merge-sound context (the initial context in particular),
every Merge-flagged block is justified: it has in-degree at least two, or
it funnels into the canonical return node (it is the return node or has an
edge to it), or it is the merge target recorded in some loop or switch
terminator. -/
theorem claim_C7 :
    (∀ (fuel : Nat) (stmts : List Stmt) (r : Opt × Bool),
      buildFn fuel stmts = .ok r → MergeInv r.1) ∧
    (∀ (fuel : Nat) (o : Opt) (ss : List Stmt) (r : Opt × Bool),
      CInv o → MergeInv o → parseScope fuel o ss = .ok r → MergeInv r.1) := by
  constructor
  · intro fuel stmts r h
    have hp : Pres initOpt r.1 := (master fuel).2.2.1 initOpt stmts r h
    exact hp.2.2.2.2.2.2.2.2 CInv_initOpt MergeInv_initOpt
  · intro fuel o ss r hci hmi h
    have hp : Pres o r.1 := (master fuel).2.2.1 o ss r h
    exact hp.2.2.2.2.2.2.2.2 hci hmi

/-- Witness for C7 on the concrete `loop { break }` build (block 4 is
Merge-flagged with in-degree 1 but carries the loop-merge justification)
and on a scope lowered from the initial context. -/
theorem claim_C7_witness :
    MergeInv ((buildFn 20 [Stmt.loop [Stmt.brk]]).toOption.getD
      (initOpt, false)).1 ∧
    MergeInv ((parseScope 10 initOpt [Stmt.ifBr bVar [Stmt.op 3]]).toOption.getD
      (initOpt, false)).1 :=
  ⟨claim_C7.1 20 [Stmt.loop [Stmt.brk]] _ rfl,
   claim_C7.2 10 initOpt [Stmt.ifBr bVar [Stmt.op 3]] _ CInv_initOpt
     MergeInv_initOpt rfl⟩

end CubeCFG
